import Mathlib

/-!
# MsgService: serial message framing, dispatch and handshake

A shallow embedding of `src/teensy/lib/MsgService/MsgService.cpp` and
`MsgService.h`.

Conventions of the embedding.

* `unsigned int`, `unsigned long` and `size_t` are 32 bits wide (the library is
  built for the 32-bit Teensy boards); their arithmetic is `Nat` arithmetic
  reduced modulo `UINT_MOD`.  `uint16_t` values are reduced modulo `2 ^ 16`,
  `uint8_t` values modulo `2 ^ 8`.
* A byte region (`inBuf`, `outBuf`) is a `List Nat`; a store to an index past
  the end of the list is dropped and a load from such an index yields `0`.
* The bound transport is the field `port`: `rx` holds the bytes the device has
  received and that were not read yet (`available()` is its length), `tx` the
  buffers handed to `write()`, oldest first.
* A user callback is external code.  It is represented by the address of the
  function together with the calls it makes on the public interface of the
  service (`ApiCall`): the typed writers and readers, the skips and the two
  forms of `send`.  User code that stores through the pointers `getRxBuf()`
  and `getTxBuf()` return, registers handlers from inside a callback or calls
  `poll` from inside a callback is outside the embedding.
* `trace` is a ghost field.  It records, oldest first, every `readBytes` call,
  every entry into `dispatchMsg`, and every callback invocation.
-/

namespace MsgSvc

/-! ## Machine arithmetic -/

/-- Number of values of an `unsigned int` (also `unsigned long`, `size_t`). -/
def UINT_MOD : Nat := 2 ^ 32

/-- Exclusive upper bound of a non-negative `int`. -/
def INT_LIMIT : Nat := 2 ^ 31

/-- Unsigned 32-bit addition. -/
def uadd (a b : Nat) : Nat := (a + b) % UINT_MOD

/-- Unsigned 32-bit subtraction (wraps around below zero). -/
def usub (a b : Nat) : Nat := (a % UINT_MOD + UINT_MOD - b % UINT_MOD) % UINT_MOD

/-- Conversion of an `int` to `uint8_t`. -/
def toU8 (v : Int) : Nat := (v % 256).toNat

/-- Conversion of an `int` to `uint16_t`. -/
def toU16 (v : Int) : Nat := (v % 65536).toNat

/-- Conversion of an `int` to `unsigned int`. -/
def toU32 (v : Int) : Nat := (v % 4294967296).toNat

/-- Reading of a byte as `int8_t`. -/
def toI8 (b : Nat) : Int := if b % 256 < 128 then (b % 256 : Nat) else ((b % 256 : Nat) : Int) - 256

/-- Conversion of a 16-bit pattern to `int16_t`. -/
def toI16 (b : Nat) : Int :=
  if b % 65536 < 32768 then (b % 65536 : Nat) else ((b % 65536 : Nat) : Int) - 65536

/-- Conversion of a 32-bit pattern to `int32_t`. -/
def toI32 (b : Nat) : Int :=
  if b % 4294967296 < 2147483648 then (b % 4294967296 : Nat)
  else ((b % 4294967296 : Nat) : Int) - 4294967296

/-! ## Constants of `MsgService.h` -/

/-- The magic start byte in front of each packet, `'#'`. -/
def MSG_PACKET_START_BYTE : Nat := 35

/-- The max time between characters when reading a packet. -/
def MSG_MAX_READ_DELAY : Nat := 5

/-- The value of `sizeof(struct msgHdr)`. -/
def sizeof_msgHdr : Nat := 8

/-- The value of `sizeof(struct msgConnect)`. -/
def sizeof_msgConnect : Nat := 8

/-! ## Byte regions -/

/-- Load of the `uint8_t` at `buf[i]`. -/
def byteAt (buf : List Nat) (i : Nat) : Nat := buf.getD i 0 % 256

/-- Store of the bytes `bs` at `buf[pos]`, `buf[pos+1]`, ... -/
def writeBytes (buf : List Nat) (pos : Nat) : List Nat → List Nat
  | [] => buf
  | b :: bs => writeBytes (buf.set pos b) (pos + 1) bs

/-- Store at an index computed in `int`; a negative index is outside the region. -/
def setInt (buf : List Nat) (i : Int) (v : Nat) : List Nat :=
  if i < 0 then buf else buf.set i.toNat v

/-- Little-endian bytes of a `uint16_t`. -/
def le16 (v : Nat) : List Nat := [v % 256, v / 256 % 256]

/-- Little-endian bytes of a `uint32_t`. -/
def le32 (v : Nat) : List Nat :=
  [v % 256, v / 256 % 256, v / 65536 % 256, v / 16777216 % 256]

/-- Load of a little-endian `uint16_t` at `buf[i]`. -/
def rd16 (buf : List Nat) (i : Nat) : Nat :=
  byteAt buf i + 256 * byteAt buf (i + 1)

/-- Load of a little-endian `uint32_t` at `buf[i]`. -/
def rd32 (buf : List Nat) (i : Nat) : Nat :=
  byteAt buf i + 256 * byteAt buf (i + 1)
    + 65536 * byteAt buf (i + 2) + 16777216 * byteAt buf (i + 3)

/-! ## `struct msgHdr` laid over a byte region -/

/-- Field `startByte` (offset 0). -/
def hdr_startByte (buf : List Nat) : Nat := byteAt buf 0

/-- Field `msgType` (offset 1). -/
def hdr_msgType (buf : List Nat) : Nat := byteAt buf 1

/-- Field `msgId` (offset 2). -/
def hdr_msgId (buf : List Nat) : Nat := byteAt buf 2

/-- Field `len` (offset 4, `uint16_t`). -/
def hdr_len (buf : List Nat) : Nat := rd16 buf 4

/-- The `n` payload bytes that follow the header. -/
def payloadOf (buf : List Nat) (n : Nat) : List Nat := (buf.drop sizeof_msgHdr).take n

/-! ## Data model -/

/-- One call on the public interface of the service, as made by user code. -/
inductive ApiCall where
  | txInt8 (v : Int)
  | txUint8 (v : Nat)
  | txChar (v : Nat)
  | txBool (v : Int)
  | txInt16 (v : Int)
  | txUint16 (v : Nat)
  | txInt32 (v : Int)
  | txUint32 (v : Nat)
  | txSkip (skip : Int)
  | rxInt8
  | rxUint8
  | rxChar
  | rxBool
  | rxInt16
  | rxUint16
  | rxInt32
  | rxUint32
  | rxSkip (skip : Int)
  | send (msgType msgId : Int)
  | sendLen (msgType msgId len : Int)
  deriving DecidableEq, Repr

/-- A user supplied callback: the address of the function and the calls it
makes on the service when it runs. -/
structure Callback where
  fn : Nat
  body : List ApiCall
  deriving DecidableEq, Repr

/-- A value of type `msgHandler`: the built-in `MsgService::connect` or a user
function. -/
inductive msgHandler where
  | connect
  | user (cb : Callback)
  deriving DecidableEq, Repr

/-- A single message handler in the handler list (`next` is the list tail). -/
structure msgHandlerNode where
  msgType : Int
  handler : msgHandler
  userData : Nat
  deriving DecidableEq, Repr

/-- Ghost record of what the service did. -/
inductive Event where
  /-- Call `port->readBytes(&inBuf[inPos],cnt)`; `avail` is what `available()`
  returned, `inPos` and `packetSize` are the fields at the call. -/
  | read (avail cnt inPos packetSize : Nat)
  /-- Entry into `dispatchMsg`; `buf` is the receive region at that time. -/
  | dispatch (buf : List Nat)
  /-- Call `node->handler(this,hdr,node->userData)` of a message handler node. -/
  | handler (node : msgHandlerNode)
  /-- Call `node->handler()` of a reset handler node. -/
  | reset (cb : Callback)
  deriving DecidableEq, Repr

/-- The transport behind `SerialWrapper`. -/
structure SerialWrapper where
  rx : List Nat
  tx : List (List Nat)
  deriving DecidableEq, Repr

/-- The fields of `class MsgService`, with the ghost `trace`. -/
structure MsgService where
  port : SerialWrapper
  connType : Nat
  connId : Nat
  remoteConnType : Nat
  remoteConnId : Nat
  msgHandlers : List msgHandlerNode
  resetHandlers : List Callback
  payloadSize : Nat
  packetSize : Nat
  inBufSize : Nat
  outBufSize : Nat
  inBuf : List Nat
  outBuf : List Nat
  inPos : Nat
  rxPos : Nat
  txPos : Nat
  timeout : Nat
  trace : List Event
  deriving DecidableEq, Repr

/-! ## Private functions of `MsgService.cpp` -/

/-- Reset the receive state of the service (`MsgService::resetReceiveState`). -/
def resetReceiveState (s : MsgService) : MsgService :=
  { s with
    payloadSize := 0
    packetSize := 0
    inPos := 0
    rxPos := sizeof_msgHdr
    txPos := sizeof_msgHdr
    timeout := 0 }

/-- Offset in `outBuf` of the pointer `getTxBuf()` returns (`outBuf+txPos`). -/
def getTxBuf (s : MsgService) : Nat := s.txPos

/-- Offset in `inBuf` of the pointer `getRxBuf()` returns (`inBuf+rxPos`). -/
def getRxBuf (s : MsgService) : Nat := s.rxPos

/-! ## Send path -/

/-- Send a message contained in the output buffer, `send(msgType,msgId,len)`.
The first component is the returned `int`.  The reserved header bytes (offsets
3, 6 and 7) are not stored; `write(outBuf,size)` is handed the first `size`
bytes of the region. -/
def send (s : MsgService) (msgType msgId len : Int) : Int × MsgService :=
  let b := s.outBuf.set 0 MSG_PACKET_START_BYTE
  let b := b.set 1 (toU8 msgType)
  let b := b.set 2 (toU8 msgId)
  let b := writeBytes b 4 (le16 (toU16 len))
  let size : Int := toI32 (toU32 ((sizeof_msgHdr : Int) + len))
  let b := setInt b size 0
  let b := setInt b (size + 1) 0
  let size : Int := size + 2
  (0, { s with
        outBuf := b
        port := { s.port with tx := s.port.tx ++ [b.take size.toNat] }
        txPos := sizeof_msgHdr })

/-- Send using the output position to compute the length, `send(msgType,msgId)`. -/
def send2 (s : MsgService) (msgType msgId : Int) : Int × MsgService :=
  send s msgType msgId (toI32 (usub s.txPos sizeof_msgHdr))

/-! ## Typed writers -/

/-- Store one byte at the transmit cursor and advance it: `outBuf[txPos++] = b`. -/
def txByte (s : MsgService) (b : Nat) : MsgService :=
  { s with outBuf := s.outBuf.set s.txPos b, txPos := uadd s.txPos 1 }

/-- Add an `int8_t` to the output buffer. -/
def txInt8 (s : MsgService) (v : Int) : MsgService := txByte s (toU8 v)

/-- Add a `uint8_t` to the output buffer. -/
def txUint8 (s : MsgService) (v : Nat) : MsgService := txByte s (v % 256)

/-- Add a character to the output buffer. -/
def txChar (s : MsgService) (v : Nat) : MsgService := txByte s (v % 256)

/-- Add a boolean to the output buffer. -/
def txBool (s : MsgService) (v : Int) : MsgService := txByte s (if v ≠ 0 then 1 else 0)

/-- Add an `int16_t` to the output buffer. -/
def txInt16 (s : MsgService) (v : Int) : MsgService :=
  txByte (txByte s (toU8 v)) (toU8 (v / 256))

/-- Add a `uint16_t` to the output buffer. -/
def txUint16 (s : MsgService) (v : Nat) : MsgService :=
  txByte (txByte s (v % 256)) (v / 256 % 256)

/-- Add an `int32_t` to the output buffer. -/
def txInt32 (s : MsgService) (v : Int) : MsgService :=
  txByte (txByte (txByte (txByte s (toU8 v)) (toU8 (v / 256))) (toU8 (v / 65536)))
    (toU8 (v / 16777216))

/-- Add a `uint32_t` to the output buffer. -/
def txUint32 (s : MsgService) (v : Nat) : MsgService :=
  txByte (txByte (txByte (txByte s (v % 256)) (v / 256 % 256)) (v / 65536 % 256))
    (v / 16777216 % 256)

/-- Skip the specified number of bytes in the output buffer. -/
def txSkip (s : MsgService) (skip : Int) : MsgService :=
  { s with txPos := toU32 ((s.txPos : Int) + skip) }

/-! ## Typed readers -/

/-- Load one byte at the receive cursor and advance it: `inBuf[rxPos++]`. -/
def rxByte (s : MsgService) : Nat × MsgService :=
  (byteAt s.inBuf s.rxPos, { s with rxPos := uadd s.rxPos 1 })

/-- Return the next byte as `int8_t`. -/
def rxInt8 (s : MsgService) : Int × MsgService :=
  let r := rxByte s
  (toI8 r.1, r.2)

/-- Return the next byte as `uint8_t`. -/
def rxUint8 (s : MsgService) : Nat × MsgService := rxByte s

/-- Return the next byte as a `char`. -/
def rxChar (s : MsgService) : Nat × MsgService := rxByte s

/-- Return the next byte as a boolean. -/
def rxBool (s : MsgService) : Int × MsgService :=
  let r := rxByte s
  (if r.1 ≠ 0 then 1 else 0, r.2)

/-- Return the next two bytes as an `int16_t`. -/
def rxInt16 (s : MsgService) : Int × MsgService :=
  let r0 := rxByte s
  let r1 := rxByte r0.2
  (toI16 (r0.1 ||| (r1.1 <<< 8)), r1.2)

/-- Return the next two bytes as a `uint16_t`. -/
def rxUint16 (s : MsgService) : Nat × MsgService :=
  let r0 := rxByte s
  let r1 := rxByte r0.2
  ((r0.1 ||| (r1.1 <<< 8)) % 65536, r1.2)

/-- Return the next four bytes as an `int32_t`. -/
def rxInt32 (s : MsgService) : Int × MsgService :=
  let r0 := rxByte s
  let r1 := rxByte r0.2
  let r2 := rxByte r1.2
  let r3 := rxByte r2.2
  (toI32 (r0.1 ||| (r1.1 <<< 8) ||| (r2.1 <<< 16) ||| (r3.1 <<< 24)), r3.2)

/-- Return the next four bytes as a `uint32_t`. -/
def rxUint32 (s : MsgService) : Nat × MsgService :=
  let r0 := rxByte s
  let r1 := rxByte r0.2
  let r2 := rxByte r1.2
  let r3 := rxByte r2.2
  ((r0.1 ||| (r1.1 <<< 8) ||| (r2.1 <<< 16) ||| (r3.1 <<< 24)) % 4294967296, r3.2)

/-- Skip the specified number of input bytes. -/
def rxSkip (s : MsgService) (skip : Int) : MsgService :=
  { s with rxPos := toU32 ((s.rxPos : Int) + skip) }

/-! ## User code -/

/-- Effect on the service of one call made by user code (results are dropped). -/
def runCall (c : ApiCall) (s : MsgService) : MsgService :=
  match c with
  | .txInt8 v => txInt8 s v
  | .txUint8 v => txUint8 s v
  | .txChar v => txChar s v
  | .txBool v => txBool s v
  | .txInt16 v => txInt16 s v
  | .txUint16 v => txUint16 s v
  | .txInt32 v => txInt32 s v
  | .txUint32 v => txUint32 s v
  | .txSkip n => txSkip s n
  | .rxInt8 => (rxInt8 s).2
  | .rxUint8 => (rxUint8 s).2
  | .rxChar => (rxChar s).2
  | .rxBool => (rxBool s).2
  | .rxInt16 => (rxInt16 s).2
  | .rxUint16 => (rxUint16 s).2
  | .rxInt32 => (rxInt32 s).2
  | .rxUint32 => (rxUint32 s).2
  | .rxSkip n => rxSkip s n
  | .send t i => (send2 s t i).2
  | .sendLen t i len => (send s t i len).2

/-- Effect of the calls a callback body makes, in order. -/
def runCalls : List ApiCall → MsgService → MsgService
  | [], s => s
  | c :: cs, s => runCalls cs (runCall c s)

/-! ## Handshake and dispatch -/

/-- The loop of `connect` over the reset handler list. -/
def resetNodes : List Callback → MsgService → MsgService
  | [], s => s
  | cb :: rest, s =>
      resetNodes rest (runCalls cb.body { s with trace := s.trace ++ [Event.reset cb] })

/-- The value `connect` stores in `out->maxPayloadSize`:
`inBufSize - sizeof(struct msgHdr) - 4`, converted to `uint16_t`. -/
def maxPayloadSize (s : MsgService) : Nat :=
  usub (usub s.inBufSize sizeof_msgHdr) 4 % 65536

/-- The bytes of the `struct msgConnect` that `connect` builds. -/
def connectResponse (s : MsgService) : List Nat :=
  le32 s.connId ++ le16 (maxPayloadSize s) ++ le16 s.connType

/-- First part of `connect` (lines 67-80): get the remote data, check for a
reset and call the reset handlers. -/
def connectIn (s : MsgService) : MsgService :=
  let i := getRxBuf s
  let inConnType := rd16 s.inBuf (i + 6)
  let inConnId := rd32 s.inBuf i
  let s := { s with remoteConnType := inConnType }
  if inConnId ≠ s.remoteConnId then
    resetNodes s.resetHandlers { s with remoteConnId := inConnId }
  else s

/-- Second part of `connect` (lines 82-89): build the response at `getTxBuf()`
and send it. -/
def connectOut (s : MsgService) : MsgService :=
  let o := getTxBuf s
  let s := { s with outBuf := writeBytes s.outBuf o (connectResponse s) }
  (send s 1 0 sizeof_msgConnect).2

/-- Process a connect message (`MsgService::connect`). -/
def connect (s : MsgService) : MsgService := connectOut (connectIn s)

/-- The call `node->handler(this,hdr,node->userData)`. -/
def invoke (n : msgHandlerNode) (s : MsgService) : MsgService :=
  let s := { s with trace := s.trace ++ [Event.handler n] }
  match n.handler with
  | .connect => connect s
  | .user cb => runCalls cb.body s

/-- The loop of `dispatchMsg` over the handler list. -/
def dispatchNodes : List msgHandlerNode → MsgService → MsgService
  | [], s => s
  | n :: rest, s =>
      dispatchNodes rest (if n.msgType = (hdr_msgType s.inBuf : Int) then invoke n s else s)

/-- Dispatch the current message to the associated handlers
(`MsgService::dispatchMsg`). -/
def dispatchMsg (s : MsgService) : MsgService :=
  dispatchNodes s.msgHandlers { s with trace := s.trace ++ [Event.dispatch s.inBuf] }

/-! ## Registration -/

/-- Register a message handler with the service; `mallocOk` tells whether the
allocation of the node succeeded. -/
def addHandler (s : MsgService) (msgType : Int) (handler : msgHandler) (userData : Nat)
    (mallocOk : Bool) : Int × MsgService :=
  if mallocOk then
    (0, { s with msgHandlers := ⟨msgType, handler, userData⟩ :: s.msgHandlers })
  else (-1, s)

/-- Register a reset handler with the service. -/
def addResetHandler (s : MsgService) (handler : Callback) (mallocOk : Bool) :
    Int × MsgService :=
  if mallocOk then (0, { s with resetHandlers := handler :: s.resetHandlers })
  else (-1, s)

/-! ## Receive state machine -/

/-- The count `poll` reads: what is available, limited to the buffer size and,
once the packet size is known, to the packet (lines 149-156). -/
def clampCount (s : MsgService) (avail : Nat) : Nat :=
  let cnt := avail % UINT_MOD
  let cnt := if uadd cnt s.inPos > s.inBufSize then usub s.inBufSize s.inPos else cnt
  if s.packetSize > 0 ∧ uadd cnt s.inPos > s.packetSize then usub s.packetSize s.inPos
  else cnt

/-- The call `port->readBytes(&inBuf[inPos],cnt)` (line 159). -/
def readBytes (s : MsgService) (cnt : Nat) : MsgService :=
  { s with
    inBuf := writeBytes s.inBuf s.inPos (s.port.rx.take cnt)
    port := { s.port with rx := s.port.rx.drop cnt }
    trace := s.trace ++ [Event.read s.port.rx.length cnt s.inPos s.packetSize] }

/-- Update of the position and the end-of-packet check (lines 181-199). -/
def finishRead (s : MsgService) (cnt : Nat) : MsgService :=
  let s := { s with inPos := uadd s.inPos cnt }
  if s.packetSize > 0 ∧ s.inPos ≥ s.packetSize then resetReceiveState (dispatchMsg s)
  else s

/-- The check made when the read completes the header, followed by the update
of the position (lines 161-199); `err` is the reset of lines 203-204. -/
def checkHeader (s : MsgService) (cnt : Nat) : MsgService :=
  if s.inPos < sizeof_msgHdr ∧ uadd s.inPos cnt ≥ sizeof_msgHdr then
    if hdr_startByte s.inBuf ≠ MSG_PACKET_START_BYTE then resetReceiveState s
    else if hdr_len s.inBuf > usub s.inBufSize sizeof_msgHdr then resetReceiveState s
    else
      finishRead
        { s with
          payloadSize := hdr_len s.inBuf
          packetSize := uadd (uadd (hdr_len s.inBuf) sizeof_msgHdr) 2 } cnt
  else finishRead s cnt

/-- The stall check and the new deadline (lines 142-147); `now1` and `now2`
are the values the two calls of `millis()` return. -/
def pollStart (s : MsgService) (now1 now2 : Nat) : MsgService :=
  let s := if now1 > s.timeout then resetReceiveState s else s
  { s with timeout := uadd now2 MSG_MAX_READ_DELAY }

/-- The receive side of the service (`MsgService::poll`); `now1` and `now2` are
the values the two calls of `millis()` return. -/
def poll (s : MsgService) (now1 now2 : Nat) : MsgService :=
  if s.port.rx.length % UINT_MOD > 0 then
    let avail := s.port.rx.length
    let s := pollStart s now1 now2
    let cnt := clampCount s avail
    checkHeader (readBytes s cnt) cnt
  else s

/-! ## Construction and runs -/

/-- The constructor `MsgService::MsgService`.  `entropy` is the value of
`Entropy.random()`, `inMem` and `outMem` the contents of the freshly allocated
regions, `mallocOk` whether the node of the connect handler was allocated. -/
def construct (port : SerialWrapper) (connType inBufSize outBufSize : Nat)
    (entropy : Nat) (inMem outMem : List Nat) (mallocOk : Bool) : MsgService :=
  let s : MsgService :=
    { port := port
      connType := connType % 65536
      connId := entropy % UINT_MOD
      remoteConnType := 0
      remoteConnId := 0
      msgHandlers := []
      resetHandlers := []
      payloadSize := 0
      packetSize := 0
      inBufSize := inBufSize % UINT_MOD
      outBufSize := outBufSize % UINT_MOD
      inBuf := (List.range (inBufSize % UINT_MOD)).map (fun i => inMem.getD i 0)
      outBuf := (List.range (outBufSize % UINT_MOD)).map (fun i => outMem.getD i 0)
      inPos := 0
      rxPos := 0
      txPos := 0
      timeout := 0
      trace := [] }
  resetReceiveState (addHandler s 0 msgHandler.connect 0 mallocOk).2

/-- Bytes arrive at the device and wait in the transport. -/
def arrive (s : MsgService) (bytes : List Nat) : MsgService :=
  { s with port := { s.port with rx := s.port.rx ++ bytes } }

/-- One thing the program around the service does. -/
inductive Action where
  | arrive (bytes : List Nat)
  | poll (now1 now2 : Nat)
  | call (c : ApiCall)
  | addHandler (msgType : Int) (handler : Callback) (userData : Nat) (mallocOk : Bool)
  | addResetHandler (handler : Callback) (mallocOk : Bool)
  deriving DecidableEq, Repr

/-- Effect of one action. -/
def step (s : MsgService) : Action → MsgService
  | .arrive bytes => arrive s bytes
  | .poll now1 now2 => poll s now1 now2
  | .call c => runCall c s
  | .addHandler t h d ok => (addHandler s t (msgHandler.user h) d ok).2
  | .addResetHandler h ok => (addResetHandler s h ok).2

/-- Effect of a sequence of actions. -/
def exec (s : MsgService) : List Action → MsgService
  | [] => s
  | a :: rest => exec (step s a) rest

/-- One delivery: the bytes of `chunk` arrive, then `poll` runs with the clock
readings `now1` and `now2`. -/
structure Delivery where
  chunk : List Nat
  now1 : Nat
  now2 : Nat
  deriving DecidableEq, Repr

/-- Deliver chunk after chunk, one `poll` per chunk. -/
def feed (s : MsgService) : List Delivery → MsgService
  | [] => s
  | d :: rest => feed (poll (arrive s d.chunk) d.now1 d.now2) rest

/-! ## Observations on the trace -/

/-- The receive regions seen by the entries into `dispatchMsg`, oldest first. -/
def dispatches : List Event → List (List Nat)
  | [] => []
  | Event.dispatch buf :: rest => buf :: dispatches rest
  | _ :: rest => dispatches rest

/-- The handler nodes invoked, oldest first. -/
def handlerCalls : List Event → List msgHandlerNode
  | [] => []
  | Event.handler n :: rest => n :: handlerCalls rest
  | _ :: rest => handlerCalls rest

/-- The reset callbacks invoked, oldest first. -/
def resetCalls : List Event → List Callback
  | [] => []
  | Event.reset cb :: rest => cb :: resetCalls rest
  | _ :: rest => resetCalls rest

/-- The `readBytes` calls made, oldest first: what `available()` had returned,
the count passed, and `inPos` and `packetSize` at the call. -/
def readCalls : List Event → List (Nat × Nat × Nat × Nat)
  | [] => []
  | Event.read avail cnt inPos packetSize :: rest =>
      (avail, cnt, inPos, packetSize) :: readCalls rest
  | _ :: rest => readCalls rest

/-! ## Relations used in the statements -/

/-- The receive region was allocated with the size the service records, a
value of `unsigned int`. -/
def RxAllocated (s : MsgService) : Prop :=
  s.inBuf.length = s.inBufSize ∧ s.inBufSize < UINT_MOD

/-- The transmit region was allocated with the size the service records, a
value of `unsigned int`. -/
def TxAllocated (s : MsgService) : Prop :=
  s.outBuf.length = s.outBufSize ∧ s.outBufSize < UINT_MOD

/-- A well-formed frame that fits a receive region of `n` bytes: start byte
`'#'`, total length header + declared payload length + trailer, at most `n`. -/
def ValidFrame (f : List Nat) (n : Nat) : Prop :=
  hdr_startByte f = MSG_PACKET_START_BYTE ∧
  f.length = sizeof_msgHdr + hdr_len f + 2 ∧ f.length ≤ n

/-- No stall deadline expires during the deliveries `ds` when the stored
deadline is `deadline` before the first of them. -/
def NoStall : Nat → List Delivery → Prop
  | _, [] => True
  | deadline, d :: rest =>
      ¬ d.now1 > deadline ∧ NoStall (uadd d.now2 MSG_MAX_READ_DELAY) rest

/-- The receiver has taken the first `k` bytes of the frame `f` into a region
whose other bytes are those of `b`, and the transport is empty. -/
def Assembling (f b : List Nat) (k : Nat) (s : MsgService) : Prop :=
  s.inPos = k ∧ s.inBuf = f.take k ++ b.drop k ∧ s.port.rx = [] ∧
  b.length = s.inBufSize ∧ s.inBufSize < UINT_MOD ∧
  (k < 8 → s.packetSize = 0) ∧
  (8 ≤ k → s.packetSize = f.length ∧ s.payloadSize = hdr_len f)

/-- The service `s` once the frame `f` is complete in a region whose other
bytes are those of `b`, before the dispatch: `t` is the stored deadline and
`ev` what the polls added to the trace. -/
def assembled (s : MsgService) (f b : List Nat) (t : Nat) (ev : List Event) : MsgService :=
  { s with
    timeout := t
    inBuf := f ++ b.drop f.length
    port := { s.port with rx := [] }
    trace := s.trace ++ ev
    inPos := f.length
    payloadSize := hdr_len f
    packetSize := f.length }

/-- The events are `readBytes` calls only. -/
def OnlyReads (ev : List Event) : Prop :=
  dispatches ev = [] ∧ handlerCalls ev = [] ∧ resetCalls ev = []

/-- No stall deadline expires between the deliveries `ds` (the deadline the
first poll finds is not constrained). -/
def NoStallBetween : List Delivery → Prop
  | [] => True
  | d :: rest => NoStall (uadd d.now2 MSG_MAX_READ_DELAY) rest

/-- The transmit region `buf` after `send(t,i,L)` stored the header fields and
the two trailer bytes, for a length `L` that fits the length field. -/
def sendRegion (buf : List Nat) (t i : Int) (L : Nat) : List Nat :=
  ((((((buf.set 0 MSG_PACKET_START_BYTE).set 1 (toU8 t)).set 2 (toU8 i)).set 4 (L % 256)).set 5
    (L / 256)).set (8 + L) 0).set (9 + L) 0

/-- The receive state: `payloadSize`, `packetSize`, `inPos`, `rxPos`, `txPos`
and the deadline. -/
def recvState (s : MsgService) : Nat × Nat × Nat × Nat × Nat × Nat :=
  (s.payloadSize, s.packetSize, s.inPos, s.rxPos, s.txPos, s.timeout)

/-- The handler nodes `dispatchMsg` invokes for a packet whose receive region
is `buf`: those of the list `l` whose type is the type in the header. -/
def matching (l : List msgHandlerNode) (buf : List Nat) : List msgHandlerNode :=
  l.filter (fun n => n.msgType = (hdr_msgType buf : Int))

/-- The receive state invariant between polls: no header seen and fewer than
eight bytes held, or a packet size from a validated header, at least the
header held and fewer bytes held than the packet has; never more bytes held
than the region has. -/
def Sane (s : MsgService) : Prop :=
  s.inBufSize < UINT_MOD ∧ s.inPos ≤ s.inBufSize ∧
  ((s.packetSize = 0 ∧ s.inPos < 8) ∨
   (0 < s.packetSize ∧ s.packetSize ≤ 65545 ∧ 8 ≤ s.inPos ∧ s.inPos < s.packetSize))

/-- A `readBytes` call `(avail, cnt, inPos, packetSize)` respects the bounds
for a receive region of `n` bytes: the count is at most what `available()`
returned, at most the room left in the region, and, when the packet size is
known, at most what the packet still lacks; the two subtractions do not wrap. -/
def GoodRead (n : Nat) (e : Nat × Nat × Nat × Nat) : Prop :=
  e.2.1 ≤ e.1 ∧ e.2.2.1 ≤ n ∧ e.2.1 ≤ n - e.2.2.1 ∧
  (e.2.2.2 ≠ 0 → e.2.2.1 ≤ e.2.2.2 ∧ e.2.1 ≤ e.2.2.2 - e.2.2.1)

/-- At every poll of the run `available()` returns a non-negative `int`: the
transport holds fewer than `2^31` bytes. -/
def AvailInt : MsgService → List Action → Prop
  | _, [] => True
  | s, a :: rest =>
      (match a with
        | Action.poll _ _ => s.port.rx.length < INT_LIMIT
        | _ => True) ∧ AvailInt (step s a) rest

/-- Successful registrations of the nodes of a list, in list order. -/
def registerAll (s : MsgService) : List msgHandlerNode → MsgService
  | [] => s
  | n :: rest => registerAll (addHandler s n.msgType n.handler n.userData true).2 rest

/-- A handshake request as it arrives: what the peer sends and the clock
readings of the poll that finds it. -/
structure Request where
  connId : Nat
  maxPayloadSize : Nat
  connType : Nat
  now1 : Nat
  now2 : Nat
  deriving DecidableEq, Repr

/-- The frame of a handshake request: type 0, id 0, payload `struct msgConnect`. -/
def handshakeRequest (r : Request) : List Nat :=
  [35, 0, 0, 0, 8, 0, 0, 0] ++ le32 r.connId ++ le16 r.maxPayloadSize ++ le16 r.connType ++ [0, 0]

/-- The node the constructor registers: `addHandler(0,connect,NULL)`. -/
def connectNode : msgHandlerNode := ⟨0, msgHandler.connect, 0⟩

/-- The action is a registration whose allocation fails. -/
def failedRegistration : Action → Bool
  | .addHandler _ _ _ ok => !ok
  | .addResetHandler _ ok => !ok
  | _ => false

/-- The packet size `poll` holds at the end-of-packet check (line 185) when it
has read `cnt` bytes and `s` is the service after the read: the size derived
from the header when the read completes a header that passes the two checks,
the size stored otherwise; `none` when the header is rejected, in which case
the check is not reached. -/
def sizeAtCheck (s : MsgService) (cnt : Nat) : Option Nat :=
  if s.inPos < sizeof_msgHdr ∧ uadd s.inPos cnt ≥ sizeof_msgHdr then
    if hdr_startByte s.inBuf ≠ MSG_PACKET_START_BYTE then none
    else if hdr_len s.inBuf > usub s.inBufSize sizeof_msgHdr then none
    else some (uadd (uadd (hdr_len s.inBuf) sizeof_msgHdr) 2)
  else some s.packetSize

/-- The invariant of the receive state: `packetSize` is 0 or is
`payloadSize + 8 + 2` with `payloadSize` at most `inBufSize - 8`; `inPos` does
not exceed `packetSize` once that is nonzero; `inPos` does not exceed
`inBufSize`. -/
def RecvInvariant (s : MsgService) : Prop :=
  (s.packetSize = 0 ∨
    (s.packetSize = s.payloadSize + sizeof_msgHdr + 2 ∧
      s.payloadSize + sizeof_msgHdr ≤ s.inBufSize)) ∧
  (s.packetSize ≠ 0 → s.inPos ≤ s.packetSize) ∧ s.inPos ≤ s.inBufSize

/-- A header was accepted whose packet is larger than the receive region: the
packet size is known and exceeds `inBufSize`, at least the header is held. -/
def Undeliverable (s : MsgService) : Prop :=
  s.inBufSize < UINT_MOD ∧ s.inBufSize < s.packetSize ∧ s.packetSize ≤ 65545 ∧
  8 ≤ s.inPos ∧ s.inPos ≤ s.inBufSize

/-- The chunks of a list of deliveries, one after the other. -/
def chunksOf (ds : List Delivery) : List Nat := (ds.map Delivery.chunk).flatten

/-- Every delivery brings at least one byte. -/
def NonEmptyChunks (ds : List Delivery) : Prop := ∀ d ∈ ds, d.chunk ≠ []

/-- The fields user code cannot reach are the same in `s` and `t`. -/
def Keeps (s t : MsgService) : Prop :=
  t.inBuf = s.inBuf ∧ t.inBufSize = s.inBufSize ∧ t.outBufSize = s.outBufSize ∧
  t.port.rx = s.port.rx ∧ t.inPos = s.inPos ∧ t.packetSize = s.packetSize ∧
  t.payloadSize = s.payloadSize ∧ t.timeout = s.timeout ∧
  t.msgHandlers = s.msgHandlers ∧ t.resetHandlers = s.resetHandlers ∧
  t.connId = s.connId ∧ t.connType = s.connType

/-! ## Typed values -/

/-- Byte `k` of the integer `v`: `(v >> 8k) & 0xff`. -/
def byteOf (v : Int) (k : Nat) : Nat := ((v >>> (8 * k)) % 256).toNat

/-- A value together with the type of the typed writer and reader that handle
it. -/
inductive Value where
  | int8 (v : Int)
  | uint8 (v : Nat)
  | char (v : Nat)
  | bool (v : Int)
  | int16 (v : Int)
  | uint16 (v : Nat)
  | int32 (v : Int)
  | uint32 (v : Nat)
  deriving DecidableEq, Repr

/-- The typed writer of the type of the value, applied to the value. -/
def txValue (s : MsgService) : Value → MsgService
  | .int8 v => txInt8 s v
  | .uint8 v => txUint8 s v
  | .char v => txChar s v
  | .bool v => txBool s v
  | .int16 v => txInt16 s v
  | .uint16 v => txUint16 s v
  | .int32 v => txInt32 s v
  | .uint32 v => txUint32 s v

/-- The typed reader of the type of `ty` (the value `ty` carries is not used);
the result carries the value the reader returns. -/
def rxValue (s : MsgService) : Value → Value × MsgService
  | .int8 _ => (Value.int8 (rxInt8 s).1, (rxInt8 s).2)
  | .uint8 _ => (Value.uint8 (rxUint8 s).1, (rxUint8 s).2)
  | .char _ => (Value.char (rxChar s).1, (rxChar s).2)
  | .bool _ => (Value.bool (rxBool s).1, (rxBool s).2)
  | .int16 _ => (Value.int16 (rxInt16 s).1, (rxInt16 s).2)
  | .uint16 _ => (Value.uint16 (rxUint16 s).1, (rxUint16 s).2)
  | .int32 _ => (Value.int32 (rxInt32 s).1, (rxInt32 s).2)
  | .uint32 _ => (Value.uint32 (rxUint32 s).1, (rxUint32 s).2)

/-- A sequence of typed writes, in order. -/
def txValues (s : MsgService) : List Value → MsgService
  | [] => s
  | v :: rest => txValues (txValue s v) rest

/-- A sequence of typed reads, in order, with the values read. -/
def rxValues (s : MsgService) : List Value → List Value × MsgService
  | [] => ([], s)
  | ty :: rest => ((rxValue s ty).1 :: (rxValues (rxValue s ty).2 rest).1,
      (rxValues (rxValue s ty).2 rest).2)

/-- Width in bytes of the type of a value. -/
def Value.width : Value → Nat
  | .int8 _ => 1
  | .uint8 _ => 1
  | .char _ => 1
  | .bool _ => 1
  | .int16 _ => 2
  | .uint16 _ => 2
  | .int32 _ => 4
  | .uint32 _ => 4

/-- The value is a value of its type (any `int` is taken as a boolean). -/
def Value.InRange : Value → Prop
  | .int8 v => -128 ≤ v ∧ v < 128
  | .uint8 v => v < 256
  | .char v => v < 256
  | .bool _ => True
  | .int16 v => -32768 ≤ v ∧ v < 32768
  | .uint16 v => v < 65536
  | .int32 v => -2147483648 ≤ v ∧ v < 2147483648
  | .uint32 v => v < 4294967296

/-- The little-endian encoding of a value: one byte `v mod 256` for the 8-bit
types, `0x01` or `0x00` for a boolean, the bytes `(v >> 8k) & 0xff` for
`k = 0, 1` for the 16-bit types and for `k = 0 .. 3` for the 32-bit types. -/
def Value.bytes : Value → List Nat
  | .int8 v => [(v % 256).toNat]
  | .uint8 v => [v % 256]
  | .char v => [v % 256]
  | .bool v => [if v ≠ 0 then 1 else 0]
  | .int16 v => [byteOf v 0, byteOf v 1]
  | .uint16 v => [byteOf v 0, byteOf v 1]
  | .int32 v => [byteOf v 0, byteOf v 1, byteOf v 2, byteOf v 3]
  | .uint32 v => [byteOf v 0, byteOf v 1, byteOf v 2, byteOf v 3]

/-- The encodings of a sequence of values, one after the other. -/
def encode (vs : List Value) : List Nat := (vs.map Value.bytes).flatten

/-- What reading a written value back is to give: the value itself, and 1 or 0
for a boolean written as nonzero or zero. -/
def Value.decoded : Value → Value
  | .bool v => .bool (if v ≠ 0 then 1 else 0)
  | v => v

/-! ## Concrete services and inputs -/

/-- A service with 32-byte regions filled with zeros, as constructed. -/
def exampleService : MsgService :=
  construct ⟨[], []⟩ 7 32 32 305419896 [] [] true

/-- The example service after user code wrote the payload bytes 1, 2, 3. -/
def exampleSender : MsgService :=
  runCalls [ApiCall.txUint8 1, ApiCall.txUint8 2, ApiCall.txUint8 3] exampleService

/-- The frame `send(5,9,3)` of the example sender hands to the transport. -/
def exampleFrame : List Nat := [35, 5, 9, 0, 3, 0, 0, 0, 1, 2, 3, 0, 0]

/-- The example frame delivered in two chunks, the second poll one
millisecond after the first. -/
def exampleDeliveries : List Delivery :=
  [⟨[35, 5, 9], 100, 100⟩, ⟨[0, 3, 0, 0, 0, 1, 2, 3, 0, 0], 101, 101⟩]

/-- The example frame delivered one byte per poll, all polls within the same
millisecond. -/
def exampleByteDeliveries : List Delivery := exampleFrame.map (fun b => ⟨[b], 100, 100⟩)

/-- The example frame delivered in a single poll. -/
def exampleWholeDelivery : Delivery := ⟨exampleFrame, 50, 51⟩

/-- The header and two payload bytes of the example frame, in one chunk. -/
def partDeliveries : List Delivery := [⟨exampleFrame.take 10, 100, 100⟩]

/-- A second frame: type 6, id 1, one payload byte. -/
def secondFrame : List Nat := [35, 6, 1, 0, 1, 0, 0, 0, 42, 0, 0]

/-- The second frame in one chunk, polled 100 ms after the example deliveries. -/
def secondDelivery : Delivery := ⟨secondFrame, 200, 200⟩

/-- A byte that is not the magic byte, alone in a chunk. -/
def garbageDelivery : Delivery := ⟨[99], 100, 100⟩

/-- A byte that is not the magic byte followed by the example frame, all in
one chunk. -/
def garbageFrameDelivery : Delivery := ⟨99 :: exampleFrame, 100, 100⟩

/-- The example frame in one chunk, polled 100 ms after the garbage byte. -/
def lateFrameDelivery : Delivery := ⟨exampleFrame, 200, 200⟩

/-- The example service with a header in the transport that declares a payload
of `inBufSize - 8 = 24` bytes. -/
def acceptService : MsgService := arrive exampleService [35, 1, 0, 0, 24, 0, 0, 0]

/-- The example service with a header in the transport that declares a payload
of `inBufSize - 7 = 25` bytes. -/
def rejectService : MsgService := arrive exampleService [35, 1, 0, 0, 25, 0, 0, 0]

/-- A run of the program around the service: bytes arrive and are polled,
user code registers a handler and writes to the transmit region in between. -/
def exampleRun : List Action :=
  [Action.arrive [35, 5, 9, 0, 3, 0, 0, 0], Action.poll 100 100,
   Action.addHandler 5 ⟨1, [ApiCall.rxUint8, ApiCall.txUint8 7, ApiCall.send 6 0]⟩ 0 true,
   Action.arrive [1, 2, 3, 0, 0, 35, 5], Action.poll 101 101,
   Action.call (ApiCall.txUint16 513), Action.poll 102 102, Action.poll 300 300]

/-- The example service with the example frame and the first three bytes of a
next frame in the transport, all available at once. -/
def burstService : MsgService := arrive exampleService (exampleFrame ++ [35, 5, 9])

/-- The example service with two reset callbacks registered, 11 then 12. -/
def handshakeService : MsgService :=
  (addResetHandler
    (addResetHandler exampleService ⟨11, []⟩ true).2
    ⟨12, [ApiCall.txUint8 9, ApiCall.send 7 0]⟩ true).2

/-- A handshake request arrives in two parts; between the two polls user code
writes four bytes to the transmit region without sending them. -/
def cursorRun : List Action :=
  [Action.arrive ((handshakeRequest ⟨77, 0, 3, 0, 0⟩).take 10), Action.poll 100 100,
   Action.call (ApiCall.txUint32 2864434397),
   Action.arrive ((handshakeRequest ⟨77, 0, 3, 0, 0⟩).drop 10), Action.poll 101 101]

/-- A frame with no payload and type and id 0, delivered in one chunk. -/
def typeDeliveries : List Delivery := [⟨[35, 0, 0, 0, 0, 0, 0, 0, 0, 0], 0, 0⟩]

/-- A sender whose transmit region has 65546 bytes, all of them 1. -/
def bigSender : MsgService :=
  { exampleService with outBufSize := 65546, outBuf := List.replicate 65546 1 }

/-- A receiver whose receive region has 65546 bytes, all of them 0. -/
def bigReceiver : MsgService :=
  { exampleService with inBufSize := 65546, inBuf := List.replicate 65546 0 }

/-- The 65546 bytes `send(1,2,65536)` of the big sender hands to the transport:
the length field holds `65536 mod 2^16 = 0`. -/
def bigFrame : List Nat :=
  (((((((List.replicate 65546 1).set 0 35).set 1 1).set 2 2).set 4 0).set 5 0).set 65544 0).set
    65545 0

/-- The big frame delivered in two chunks: its first ten bytes, then the rest. -/
def bigDeliveries : List Delivery := [⟨bigFrame.take 10, 0, 0⟩, ⟨bigFrame.drop 10, 0, 0⟩]

/-- A service whose transmit region was allocated in memory that held the byte
255 everywhere (`malloc` does not clear the memory it returns). -/
def staleService : MsgService :=
  construct ⟨[], []⟩ 7 32 32 305419896 [] (List.replicate 32 255) true

/-- Three values for the typed writers: a `uint8_t`, a negative `int16_t` and a
boolean given as 5; four bytes in all. -/
def exampleValues : List Value := [Value.uint8 1, Value.int16 (-2), Value.bool 5]

/-- One value of each type, with the extremes of the signed types and bytes
that have the top bit set; sixteen bytes in all. -/
def roundTripValues : List Value :=
  [Value.int8 (-128), Value.uint8 200, Value.char 65, Value.bool 5, Value.int16 (-2),
   Value.uint16 65535, Value.int32 (-2147483648), Value.uint32 4294967295]

/-- A receiver whose receive region holds, from offset 8 on, what the typed
writers stored for the round trip values in the example service. -/
def roundTripReceiver : MsgService :=
  { exampleService with inBuf := (txValues exampleService roundTripValues).outBuf }

/-- The example service with two handlers registered for type 5 that leave
both cursors away from 8 (the second one also sends a frame), and the example
frame in the transport. -/
def cursorService : MsgService :=
  arrive
    (registerAll exampleService
      [⟨5, msgHandler.user ⟨21, [ApiCall.rxSkip 100, ApiCall.txUint8 7, ApiCall.txSkip 50]⟩, 0⟩,
       ⟨5, msgHandler.user ⟨22, [ApiCall.rxUint16, ApiCall.send 6 0, ApiCall.txUint32 9]⟩, 1⟩])
    exampleFrame

/-- The start of a run: a header that declares three payload bytes arrives and
is polled. -/
def headerRun : List Action :=
  [Action.arrive [35, 5, 9, 0, 3, 0, 0, 0], Action.poll 100 100]

/-- Thirty bytes delivered in two chunks after the header of the accept
service, each poll within the deadline of the poll before. -/
def stuckDeliveries : List Delivery :=
  [⟨List.replicate 20 1, 2, 2⟩, ⟨List.replicate 10 2, 3, 3⟩]

/-- One more byte, polled within the deadline of the stuck deliveries. -/
def nextByteDelivery : Delivery := ⟨[9], 4, 4⟩

/-- One more byte, polled after the deadline of the stuck deliveries. -/
def lateByteDelivery : Delivery := ⟨[9], 100, 100⟩

/-- A frame whose payload has the 20 bytes the example service advertises as
its maximum (`inBufSize - 12` with `inBufSize = 32`). -/
def maxFrame : List Nat := [35, 5, 9, 0, 20, 0, 0, 0] ++ List.replicate 20 7 ++ [0, 0]

/-- The maximal frame delivered in two chunks, the second poll one millisecond
after the first. -/
def maxFrameDeliveries : List Delivery :=
  [⟨maxFrame.take 12, 10, 10⟩, ⟨maxFrame.drop 12, 11, 11⟩]

/-- Three user registrations, in the order they are made: for the types 261
and -251, which both are 5 modulo 256, and for type 5. -/
def wideTypeRegistrations : List msgHandlerNode :=
  [⟨261, msgHandler.user ⟨41, []⟩, 0⟩, ⟨-251, msgHandler.user ⟨42, []⟩, 0⟩,
   ⟨5, msgHandler.user ⟨43, []⟩, 0⟩]

/-- The example service with the three registrations made and the example
frame (type 5) complete in the receive region. -/
def wideTypeService : MsgService :=
  { registerAll exampleService wideTypeRegistrations with
    inBuf := exampleFrame ++ List.replicate 19 0 }

/-- A run from construction: the three registrations, then the example frame
arrives and is polled. -/
def wideTypeRun : List Action :=
  [Action.addHandler 261 ⟨41, []⟩ 0 true, Action.addHandler (-251) ⟨42, []⟩ 0 true,
   Action.addHandler 5 ⟨43, []⟩ 0 true, Action.arrive exampleFrame, Action.poll 100 100]

/-- The value `0x02020202` as `uint32_t`, 16384 times: 65536 bytes for the
typed writers. -/
def wideValues : List Value := List.replicate 16384 (Value.uint32 33686018)

/-! # Theorems -/

/-! ## Machine arithmetic -/

theorem uadd_eq {a b : Nat} (h : a + b < UINT_MOD) : uadd a b = a + b := by
  unfold uadd; exact Nat.mod_eq_of_lt h

theorem usub_eq {a b : Nat} (hb : b ≤ a) (ha : a < UINT_MOD) : usub a b = a - b := by
  unfold usub
  have hb1 : b < UINT_MOD := lt_of_le_of_lt hb ha
  rw [Nat.mod_eq_of_lt ha, Nat.mod_eq_of_lt hb1]
  have h : a + UINT_MOD - b = (a - b) + UINT_MOD := by omega
  rw [h, Nat.add_mod_right]
  exact Nat.mod_eq_of_lt (by omega)

/-! ## Observations on appended traces -/

theorem dispatches_append (a b : List Event) :
    dispatches (a ++ b) = dispatches a ++ dispatches b := by
  induction a with
  | nil => rfl
  | cons e a ih => cases e <;> simp [dispatches, ih]

theorem handlerCalls_append (a b : List Event) :
    handlerCalls (a ++ b) = handlerCalls a ++ handlerCalls b := by
  induction a with
  | nil => rfl
  | cons e a ih => cases e <;> simp [handlerCalls, ih]

theorem readCalls_append (a b : List Event) :
    readCalls (a ++ b) = readCalls a ++ readCalls b := by
  induction a with
  | nil => rfl
  | cons e a ih => cases e <;> simp [readCalls, ih]

theorem dispatches_map_reset (l : List Callback) : dispatches (l.map Event.reset) = [] := by
  induction l with
  | nil => rfl
  | cons c l ih => simpa [dispatches] using ih

theorem handlerCalls_map_reset (l : List Callback) :
    handlerCalls (l.map Event.reset) = [] := by
  induction l with
  | nil => rfl
  | cons c l ih => simpa [handlerCalls] using ih

theorem readCalls_map_reset (l : List Callback) : readCalls (l.map Event.reset) = [] := by
  induction l with
  | nil => rfl
  | cons c l ih => simpa [readCalls] using ih

theorem Keeps.refl (s : MsgService) : Keeps s s := by simp [Keeps]

theorem Keeps.trans {a b c : MsgService} (h1 : Keeps a b) (h2 : Keeps b c) : Keeps a c := by
  simp only [Keeps] at *
  obtain ⟨h1a, h1b, h1c, h1d, h1e, h1f, h1g, h1h, h1i, h1j, h1k, h1l⟩ := h1
  obtain ⟨h2a, h2b, h2c, h2d, h2e, h2f, h2g, h2h, h2i, h2j, h2k, h2l⟩ := h2
  refine ⟨?_, ?_, ?_, ?_, ?_, ?_, ?_, ?_, ?_, ?_, ?_, ?_⟩ <;> simp [*]

theorem keeps_runCall (c : ApiCall) (s : MsgService) : Keeps s (runCall c s) := by
  cases c <;> simp [Keeps, runCall, txInt8, txUint8, txChar, txBool, txInt16, txUint16, txInt32,
    txUint32, txSkip, txByte, rxInt8, rxUint8, rxChar, rxBool, rxInt16, rxUint16, rxInt32,
    rxUint32, rxSkip, rxByte, send2, send]

theorem trace_runCall (c : ApiCall) (s : MsgService) : (runCall c s).trace = s.trace := by
  cases c <;> simp [runCall, txInt8, txUint8, txChar, txBool, txInt16, txUint16, txInt32,
    txUint32, txSkip, txByte, rxInt8, rxUint8, rxChar, rxBool, rxInt16, rxUint16, rxInt32,
    rxUint32, rxSkip, rxByte, send2, send]

theorem keeps_runCalls (cs : List ApiCall) (s : MsgService) : Keeps s (runCalls cs s) := by
  induction cs generalizing s with
  | nil => exact Keeps.refl s
  | cons c cs ih => exact (keeps_runCall c s).trans (ih _)

theorem trace_runCalls (cs : List ApiCall) (s : MsgService) :
    (runCalls cs s).trace = s.trace := by
  induction cs generalizing s with
  | nil => rfl
  | cons c cs ih => simp [runCalls, ih, trace_runCall]

theorem keeps_resetNodes (l : List Callback) (s : MsgService) :
    Keeps s (resetNodes l s) := by
  induction l generalizing s with
  | nil => exact Keeps.refl s
  | cons cb l ih =>
    refine Keeps.trans ?_ (ih _)
    refine Keeps.trans ?_ (keeps_runCalls _ _)
    simp [Keeps]

theorem trace_resetNodes (l : List Callback) (s : MsgService) :
    (resetNodes l s).trace = s.trace ++ l.map Event.reset := by
  induction l generalizing s with
  | nil => simp [resetNodes]
  | cons cb l ih => simp [resetNodes, ih, trace_runCalls]

theorem keeps_connect (s : MsgService) : Keeps s (connect s) := by
  unfold connect connectOut connectIn
  by_cases h : rd32 s.inBuf (getRxBuf s) = s.remoteConnId
  · simp [h, Keeps, send]
  · have hk := keeps_resetNodes s.resetHandlers
      { s with remoteConnType := rd16 s.inBuf (getRxBuf s + 6),
               remoteConnId := rd32 s.inBuf (getRxBuf s) }
    simp only [Keeps] at hk
    simp [h, Keeps, send, hk]

theorem trace_connect (s : MsgService) :
    (connect s).trace = s.trace ++
      (if rd32 s.inBuf (getRxBuf s) ≠ s.remoteConnId then s.resetHandlers.map Event.reset
       else []) := by
  unfold connect connectOut connectIn
  by_cases h : rd32 s.inBuf (getRxBuf s) = s.remoteConnId
  · simp [h, send]
  · simp [h, send, trace_resetNodes]

theorem keeps_invoke (n : msgHandlerNode) (s : MsgService) : Keeps s (invoke n s) := by
  unfold invoke
  cases hn : n.handler with
  | connect =>
    refine Keeps.trans ?_ (keeps_connect _)
    simp [Keeps]
  | user cb =>
    refine Keeps.trans ?_ (keeps_runCalls _ _)
    simp [Keeps]

theorem trace_invoke (n : msgHandlerNode) (s : MsgService) :
    ∃ l : List Callback, (invoke n s).trace = s.trace ++ Event.handler n :: l.map Event.reset := by
  unfold invoke
  cases hn : n.handler with
  | connect =>
    refine ⟨if rd32 s.inBuf (getRxBuf s) ≠ s.remoteConnId then s.resetHandlers else [], ?_⟩
    simp only [trace_connect]
    by_cases h : rd32 s.inBuf s.rxPos = s.remoteConnId <;> simp [h, getRxBuf]
  | user cb => exact ⟨[], by simp [trace_runCalls]⟩

theorem keeps_dispatchNodes (l : List msgHandlerNode) (s : MsgService) :
    Keeps s (dispatchNodes l s) := by
  induction l generalizing s with
  | nil => exact Keeps.refl s
  | cons n l ih =>
    unfold dispatchNodes
    split
    · exact (keeps_invoke n s).trans (ih _)
    · exact ih _

/-- The handler loop adds to the trace only callback invocations; the handler
nodes invoked are the nodes whose type is the type in the header, in list order. -/
theorem trace_dispatchNodes (l : List msgHandlerNode) (s : MsgService) :
    ∃ ev, (dispatchNodes l s).trace = s.trace ++ ev ∧ dispatches ev = [] ∧ readCalls ev = [] ∧
      handlerCalls ev = l.filter (fun n => n.msgType = (hdr_msgType s.inBuf : Int)) := by
  induction l generalizing s with
  | nil => exact ⟨[], by simp [dispatchNodes, dispatches, readCalls, handlerCalls]⟩
  | cons n l ih =>
    unfold dispatchNodes
    by_cases h : n.msgType = (hdr_msgType s.inBuf : Int)
    · obtain ⟨cbs, hcbs⟩ := trace_invoke n s
      obtain ⟨ev, h1, h2, h3, h4⟩ := ih (invoke n s)
      have hk := (keeps_invoke n s).1
      refine ⟨Event.handler n :: cbs.map Event.reset ++ ev, ?_, ?_, ?_, ?_⟩
      · simp [h, h1, hcbs]
      · simp [dispatches, dispatches_append, dispatches_map_reset, h2]
      · simp [readCalls, readCalls_append, readCalls_map_reset, h3]
      · simp [handlerCalls, handlerCalls_append, handlerCalls_map_reset, h4, hk, h]
    · obtain ⟨ev, h1, h2, h3, h4⟩ := ih s
      exact ⟨ev, by simp [h, h1], h2, h3, by simp [h4, h]⟩

theorem keeps_dispatchMsg (s : MsgService) : Keeps s (dispatchMsg s) := by
  unfold dispatchMsg
  refine Keeps.trans ?_ (keeps_dispatchNodes _ _)
  simp [Keeps]

theorem trace_dispatchMsg (s : MsgService) :
    ∃ ev, (dispatchMsg s).trace = s.trace ++ Event.dispatch s.inBuf :: ev ∧
      dispatches ev = [] ∧ readCalls ev = [] ∧
      handlerCalls ev = s.msgHandlers.filter (fun n => n.msgType = (hdr_msgType s.inBuf : Int)) := by
  unfold dispatchMsg
  obtain ⟨ev, h1, h2, h3, h4⟩ := trace_dispatchNodes s.msgHandlers
    { s with trace := s.trace ++ [Event.dispatch s.inBuf] }
  exact ⟨ev, by simp [h1], h2, h3, by simpa using h4⟩

/-! ## Byte regions and the read count -/

theorem UINT_MOD_eq : UINT_MOD = 4294967296 := by decide
theorem INT_LIMIT_eq : INT_LIMIT = 2147483648 := by decide

theorem length_writeBytes (bs : List Nat) (buf : List Nat) (pos : Nat) :
    (writeBytes buf pos bs).length = buf.length := by
  induction bs generalizing buf pos with
  | nil => rfl
  | cons b bs ih => simp [writeBytes, ih]

theorem writeBytes_eq (bs : List Nat) (buf : List Nat) (pos : Nat)
    (h : pos + bs.length ≤ buf.length) :
    writeBytes buf pos bs = buf.take pos ++ bs ++ buf.drop (pos + bs.length) := by
  induction bs generalizing buf pos with
  | nil => simp [writeBytes]
  | cons b bs ih =>
    simp only [List.length_cons] at h
    have hlt : pos < buf.length := by omega
    rw [writeBytes, ih _ _ (by simp; omega)]
    rw [List.set_eq_take_append_cons_drop]
    simp only [hlt, if_true]
    have h1 : (List.take pos buf ++ b :: List.drop (pos + 1) buf).take (pos + 1)
        = List.take pos buf ++ [b] := by
      rw [List.take_append_eq_append_take]
      simp [List.length_take, Nat.min_eq_left (Nat.le_of_lt hlt)]
    have h2 : (List.take pos buf ++ b :: List.drop (pos + 1) buf).drop (pos + 1 + bs.length)
        = List.drop (pos + (bs.length + 1)) buf := by
      rw [List.drop_append_eq_append_drop]
      simp [List.length_take, Nat.min_eq_left (Nat.le_of_lt hlt)]
      have : pos + 1 + bs.length - pos = bs.length + 1 := by omega
      rw [List.drop_eq_nil_of_le (by simp; omega)]
      simp [this]
      congr 1; omega
    rw [h1, h2]
    simp

theorem clampCount_eq (s : MsgService) (avail : Nat)
    (hN : s.inBufSize < UINT_MOD) (hpos : s.inPos ≤ s.inBufSize)
    (hsum : avail + s.inPos < UINT_MOD)
    (hP : 0 < s.packetSize → s.inPos ≤ s.packetSize ∧ s.packetSize < UINT_MOD) :
    clampCount s avail =
      if 0 < s.packetSize then min (min avail (s.inBufSize - s.inPos)) (s.packetSize - s.inPos)
      else min avail (s.inBufSize - s.inPos) := by
  have ha : avail < UINT_MOD := by omega
  unfold clampCount
  simp only [Nat.mod_eq_of_lt ha, uadd_eq hsum, usub_eq hpos hN]
  by_cases h1 : avail + s.inPos > s.inBufSize
  · have hs : s.inBufSize - s.inPos + s.inPos < UINT_MOD := by omega
    simp only [h1, if_true, uadd_eq hs]
    by_cases hp : 0 < s.packetSize
    · obtain ⟨hp1, hp2⟩ := hP hp
      simp only [hp, true_and, if_true, usub_eq hp1 hp2, gt_iff_lt]
      split <;> omega
    · simp only [hp, false_and, if_false, gt_iff_lt]
      omega
  · simp only [h1, if_false, uadd_eq hsum]
    by_cases hp : 0 < s.packetSize
    · obtain ⟨hp1, hp2⟩ := hP hp
      simp only [hp, true_and, if_true, usub_eq hp1 hp2, gt_iff_lt]
      split <;> omega
    · simp only [hp, false_and, if_false, gt_iff_lt]
      omega

/-! ## One poll -/

theorem byteAt_lt (buf : List Nat) (i : Nat) : byteAt buf i < 256 := by
  unfold byteAt; exact Nat.mod_lt _ (by decide)

theorem hdr_len_le (buf : List Nat) : hdr_len buf ≤ 65535 := by
  have h4 := byteAt_lt buf 4
  have h5 := byteAt_lt buf (4 + 1)
  simp only [hdr_len, rd16]
  omega

theorem byteAt_append_left (a b : List Nat) (i : Nat) (h : i < a.length) :
    byteAt (a ++ b) i = byteAt a i := by
  simp [byteAt, List.getD_eq_getElem?_getD, List.getElem?_append_left h]

theorem byteAt_take (f : List Nat) (n i : Nat) (h : i < n) :
    byteAt (f.take n) i = byteAt f i := by
  simp [byteAt, List.getD_eq_getElem?_getD, List.getElem?_take, h]

/-- The header fields read from a region that starts with at least the first
eight bytes of `f` are those of `f`. -/
theorem hdr_of_take (f r : List Nat) (n : Nat) (hn : 8 ≤ n) (hf : 8 ≤ f.length) :
    hdr_startByte (f.take n ++ r) = hdr_startByte f ∧
    hdr_msgType (f.take n ++ r) = hdr_msgType f ∧
    hdr_msgId (f.take n ++ r) = hdr_msgId f ∧
    hdr_len (f.take n ++ r) = hdr_len f := by
  have hl : 8 ≤ (f.take n).length := by simp [List.length_take]; omega
  simp only [hdr_startByte, hdr_msgType, hdr_msgId, hdr_len, rd16]
  rw [byteAt_append_left _ _ 0 (by omega), byteAt_append_left _ _ 1 (by omega),
    byteAt_append_left _ _ 2 (by omega), byteAt_append_left _ _ 4 (by omega),
    byteAt_append_left _ _ (4 + 1) (by omega)]
  rw [byteAt_take _ _ 0 (by omega), byteAt_take _ _ 1 (by omega),
    byteAt_take _ _ 2 (by omega), byteAt_take _ _ 4 (by omega),
    byteAt_take _ _ (4 + 1) (by omega)]
  exact ⟨rfl, rfl, rfl, rfl⟩

theorem poll_stall (s : MsgService) (n1 n2 : Nat) (hrx : 0 < s.port.rx.length % UINT_MOD) :
    poll s n1 n2 = poll (if n1 > s.timeout then resetReceiveState s else s) 0 n2 := by
  unfold poll pollStart
  by_cases h : n1 > s.timeout
  · simp [h, resetReceiveState, hrx]
  · simp [h]

theorem poll_idle (s : MsgService) (n1 n2 : Nat) (h : s.port.rx = []) : poll s n1 n2 = s := by
  unfold poll; simp [h]

theorem clampCount_all (s : MsgService) (a : Nat) (hN : s.inBufSize < UINT_MOD)
    (hfit : a + s.inPos ≤ s.inBufSize) (hP : 0 < s.packetSize → a + s.inPos ≤ s.packetSize) :
    clampCount s a = a := by
  have ha : a < UINT_MOD := by omega
  have hs : a + s.inPos < UINT_MOD := by omega
  unfold clampCount
  simp only [Nat.mod_eq_of_lt ha, uadd_eq hs]
  have h1 : ¬ a + s.inPos > s.inBufSize := by omega
  simp only [h1, if_false, uadd_eq hs]
  by_cases hp : 0 < s.packetSize
  · have := hP hp
    have h2 : ¬ a + s.inPos > s.packetSize := by omega
    simp [h2]
  · simp [hp]

/-- A poll without stall that can take all the waiting bytes. -/
theorem poll_read (s : MsgService) (n2 : Nat) (hc : s.port.rx ≠ [])
    (hN : s.inBufSize < UINT_MOD) (hw : s.inBuf.length = s.inBufSize)
    (hfit : s.inPos + s.port.rx.length ≤ s.inBufSize)
    (hP : 0 < s.packetSize → s.inPos + s.port.rx.length ≤ s.packetSize) :
    poll s 0 n2 =
      checkHeader
        { s with
          timeout := uadd n2 MSG_MAX_READ_DELAY
          inBuf := s.inBuf.take s.inPos ++ s.port.rx ++ s.inBuf.drop (s.inPos + s.port.rx.length)
          port := { s.port with rx := [] }
          trace := s.trace ++
            [Event.read s.port.rx.length s.port.rx.length s.inPos s.packetSize] }
        s.port.rx.length := by
  have hpos : 0 < s.port.rx.length := List.length_pos.mpr hc
  have hlt : s.port.rx.length < UINT_MOD := by omega
  have hcl : clampCount { s with timeout := uadd n2 MSG_MAX_READ_DELAY } s.port.rx.length
      = s.port.rx.length :=
    clampCount_all _ _ hN (by simpa [Nat.add_comm] using hfit)
      (by intro h; have := hP h; simpa [Nat.add_comm] using this)
  unfold poll pollStart
  simp only [Nat.mod_eq_of_lt hlt, hpos, if_true, gt_iff_lt, Nat.not_lt_zero, if_false, hcl]
  congr 1
  simp only [readBytes, List.take_length, List.drop_length]
  rw [writeBytes_eq _ _ _ (by omega)]

/-! ## Assembling one frame -/

theorem validFrame_bounds {f : List Nat} {n : Nat} (hv : ValidFrame f n) :
    10 ≤ f.length ∧ f.length ≤ 65545 ∧ f.length = hdr_len f + 10 := by
  obtain ⟨_, h2, _⟩ := hv
  have := hdr_len_le f
  simp only [sizeof_msgHdr] at h2
  omega

/-- The region after the chunk `c` is stored behind the first `k` bytes of `f`. -/
theorem region_after_chunk (f b c : List Nat) (k : Nat) (hk : k + c.length ≤ f.length)
    (hc : f.take (k + c.length) = f.take k ++ c) :
    (f.take k ++ b.drop k).take k ++ c ++ (f.take k ++ b.drop k).drop (k + c.length)
      = f.take (k + c.length) ++ b.drop (k + c.length) := by
  have hl : (f.take k).length = k := by simp [List.length_take]; omega
  rw [List.take_append_eq_append_take, List.drop_append_eq_append_drop, hl, hc]
  simp [List.take_take, List.drop_drop, List.drop_eq_nil_of_le, hl, Nat.add_comm]

/-- A poll that takes a chunk of the frame without completing it. -/
theorem poll_chunk_mid (f b c : List Nat) (k n2 : Nat) (s : MsgService)
    (hv : ValidFrame f s.inBufSize) (ha : Assembling f b k s) (hne : c ≠ [])
    (hc : f.take (k + c.length) = f.take k ++ c) (hk : k + c.length < f.length) :
    poll (arrive s c) 0 n2 =
      { s with
        timeout := uadd n2 MSG_MAX_READ_DELAY
        inBuf := f.take (k + c.length) ++ b.drop (k + c.length)
        port := { s.port with rx := [] }
        trace := s.trace ++ [Event.read c.length c.length k s.packetSize]
        inPos := k + c.length
        payloadSize := if k < 8 ∧ 8 ≤ k + c.length then hdr_len f else s.payloadSize
        packetSize := if k < 8 ∧ 8 ≤ k + c.length then f.length else s.packetSize } := by
  obtain ⟨hpos, hbuf, hrx, hb, hN, hp0, hp1⟩ := ha
  obtain ⟨hf10, hf64, hflen⟩ := validFrame_bounds hv
  obtain ⟨hstart, _, hfit⟩ := hv
  have harx : (arrive s c).port.rx = c := by simp [arrive, hrx]
  have hw : s.inBuf.length = s.inBufSize := by
    rw [hbuf]; simp [List.length_take]; omega
  rw [poll_read (arrive s c) n2 (by rw [harx]; exact hne) hN hw
    (by rw [harx]; simp [arrive, hpos]; omega)
    (by
      rw [harx]; simp only [arrive, hpos]
      intro h
      by_cases h8 : k < 8
      · rw [hp0 h8] at h; omega
      · rw [(hp1 (by omega)).1]; omega)]
  simp only [arrive, hrx, List.nil_append, hpos, hbuf]
  rw [region_after_chunk f b c k (by omega) hc]
  have hsum : k + c.length < UINT_MOD := by rw [UINT_MOD_eq]; omega
  unfold checkHeader
  simp only [hpos, uadd_eq hsum, sizeof_msgHdr, MSG_PACKET_START_BYTE]
  by_cases h8 : k < 8 ∧ 8 ≤ k + c.length
  · obtain ⟨hs1, hs2, hs3, hs4⟩ := hdr_of_take f (b.drop (k + c.length)) (k + c.length) h8.2
      (by omega)
    have hN8 : usub s.inBufSize 8 = s.inBufSize - 8 := usub_eq (by omega) hN
    have hlen : ¬ hdr_len f > s.inBufSize - 8 := by omega
    have hpk : uadd (uadd (hdr_len f) 8) 2 = f.length := by
      have h1 : uadd (hdr_len f) 8 = hdr_len f + 8 := uadd_eq (by rw [UINT_MOD_eq]; omega)
      rw [h1, uadd_eq (by rw [UINT_MOD_eq]; omega)]; omega
    simp only [h8, ge_iff_le, and_self, if_true, hs1, hs4, hstart, MSG_PACKET_START_BYTE,
      ne_eq, not_true_eq_false, if_false, hN8, hlen, hpk]
    unfold finishRead
    simp only [hpos, uadd_eq hsum]
    have hnd : ¬ (f.length > 0 ∧ k + c.length ≥ f.length) := by omega
    simp [hnd]
  · simp only [ge_iff_le, h8, if_false]
    unfold finishRead
    simp only [hpos, uadd_eq hsum]
    by_cases hk8 : k < 8
    · have := hp0 hk8
      simp [this]
    · obtain ⟨hpk, _⟩ := hp1 (by omega)
      have hnd : ¬ (s.packetSize > 0 ∧ k + c.length ≥ s.packetSize) := by omega
      simp [hnd]

/-- A poll that takes the last chunk of the frame: the packet is dispatched and
the receive state is reset. -/
theorem poll_chunk_last (f b c : List Nat) (k n2 : Nat) (s : MsgService)
    (hv : ValidFrame f s.inBufSize) (ha : Assembling f b k s) (hne : c ≠ [])
    (hc : f.take (k + c.length) = f.take k ++ c) (hk : k + c.length = f.length) :
    poll (arrive s c) 0 n2 =
      resetReceiveState (dispatchMsg (assembled s f b (uadd n2 MSG_MAX_READ_DELAY)
        [Event.read c.length c.length k s.packetSize])) := by
  obtain ⟨hpos, hbuf, hrx, hb, hN, hp0, hp1⟩ := ha
  obtain ⟨hf10, hf64, hflen⟩ := validFrame_bounds hv
  obtain ⟨hstart, _, hfit⟩ := hv
  have harx : (arrive s c).port.rx = c := by simp [arrive, hrx]
  have hw : s.inBuf.length = s.inBufSize := by
    rw [hbuf]; simp [List.length_take]; omega
  rw [poll_read (arrive s c) n2 (by rw [harx]; exact hne) hN hw
    (by rw [harx]; simp [arrive, hpos]; omega)
    (by
      rw [harx]; simp only [arrive, hpos]
      intro h
      by_cases h8 : k < 8
      · rw [hp0 h8] at h; omega
      · rw [(hp1 (by omega)).1]; omega)]
  simp only [arrive, hrx, List.nil_append, hpos, hbuf]
  rw [region_after_chunk f b c k (by omega) hc]
  have hsum : k + c.length < UINT_MOD := by rw [UINT_MOD_eq]; omega
  have htake : List.take (k + c.length) f = f := by rw [hk]; simp
  unfold checkHeader
  simp only [hpos, uadd_eq hsum, sizeof_msgHdr, MSG_PACKET_START_BYTE]
  by_cases h8 : k < 8
  · obtain ⟨hs1, hs2, hs3, hs4⟩ := hdr_of_take f (b.drop (k + c.length)) (k + c.length)
      (by omega) (by omega)
    have hN8 : usub s.inBufSize 8 = s.inBufSize - 8 := usub_eq (by omega) hN
    have hlen : ¬ hdr_len f > s.inBufSize - 8 := by omega
    have hpk : uadd (uadd (hdr_len f) 8) 2 = f.length := by
      have h1 : uadd (hdr_len f) 8 = hdr_len f + 8 := uadd_eq (by rw [UINT_MOD_eq]; omega)
      rw [h1, uadd_eq (by rw [UINT_MOD_eq]; omega)]; omega
    have h88 : 8 ≤ k + c.length := by omega
    simp only [h8, h88, ge_iff_le, and_self, if_true, hs1, hs4, hstart, MSG_PACKET_START_BYTE,
      ne_eq, not_true_eq_false, if_false, hN8, hlen, hpk]
    unfold finishRead
    simp only [hpos, uadd_eq hsum]
    rw [if_pos ⟨by omega, by omega⟩]
    simp only [assembled, htake, hk, List.take_length]
  · have hn : ¬ (k < 8 ∧ 8 ≤ k + c.length) := by omega
    simp only [ge_iff_le, hn, if_false]
    unfold finishRead
    simp only [hpos, uadd_eq hsum]
    obtain ⟨hpk, hpl⟩ := hp1 (by omega)
    rw [if_pos ⟨by omega, by omega⟩]
    simp only [assembled, htake, hk, hpk, hpl, List.take_length]

theorem onlyReads_nil : OnlyReads [] := ⟨rfl, rfl, rfl⟩

theorem onlyReads_cons_read (a c p q : Nat) {ev : List Event} (h : OnlyReads ev) :
    OnlyReads (Event.read a c p q :: ev) := by
  obtain ⟨h1, h2, h3⟩ := h
  exact ⟨by simpa [dispatches] using h1, by simpa [handlerCalls] using h2,
    by simpa [resetCalls] using h3⟩

theorem take_add_of_drop (f c r : List Nat) (k : Nat) (hc : c ≠ [])
    (h : f.drop k = c ++ r) :
    f.take (k + c.length) = f.take k ++ c ∧ k + c.length ≤ f.length ∧
      f.drop (k + c.length) = r := by
  have hlen : (f.drop k).length = c.length + r.length := by rw [h]; simp
  simp only [List.length_drop] at hlen
  have hcl : 0 < c.length := List.length_pos.mpr hc
  have hkl : k + c.length ≤ f.length := by omega
  refine ⟨?_, hkl, ?_⟩
  · rw [List.take_add, h]
    simp
  · rw [← List.drop_drop, h]
    simp

theorem chunksOf_cons (d : Delivery) (rest : List Delivery) :
    chunksOf (d :: rest) = d.chunk ++ chunksOf rest := by
  simp [chunksOf]

theorem nonEmptyChunks_cons {d : Delivery} {rest : List Delivery}
    (h : NonEmptyChunks (d :: rest)) : d.chunk ≠ [] ∧ NonEmptyChunks rest :=
  ⟨h d (by simp), fun e he => h e (by simp [he])⟩

theorem eq_nil_of_chunksOf_nil {ds : List Delivery} (hne : NonEmptyChunks ds)
    (h : chunksOf ds = []) : ds = [] := by
  cases ds with
  | nil => rfl
  | cons d rest =>
    rw [chunksOf_cons] at h
    exact absurd (List.append_eq_nil.mp h).1 (nonEmptyChunks_cons hne).1

/-- A poll whose deadline has not expired behaves as a poll at clock reading 0. -/
theorem poll_noStall (s : MsgService) (c : List Nat) (n1 n2 : Nat) (hne : c ≠ [])
    (hrx : s.port.rx = []) (hlen : c.length < UINT_MOD) (hn : ¬ n1 > s.timeout) :
    poll (arrive s c) n1 n2 = poll (arrive s c) 0 n2 := by
  have hpos : 0 < c.length := List.length_pos.mpr hne
  rw [poll_stall (arrive s c) n1 n2 (by simp [arrive, hrx, Nat.mod_eq_of_lt hlen, hpos])]
  have : ¬ n1 > (arrive s c).timeout := by simpa [arrive] using hn
  rw [if_neg this]

/-- Feeding the rest of a frame, chunk by chunk and without stall, to a
receiver that holds its first `k` bytes ends in exactly one dispatch, of the
complete frame, followed by the reset of the receive state. -/
theorem feed_frame (f b : List Nat) (ds : List Delivery) :
    ∀ (k : Nat) (s : MsgService), ValidFrame f s.inBufSize → Assembling f b k s →
      NonEmptyChunks ds → chunksOf ds = f.drop k → k < f.length → NoStall s.timeout ds →
      ∃ t ev, OnlyReads ev ∧
        feed s ds = resetReceiveState (dispatchMsg (assembled s f b t ev)) := by
  induction ds with
  | nil =>
    intro k s _ _ _ hch hk _
    have h1 : (f.drop k).length = 0 := by rw [← hch]; simp [chunksOf]
    simp only [List.length_drop] at h1
    omega
  | cons d rest ih =>
    intro k s hv ha hne hch hk hns
    obtain ⟨hdne, hrne⟩ := nonEmptyChunks_cons hne
    rw [chunksOf_cons] at hch
    obtain ⟨htk, hle, hdrop⟩ := take_add_of_drop f d.chunk (chunksOf rest) k hdne hch.symm
    obtain ⟨hn1, hns2⟩ := hns
    obtain ⟨hf10, hf64, hflen⟩ := validFrame_bounds hv
    have hclen : d.chunk.length < UINT_MOD := by rw [UINT_MOD_eq]; omega
    have hpoll := poll_noStall s d.chunk d.now1 d.now2 hdne ha.2.2.1 hclen hn1
    simp only [feed, hpoll]
    rcases Nat.lt_or_ge (k + d.chunk.length) f.length with hlt | hge
    · have hmid := poll_chunk_mid f b d.chunk k d.now2 s hv ha hdne htk hlt
      obtain ⟨hpos, hbuf, hrx, hb, hN, hp0, hp1⟩ := ha
      have v1 : ValidFrame f (poll (arrive s d.chunk) 0 d.now2).inBufSize := by
        rw [hmid]; exact hv
      have n1 : NoStall (poll (arrive s d.chunk) 0 d.now2).timeout rest := by
        rw [hmid]; exact hns2
      have a1 : Assembling f b (k + d.chunk.length) (poll (arrive s d.chunk) 0 d.now2) := by
        rw [hmid]
        refine ⟨rfl, rfl, rfl, hb, hN, ?_, ?_⟩
        · intro h8
          have h : ¬ (k < 8 ∧ 8 ≤ k + d.chunk.length) := by omega
          simp only [h, if_false]
          exact hp0 (by omega)
        · intro h8
          by_cases hk8 : k < 8
          · simp [hk8, h8]
          · have h : ¬ (k < 8 ∧ 8 ≤ k + d.chunk.length) := by omega
            simp only [h, if_false]
            exact hp1 (by omega)
      obtain ⟨t, ev, hev, hfeed⟩ := ih _ _ v1 a1 hrne hdrop.symm hlt n1
      refine ⟨t, Event.read d.chunk.length d.chunk.length k s.packetSize :: ev,
        onlyReads_cons_read _ _ _ _ hev, ?_⟩
      rw [hfeed, hmid]
      simp [assembled]
    · have hkeq : k + d.chunk.length = f.length := by omega
      have hrest : rest = [] := by
        apply eq_nil_of_chunksOf_nil hrne
        rw [← hdrop, hkeq]; simp
      subst hrest
      rw [poll_chunk_last f b d.chunk k d.now2 s hv ha hdne htk hkeq]
      exact ⟨_, _, onlyReads_cons_read _ _ _ _ onlyReads_nil, rfl⟩

/-- On a freshly reset receiver the first poll does the same whatever the clock
reads: the reset a stall triggers changes nothing. -/
theorem poll_fresh (s : MsgService) (c : List Nat) (n1 n2 : Nat) (hne : c ≠ [])
    (hrx : s.port.rx = []) (hlen : c.length < UINT_MOD) :
    poll (arrive (resetReceiveState s) c) n1 n2 = poll (arrive (resetReceiveState s) c) 0 n2 := by
  have hpos : 0 < c.length := List.length_pos.mpr hne
  rw [poll_stall (arrive (resetReceiveState s) c) n1 n2
    (by simp [arrive, resetReceiveState, hrx, Nat.mod_eq_of_lt hlen, hpos])]
  split <;> rfl

theorem assembling_fresh (f : List Nat) (s : MsgService) (ha : RxAllocated s)
    (hrx : s.port.rx = []) : Assembling f s.inBuf 0 (resetReceiveState s) := by
  obtain ⟨h1, h3⟩ := ha
  refine ⟨rfl, by simp [resetReceiveState], hrx, h1, h3, fun _ => rfl, fun h => by omega⟩

/-- Feeding a whole frame, in any chunking and without stall between the
polls, to a freshly reset receiver ends in one dispatch of the frame followed
by the reset of the receive state. -/
theorem feed_fresh (f : List Nat) (s : MsgService) (ds : List Delivery)
    (ha : RxAllocated s) (hrx : s.port.rx = []) (hv : ValidFrame f s.inBufSize)
    (hne : NonEmptyChunks ds) (hch : chunksOf ds = f) (hns : NoStallBetween ds) :
    ∃ t ev, OnlyReads ev ∧
      feed (resetReceiveState s) ds =
        resetReceiveState (dispatchMsg (assembled (resetReceiveState s) f s.inBuf t ev)) := by
  obtain ⟨hf10, hf64, hflen⟩ := validFrame_bounds hv
  cases ds with
  | nil =>
    simp [chunksOf] at hch
    rw [hch] at hf10
    simp at hf10
  | cons d rest =>
    have hd := (nonEmptyChunks_cons hne).1
    have hdl : d.chunk.length ≤ f.length := by
      rw [← hch, chunksOf_cons]; simp
    have h0 : feed (resetReceiveState s) (d :: rest)
        = feed (resetReceiveState s) (({ d with now1 := 0 } : Delivery) :: rest) := by
      simp only [feed]
      rw [poll_fresh s d.chunk d.now1 d.now2 hd hrx (by rw [UINT_MOD_eq]; omega)]
    rw [h0]
    apply feed_frame f s.inBuf _ 0 (resetReceiveState s) hv (assembling_fresh f s ha hrx)
    · intro e he
      rcases List.mem_cons.mp he with h | h
      · subst h; exact hd
      · exact hne e (List.mem_cons_of_mem _ h)
    · simpa [chunksOf] using hch
    · omega
    · exact ⟨by simp [resetReceiveState], hns⟩

/-- What a dispatch followed by the reset leaves in the trace and in the
receive state. -/
theorem after_dispatch (s : MsgService) :
    ∃ ev, (resetReceiveState (dispatchMsg s)).trace = s.trace ++ Event.dispatch s.inBuf :: ev ∧
      dispatches ev = [] ∧ readCalls ev = [] ∧
      handlerCalls ev = s.msgHandlers.filter (fun n => n.msgType = (hdr_msgType s.inBuf : Int)) ∧
      (resetReceiveState (dispatchMsg s)).inBuf = s.inBuf ∧
      (resetReceiveState (dispatchMsg s)).inBufSize = s.inBufSize ∧
      (resetReceiveState (dispatchMsg s)).port.rx = s.port.rx ∧
      (resetReceiveState (dispatchMsg s)).msgHandlers = s.msgHandlers ∧
      (resetReceiveState (dispatchMsg s)).resetHandlers = s.resetHandlers := by
  obtain ⟨ev, h1, h2, h3, h4⟩ := trace_dispatchMsg s
  obtain ⟨k1, k2, _, k4, _, _, _, _, k9, k10, _, _⟩ := keeps_dispatchMsg s
  exact ⟨ev, by simpa [resetReceiveState] using h1, h2, h3, h4,
    by simpa [resetReceiveState] using k1, by simpa [resetReceiveState] using k2,
    by simpa [resetReceiveState] using k4, by simpa [resetReceiveState] using k9,
    by simpa [resetReceiveState] using k10⟩

/-- The dispatches recorded after a whole frame was fed to a fresh receiver. -/
theorem dispatches_feed_fresh (f : List Nat) (s : MsgService) (ds : List Delivery)
    (ha : RxAllocated s) (hrx : s.port.rx = []) (hv : ValidFrame f s.inBufSize)
    (hne : NonEmptyChunks ds) (hch : chunksOf ds = f) (hns : NoStallBetween ds) :
    dispatches (feed (resetReceiveState s) ds).trace
      = dispatches s.trace ++ [f ++ s.inBuf.drop f.length] := by
  obtain ⟨t, ev, ⟨hev, _, _⟩, hfeed⟩ := feed_fresh f s ds ha hrx hv hne hch hns
  obtain ⟨ev2, h1, h2, _⟩ := after_dispatch (assembled (resetReceiveState s) f s.inBuf t ev)
  rw [hfeed, h1]
  simp [assembled, resetReceiveState, dispatches_append, dispatches, hev, h2]

/-! ## The send path -/

theorem toU8_ofNat (t : Nat) : toU8 (t : Int) = t % 256 := by
  unfold toU8; omega

theorem toU16_ofNat (t : Nat) : toU16 (t : Int) = t % 65536 := by
  unfold toU16; omega

theorem size_of_len (L : Nat) (hL : L ≤ 65535) :
    toI32 (toU32 ((sizeof_msgHdr : Int) + (L : Int))) = ((8 + L : Nat) : Int) := by
  have h1 : toU32 ((sizeof_msgHdr : Int) + (L : Int)) = 8 + L := by
    unfold toU32 sizeof_msgHdr; omega
  rw [h1]
  unfold toI32
  have h2 : (8 + L) % 4294967296 = 8 + L := Nat.mod_eq_of_lt (by omega)
  rw [h2, if_pos (by omega)]

/-- The effect of `send` for a length that fits the 16-bit length field. -/
theorem send_eq (a : MsgService) (t i : Int) (L : Nat) (hL : L ≤ 65535) :
    send a t i (L : Int) =
      (0, { a with
            outBuf := sendRegion a.outBuf t i L
            port := { a.port with tx := a.port.tx ++ [(sendRegion a.outBuf t i L).take (L + 10)] }
            txPos := sizeof_msgHdr }) := by
  have h16 : toU16 (L : Int) = L := by rw [toU16_ofNat]; exact Nat.mod_eq_of_lt (by omega)
  have hdiv : L / 256 % 256 = L / 256 := Nat.mod_eq_of_lt (by omega)
  have hs0 : ¬ (((8 + L : Nat) : Int) < 0) := by omega
  have hs1 : ¬ (((8 + L : Nat) : Int) + 1 < 0) := by omega
  have e1 : (((8 + L : Nat) : Int)).toNat = 8 + L := by omega
  have e2 : (((8 + L : Nat) : Int) + 1).toNat = 9 + L := by omega
  have e3 : (((8 + L : Nat) : Int) + 2).toNat = L + 10 := by omega
  unfold send
  simp only [size_of_len L hL, h16, le16, writeBytes, hdiv, setInt, hs0, hs1, if_false, e1, e2, e3,
    sendRegion]

theorem byteAt_set_ne (buf : List Nat) (i j v : Nat) (h : i ≠ j) :
    byteAt (buf.set i v) j = byteAt buf j := by
  simp [byteAt, List.getD_eq_getElem?_getD, List.getElem?_set_ne h]

theorem byteAt_set_eq (buf : List Nat) (i v : Nat) (h : i < buf.length) :
    byteAt (buf.set i v) i = v % 256 := by
  simp [byteAt, List.getD_eq_getElem?_getD, List.getElem?_set_self, h]

/-- The layout of the frame `send` hands to the transport. -/
theorem sendRegion_frame (buf : List Nat) (t i : Int) (L : Nat) (hL : L ≤ 65535)
    (hfit : L + 10 ≤ buf.length) :
    ((sendRegion buf t i L).take (L + 10)).length = L + 10 ∧
    hdr_startByte ((sendRegion buf t i L).take (L + 10)) = MSG_PACKET_START_BYTE ∧
    hdr_msgType ((sendRegion buf t i L).take (L + 10)) = toU8 t ∧
    hdr_msgId ((sendRegion buf t i L).take (L + 10)) = toU8 i ∧
    hdr_len ((sendRegion buf t i L).take (L + 10)) = L ∧
    payloadOf ((sendRegion buf t i L).take (L + 10)) L = payloadOf buf L := by
  have h8t : toU8 t % 256 = toU8 t := by unfold toU8; omega
  have h8i : toU8 i % 256 = toU8 i := by unfold toU8; omega
  refine ⟨?_, ?_, ?_, ?_, ?_, ?_⟩
  · simp [sendRegion]; omega
  · simp only [hdr_startByte, sendRegion]
    rw [byteAt_take _ _ _ (by omega), byteAt_set_ne _ _ _ _ (by omega),
      byteAt_set_ne _ _ _ _ (by omega), byteAt_set_ne _ _ _ _ (by omega),
      byteAt_set_ne _ _ _ _ (by omega), byteAt_set_ne _ _ _ _ (by omega),
      byteAt_set_ne _ _ _ _ (by omega), byteAt_set_eq _ _ _ (by omega)]
    rfl
  · simp only [hdr_msgType, sendRegion]
    rw [byteAt_take _ _ _ (by omega), byteAt_set_ne _ _ _ _ (by omega),
      byteAt_set_ne _ _ _ _ (by omega), byteAt_set_ne _ _ _ _ (by omega),
      byteAt_set_ne _ _ _ _ (by omega), byteAt_set_ne _ _ _ _ (by omega),
      byteAt_set_eq _ _ _ (by simp; omega), h8t]
  · simp only [hdr_msgId, sendRegion]
    rw [byteAt_take _ _ _ (by omega), byteAt_set_ne _ _ _ _ (by omega),
      byteAt_set_ne _ _ _ _ (by omega), byteAt_set_ne _ _ _ _ (by omega),
      byteAt_set_ne _ _ _ _ (by omega), byteAt_set_eq _ _ _ (by simp; omega), h8i]
  · simp only [hdr_len, rd16, sendRegion]
    rw [byteAt_take _ _ _ (by omega), byteAt_take _ _ _ (by omega),
      byteAt_set_ne _ _ 4 _ (by omega), byteAt_set_ne _ _ 4 _ (by omega),
      byteAt_set_ne _ _ 4 _ (by omega), byteAt_set_eq _ _ _ (by simp; omega),
      byteAt_set_ne _ _ (4 + 1) _ (by omega), byteAt_set_ne _ _ (4 + 1) _ (by omega),
      byteAt_set_eq _ _ _ (by simp; omega)]
    omega
  · simp only [payloadOf, sizeof_msgHdr]
    apply List.ext_getElem?
    intro j
    by_cases hj : j < L
    · simp only [List.getElem?_take, hj, if_true, List.getElem?_drop, sendRegion]
      rw [if_pos (by omega)]
      rw [List.getElem?_set_ne (by omega), List.getElem?_set_ne (by omega),
        List.getElem?_set_ne (by omega), List.getElem?_set_ne (by omega),
        List.getElem?_set_ne (by omega), List.getElem?_set_ne (by omega),
        List.getElem?_set_ne (by omega)]
    · simp [List.getElem?_take, hj]

/-! ## Claims -/

/-- C1 (amended): framing round trip.  For every message type and message id
in 0..255 and every payload of length `L ≤ 65535` with `L + 10 ≤ outBufSize`
and `L + 10 ≤ inBufSize`, the bytes `send(type,id,L)` hands to the transport,
fed to `poll` of a freshly reset receiver in any split into non-empty chunks
(one chunk per poll, no stall deadline expiring in between), cause exactly one
dispatch, and at that dispatch the header's type and id and the `L` payload
bytes at `inBuf[8 .. 8+L)` are the originals. -/
theorem framing_round_trip (a r : MsgService) (t i L : Nat) (ds : List Delivery)
    (ht : t < 256) (hi : i < 256) (hL : L ≤ 65535)
    (ha : TxAllocated a) (hout : L + 10 ≤ a.outBufSize)
    (hr : RxAllocated r) (hrx : r.port.rx = []) (hin : L + 10 ≤ r.inBufSize)
    (hne : NonEmptyChunks ds) (hns : NoStallBetween ds)
    (hsent : (send a (t : Int) (i : Int) (L : Int)).2.port.tx = a.port.tx ++ [chunksOf ds]) :
    ∃ buf, dispatches (feed (resetReceiveState r) ds).trace = dispatches r.trace ++ [buf] ∧
      hdr_msgType buf = t ∧ hdr_msgId buf = i ∧ payloadOf buf L = payloadOf a.outBuf L := by
  rw [send_eq a t i L hL] at hsent
  simp only [List.append_cancel_left_eq, List.cons.injEq, and_true] at hsent
  obtain ⟨hlen, hstart, htype, hid, hhl, hpay⟩ :=
    sendRegion_frame a.outBuf t i L hL (by rw [ha.1]; exact hout)
  rw [hsent] at hlen hstart htype hid hhl hpay
  have hv : ValidFrame (chunksOf ds) r.inBufSize := by
    refine ⟨hstart, ?_, ?_⟩
    · rw [hlen, hhl, sizeof_msgHdr]; omega
    · rw [hlen]; exact hin
  refine ⟨chunksOf ds ++ r.inBuf.drop (chunksOf ds).length,
    dispatches_feed_fresh _ r ds hr hrx hv hne rfl hns, ?_, ?_, ?_⟩
  · have h := (hdr_of_take (chunksOf ds) (r.inBuf.drop (chunksOf ds).length)
      (chunksOf ds).length (by omega) (by omega)).2.1
    rw [List.take_length] at h
    rw [h, htype, toU8_ofNat, Nat.mod_eq_of_lt ht]
  · have h := (hdr_of_take (chunksOf ds) (r.inBuf.drop (chunksOf ds).length)
      (chunksOf ds).length (by omega) (by omega)).2.2.1
    rw [List.take_length] at h
    rw [h, hid, toU8_ofNat, Nat.mod_eq_of_lt hi]
  · rw [← hpay]
    simp only [payloadOf, sizeof_msgHdr]
    rw [List.drop_append_of_le_length (by omega), List.take_append_of_le_length (by simp; omega)]

theorem rxAllocated_exampleService : RxAllocated exampleService := by
  unfold RxAllocated; decide

theorem txAllocated_exampleSender : TxAllocated exampleSender := by
  unfold TxAllocated; decide

/-- The round trip of C1 on the example: `send(5,9,3)` of the example sender,
the frame delivered in two chunks to the example service. -/
theorem framing_round_trip_witness :
    ∃ buf, dispatches (feed (resetReceiveState exampleService) exampleDeliveries).trace
        = dispatches exampleService.trace ++ [buf] ∧
      hdr_msgType buf = 5 ∧ hdr_msgId buf = 9 ∧
      payloadOf buf 3 = payloadOf exampleSender.outBuf 3 :=
  framing_round_trip exampleSender exampleService 5 9 3 exampleDeliveries (by decide)
    (by decide) (by decide) txAllocated_exampleSender (by decide) rxAllocated_exampleService
    (by decide) (by decide) (by unfold NonEmptyChunks; decide)
    (by simp only [exampleDeliveries, NoStallBetween, NoStall]; decide) (by decide)

/-! ## Polls that do not complete a valid header -/

/-- A poll on a receiver that has no header yet and takes fewer bytes than a
header only stores them. -/
theorem poll_short (s : MsgService) (c : List Nat) (n2 : Nat) (ha : RxAllocated s)
    (hrx : s.port.rx = []) (hpk : s.packetSize = 0) (hne : c ≠ [])
    (h8 : s.inPos + c.length < 8) (hfit : s.inPos + c.length ≤ s.inBufSize) :
    poll (arrive s c) 0 n2 =
      { s with
        timeout := uadd n2 MSG_MAX_READ_DELAY
        inBuf := s.inBuf.take s.inPos ++ c ++ s.inBuf.drop (s.inPos + c.length)
        port := { s.port with rx := [] }
        trace := s.trace ++ [Event.read c.length c.length s.inPos 0]
        inPos := s.inPos + c.length } := by
  obtain ⟨h1, h3⟩ := ha
  have harx : (arrive s c).port.rx = c := by simp [arrive, hrx]
  rw [poll_read (arrive s c) n2 (by rw [harx]; exact hne) h3 h1
    (by rw [harx]; exact hfit) (by intro h; simp [arrive, hpk] at h)]
  have hsum : s.inPos + c.length < UINT_MOD := by rw [UINT_MOD_eq]; omega
  unfold checkHeader finishRead
  simp only [arrive, hrx, List.nil_append, uadd_eq hsum, sizeof_msgHdr, hpk]
  rw [if_neg (by omega), if_neg (by omega)]

/-- A poll on a fresh receiver that takes at least a header whose start byte
is not the magic byte drops everything it read and resets the receive state. -/
theorem poll_bad_magic (s : MsgService) (c : List Nat) (n2 : Nat) (ha : RxAllocated s)
    (hrx : s.port.rx = []) (hpos : s.inPos = 0) (hpk : s.packetSize = 0)
    (h8 : 8 ≤ c.length) (hfit : c.length ≤ s.inBufSize)
    (hbad : hdr_startByte c ≠ MSG_PACKET_START_BYTE) :
    poll (arrive s c) 0 n2 =
      resetReceiveState
        { s with
          timeout := uadd n2 MSG_MAX_READ_DELAY
          inBuf := c ++ s.inBuf.drop c.length
          port := { s.port with rx := [] }
          trace := s.trace ++ [Event.read c.length c.length 0 0] } := by
  obtain ⟨h1, h3⟩ := ha
  have hne : c ≠ [] := by intro h; simp [h] at h8
  have harx : (arrive s c).port.rx = c := by simp [arrive, hrx]
  rw [poll_read (arrive s c) n2 (by rw [harx]; exact hne) h3 h1
    (by rw [harx]; simp [arrive, hpos]; exact hfit) (by intro h; simp [arrive, hpk] at h)]
  have hsum : 0 + c.length < UINT_MOD := by rw [UINT_MOD_eq] at h3 ⊢; omega
  have hst : hdr_startByte (c ++ List.drop c.length s.inBuf) = hdr_startByte c := by
    simp only [hdr_startByte]
    exact byteAt_append_left _ _ 0 (by omega)
  unfold checkHeader
  simp only [arrive, hrx, List.nil_append, hpos, uadd_eq hsum, sizeof_msgHdr, hpk,
    List.take_zero, Nat.zero_add]
  rw [if_pos ⟨by omega, by omega⟩, if_pos (by rw [hst]; exact hbad)]

/-! ## The round trip outside the range of the header fields -/

theorem typeDeliveries_dispatches :
    dispatches (feed (resetReceiveState exampleService) typeDeliveries).trace
      = [[35, 0, 0, 0, 0, 0, 0, 0, 0, 0, 0, 0, 0, 0, 0, 0, 0, 0, 0, 0, 0, 0, 0, 0, 0, 0, 0, 0, 0, 0,
          0, 0]] := by
  decide

theorem bigFrame_length : bigFrame.length = 65546 := by
  simp only [bigFrame, List.length_set, List.length_replicate]

theorem bigFrame_head : bigFrame.take 10 = [35, 1, 2, 1, 0, 0, 1, 1, 1, 1] := by
  decide

theorem bigFrame_tail_start : hdr_startByte (bigFrame.drop 10) = 1 := by
  decide

theorem bigSender_send :
    (send bigSender 1 2 65536).2.port.tx = bigSender.port.tx ++ [bigFrame] := by
  have h : bigFrame = bigFrame.take 65546 := by
    rw [← bigFrame_length, List.take_length]
  rw [h]
  rfl

theorem txAllocated_bigSender : TxAllocated bigSender :=
  ⟨by simp only [bigSender, List.length_replicate], by decide⟩

theorem rxAllocated_bigReceiver : RxAllocated bigReceiver :=
  ⟨by simp only [bigReceiver, List.length_replicate], by decide⟩

theorem validFrame_bigFrame_head : ValidFrame (bigFrame.take 10) bigReceiver.inBufSize := by
  rw [bigFrame_head]; unfold ValidFrame; decide

theorem bigDeliveries_dispatches :
    dispatches (feed (resetReceiveState bigReceiver) bigDeliveries).trace
      = [bigFrame.take 10 ++ bigReceiver.inBuf.drop 10] := by
  have hrx : bigReceiver.port.rx = [] := by decide
  -- the first poll takes the ten bytes as a complete frame and dispatches it
  obtain ⟨t, ev, ⟨hev, _, _⟩, hfeed⟩ := feed_fresh (bigFrame.take 10) bigReceiver
    [⟨bigFrame.take 10, 0, 0⟩] rxAllocated_bigReceiver hrx validFrame_bigFrame_head
    (by intro d hd; simp at hd; subst hd; rw [bigFrame_head]; decide)
    (by simp [chunksOf]) (by simp [NoStallBetween, NoStall])
  obtain ⟨ev2, h1, h2, _, _, h5, h6, h7, _⟩ :=
    after_dispatch (assembled (resetReceiveState bigReceiver) (bigFrame.take 10)
      bigReceiver.inBuf t ev)
  have hstep : feed (resetReceiveState bigReceiver) bigDeliveries
      = poll (arrive (feed (resetReceiveState bigReceiver) [⟨bigFrame.take 10, 0, 0⟩])
          (bigFrame.drop 10)) 0 0 := rfl
  rw [hstep, hfeed]
  -- the second poll finds no magic byte and drops the rest
  have hlen10 : (bigFrame.take 10).length = 10 := by rw [bigFrame_head]; rfl
  have hdl : (bigFrame.drop 10).length = 65536 := by
    rw [List.length_drop, bigFrame_length]
  generalize hS : resetReceiveState (dispatchMsg (assembled (resetReceiveState bigReceiver)
    (bigFrame.take 10) bigReceiver.inBuf t ev)) = S at h1 h5 h6 h7 ⊢
  have hSpos : S.inPos = 0 := by rw [← hS]; rfl
  have hSpk : S.packetSize = 0 := by rw [← hS]; rfl
  have hSsize : S.inBufSize = 65546 := by rw [h6]; rfl
  have hSbuf : S.inBuf.length = 65546 := by
    rw [h5]
    simp only [assembled, hlen10, List.length_append, List.length_drop, bigReceiver,
      List.length_replicate]
  rw [poll_bad_magic S (bigFrame.drop 10) 0
    ⟨by rw [hSbuf, hSsize], by rw [hSsize]; decide⟩
    (by rw [h7]; rfl) hSpos hSpk (by omega) (by rw [hSsize, hdl]; decide)
    (by rw [bigFrame_tail_start]; decide)]
  simp only [resetReceiveState, h1, assembled, dispatches_append, dispatches, hev,
    List.append_nil, h2, hlen10]
  rfl

theorem bigDeliveries_payload :
    payloadOf (bigFrame.take 10 ++ bigReceiver.inBuf.drop 10) 65536
      ≠ payloadOf bigSender.outBuf 65536 := by
  intro h
  have h2 := congrArg (fun l => l.getD 2 7) h
  revert h2
  rw [bigFrame_head]
  simp only [payloadOf, sizeof_msgHdr, bigReceiver, bigSender]
  decide

theorem nonEmptyChunks_bigDeliveries : NonEmptyChunks bigDeliveries := by
  intro d hd
  simp only [bigDeliveries, List.mem_cons, List.mem_singleton, List.not_mem_nil, or_false] at hd
  rcases hd with h | h
  · subst h; show bigFrame.take 10 ≠ []; rw [bigFrame_head]; decide
  · subst h
    show bigFrame.drop 10 ≠ []
    intro h0
    have := congrArg List.length h0
    rw [List.length_drop, bigFrame_length] at this
    simp at this

/-- C1 as stated fails outside the range of the header fields.  First input:
`send(256,0,0)`; the frame carries type `256 mod 2^8 = 0`, so the dispatched
header's type is not the original.  Second input: `send(1,2,65536)` with
regions of 65546 bytes; the frame carries length `65536 mod 2^16 = 0`, the
receiver dispatches after ten bytes, and at that dispatch `inBuf[8 .. 8+65536)`
is not the payload. -/
theorem framing_round_trip_counterexample :
    (TxAllocated exampleService ∧ 0 + 10 ≤ exampleService.outBufSize ∧
      RxAllocated exampleService ∧ exampleService.port.rx = [] ∧
      0 + 10 ≤ exampleService.inBufSize ∧
      NonEmptyChunks typeDeliveries ∧ NoStallBetween typeDeliveries ∧
      (send exampleService 256 0 0).2.port.tx
        = exampleService.port.tx ++ [chunksOf typeDeliveries] ∧
      ¬ ∃ buf, dispatches (feed (resetReceiveState exampleService) typeDeliveries).trace
            = dispatches exampleService.trace ++ [buf] ∧
          (hdr_msgType buf : Int) = 256 ∧ (hdr_msgId buf : Int) = 0 ∧
          payloadOf buf 0 = payloadOf exampleService.outBuf 0) ∧
    (TxAllocated bigSender ∧ 65536 + 10 ≤ bigSender.outBufSize ∧
      RxAllocated bigReceiver ∧ bigReceiver.port.rx = [] ∧
      65536 + 10 ≤ bigReceiver.inBufSize ∧
      NonEmptyChunks bigDeliveries ∧ NoStallBetween bigDeliveries ∧
      (send bigSender 1 2 65536).2.port.tx = bigSender.port.tx ++ [chunksOf bigDeliveries] ∧
      ¬ ∃ buf, dispatches (feed (resetReceiveState bigReceiver) bigDeliveries).trace
            = dispatches bigReceiver.trace ++ [buf] ∧
          (hdr_msgType buf : Int) = 1 ∧ (hdr_msgId buf : Int) = 2 ∧
          payloadOf buf 65536 = payloadOf bigSender.outBuf 65536) := by
  refine ⟨⟨by unfold TxAllocated; decide, by decide, rxAllocated_exampleService, by decide,
    by decide, by unfold NonEmptyChunks; decide,
    by simp only [typeDeliveries, NoStallBetween, NoStall], by decide, ?_⟩,
    ⟨txAllocated_bigSender, by decide, rxAllocated_bigReceiver, by decide, by decide,
    nonEmptyChunks_bigDeliveries, by simp only [bigDeliveries, NoStallBetween, NoStall]; decide,
    ?_, ?_⟩⟩
  · rintro ⟨buf, h, ht, -, -⟩
    rw [typeDeliveries_dispatches] at h
    have hb : exampleService.trace = [] := by decide
    simp only [hb, dispatches, List.nil_append, List.cons.injEq, and_true] at h
    subst h
    revert ht
    decide
  · rw [bigSender_send]
    simp [bigDeliveries, chunksOf]
  · rintro ⟨buf, h, -, -, hp⟩
    rw [bigDeliveries_dispatches] at h
    have hb : bigReceiver.trace = [] := by decide
    simp only [hb, dispatches, List.nil_append, List.cons.injEq, and_true] at h
    subst h
    exact bigDeliveries_payload hp

/-! ## Outcome of feeding one frame to a fresh receiver -/

/-- What is observable once a whole frame was fed to a freshly reset receiver:
one dispatch on the region that starts with the frame, the handlers of the
frame's type invoked, the receive state reset, the transport empty. -/
theorem feed_fresh_outcome (f : List Nat) (s : MsgService) (ds : List Delivery)
    (ha : RxAllocated s) (hrx : s.port.rx = []) (hv : ValidFrame f s.inBufSize)
    (hne : NonEmptyChunks ds) (hch : chunksOf ds = f) (hns : NoStallBetween ds) :
    dispatches (feed (resetReceiveState s) ds).trace
        = dispatches s.trace ++ [f ++ s.inBuf.drop f.length] ∧
      handlerCalls (feed (resetReceiveState s) ds).trace
        = handlerCalls s.trace ++ matching s.msgHandlers f ∧
      recvState (feed (resetReceiveState s) ds) = (0, 0, 0, 8, 8, 0) ∧
      (feed (resetReceiveState s) ds).inBuf = f ++ s.inBuf.drop f.length ∧
      (feed (resetReceiveState s) ds).inBufSize = s.inBufSize ∧
      (feed (resetReceiveState s) ds).port.rx = [] ∧
      (feed (resetReceiveState s) ds).msgHandlers = s.msgHandlers ∧
      (feed (resetReceiveState s) ds).resetHandlers = s.resetHandlers := by
  obtain ⟨hf10, hf64, hflen⟩ := validFrame_bounds hv
  obtain ⟨t, ev, ⟨hev1, hev2, _⟩, hfeed⟩ := feed_fresh f s ds ha hrx hv hne hch hns
  obtain ⟨ev2, h1, h2, _, h4, h5, h6, h7, h8, h9⟩ :=
    after_dispatch (assembled (resetReceiveState s) f s.inBuf t ev)
  have hty : hdr_msgType (f ++ s.inBuf.drop f.length) = hdr_msgType f := by
    have h := (hdr_of_take f (s.inBuf.drop f.length) f.length (by omega) (by omega)).2.1
    rwa [List.take_length] at h
  rw [hfeed]
  refine ⟨?_, ?_, rfl, ?_, ?_, ?_, ?_, ?_⟩
  · rw [h1]
    simp [assembled, resetReceiveState, dispatches_append, dispatches, hev1, h2]
  · rw [h1]
    simp only [assembled, resetReceiveState, handlerCalls_append, handlerCalls, hev2, h4,
      List.append_nil, matching, hty]
  · rw [h5]; rfl
  · rw [h6]; rfl
  · rw [h7]; rfl
  · rw [h8]; rfl
  · rw [h9]; rfl

/-- C2: chunk-size independence.  For every valid frame `f` that fits the
receive region and a freshly reset receiver, delivering `f` one byte per poll
(`ds`, no stall between the polls) and delivering it in a single poll with all
bytes available (`d`) give the same outcome: exactly one dispatch, on the same
receive region (so the same header and payload bytes), which starts with the
frame; the same handlers invoked; and the same receive state and receive
region afterwards. -/
theorem chunk_size_independence (f : List Nat) (r : MsgService) (ds : List Delivery)
    (d : Delivery) (hr : RxAllocated r) (hrx : r.port.rx = [])
    (hv : ValidFrame f r.inBufSize)
    (hbytes : ∀ e ∈ ds, e.chunk.length = 1) (hch : chunksOf ds = f)
    (hns : NoStallBetween ds) (hall : d.chunk = f) :
    ∃ buf, buf.take f.length = f ∧
      dispatches (feed (resetReceiveState r) ds).trace = dispatches r.trace ++ [buf] ∧
      dispatches (feed (resetReceiveState r) [d]).trace = dispatches r.trace ++ [buf] ∧
      handlerCalls (feed (resetReceiveState r) ds).trace
        = handlerCalls (feed (resetReceiveState r) [d]).trace ∧
      recvState (feed (resetReceiveState r) ds) = recvState (feed (resetReceiveState r) [d]) ∧
      (feed (resetReceiveState r) ds).inBuf = (feed (resetReceiveState r) [d]).inBuf := by
  obtain ⟨hf10, _, _⟩ := validFrame_bounds hv
  have hne1 : NonEmptyChunks ds := by
    intro e he h
    have := hbytes e he
    rw [h] at this
    simp at this
  have hne2 : NonEmptyChunks [d] := by
    intro e he h
    simp only [List.mem_singleton] at he
    subst he
    rw [hall] at h
    rw [h] at hf10
    simp at hf10
  obtain ⟨a1, a2, a3, a4, _⟩ := feed_fresh_outcome f r ds hr hrx hv hne1 hch hns
  obtain ⟨b1, b2, b3, b4, _⟩ := feed_fresh_outcome f r [d] hr hrx hv hne2
    (by simp [chunksOf, hall]) (by simp [NoStallBetween, NoStall])
  exact ⟨f ++ r.inBuf.drop f.length, by simp, a1, b1, by rw [a2, b2], by rw [a3, b3],
    by rw [a4, b4]⟩

theorem validFrame_exampleFrame : ValidFrame exampleFrame exampleService.inBufSize := by
  unfold ValidFrame; decide

theorem noStallBetween_exampleByteDeliveries : NoStallBetween exampleByteDeliveries := by
  simp only [exampleByteDeliveries, exampleFrame, List.map, NoStallBetween, NoStall]
  decide

/-- The comparison of C2 on the example frame: thirteen one-byte polls against
one poll of the whole frame. -/
theorem chunk_size_independence_witness :
    ∃ buf, buf.take exampleFrame.length = exampleFrame ∧
      dispatches (feed (resetReceiveState exampleService) exampleByteDeliveries).trace
        = dispatches exampleService.trace ++ [buf] ∧
      dispatches (feed (resetReceiveState exampleService) [exampleWholeDelivery]).trace
        = dispatches exampleService.trace ++ [buf] ∧
      handlerCalls (feed (resetReceiveState exampleService) exampleByteDeliveries).trace
        = handlerCalls (feed (resetReceiveState exampleService) [exampleWholeDelivery]).trace ∧
      recvState (feed (resetReceiveState exampleService) exampleByteDeliveries)
        = recvState (feed (resetReceiveState exampleService) [exampleWholeDelivery]) ∧
      (feed (resetReceiveState exampleService) exampleByteDeliveries).inBuf
        = (feed (resetReceiveState exampleService) [exampleWholeDelivery]).inBuf :=
  chunk_size_independence exampleFrame exampleService exampleByteDeliveries
    exampleWholeDelivery rxAllocated_exampleService (by decide) validFrame_exampleFrame
    (by decide) (by decide) noStallBetween_exampleByteDeliveries (by decide)

/-! ## Stalls -/

theorem feed_append (s : MsgService) (ds1 ds2 : List Delivery) :
    feed s (ds1 ++ ds2) = feed (feed s ds1) ds2 := by
  induction ds1 generalizing s with
  | nil => rfl
  | cons d rest ih => simp [feed, ih]

/-- When the stored deadline has expired at the first poll that finds bytes,
the receiver continues as a freshly reset one. -/
theorem feed_after_stall (s : MsgService) (d : Delivery) (rest : List Delivery)
    (hrx : s.port.rx = []) (hne : d.chunk ≠ []) (hlen : d.chunk.length < UINT_MOD)
    (hst : d.now1 > s.timeout) :
    feed s (d :: rest) = feed (resetReceiveState s) (d :: rest) := by
  have hpos : 0 < d.chunk.length := List.length_pos.mpr hne
  simp only [feed]
  rw [poll_fresh s d.chunk d.now1 d.now2 hne hrx hlen,
    poll_stall (arrive s d.chunk) d.now1 d.now2
      (by simp [arrive, hrx, Nat.mod_eq_of_lt hlen, hpos])]
  have h : d.now1 > (arrive s d.chunk).timeout := by simpa [arrive] using hst
  rw [if_pos h]
  rfl

/-- Feeding chunks that stay short of the end of the frame, without stall:
the receiver holds what was fed and nothing was dispatched. -/
theorem feed_part (f b : List Nat) (ds : List Delivery) :
    ∀ (k : Nat) (s : MsgService), ValidFrame f s.inBufSize → Assembling f b k s →
      NonEmptyChunks ds → f.take (k + (chunksOf ds).length) = f.take k ++ chunksOf ds →
      k + (chunksOf ds).length < f.length → NoStall s.timeout ds →
      Assembling f b (k + (chunksOf ds).length) (feed s ds) ∧
        (feed s ds).inBufSize = s.inBufSize ∧
        dispatches (feed s ds).trace = dispatches s.trace ∧
        handlerCalls (feed s ds).trace = handlerCalls s.trace ∧
        (feed s ds).msgHandlers = s.msgHandlers := by
  induction ds with
  | nil =>
    intro k s _ ha _ _ _ _
    simpa [chunksOf, feed] using ha
  | cons d rest ih =>
    intro k s hv ha hne htk hk hns
    obtain ⟨hdne, hrne⟩ := nonEmptyChunks_cons hne
    obtain ⟨hn1, hns2⟩ := hns
    obtain ⟨hf10, hf64, hflen⟩ := validFrame_bounds hv
    rw [chunksOf_cons] at htk hk ⊢
    simp only [List.length_append] at htk hk ⊢
    have hclen : d.chunk.length < UINT_MOD := by rw [UINT_MOD_eq]; omega
    have hkl : (f.take k).length = k := by simp [List.length_take]; omega
    have hsplit : f.take (k + d.chunk.length) = f.take k ++ d.chunk ∧
        f.take (k + d.chunk.length + (chunksOf rest).length)
          = f.take (k + d.chunk.length) ++ chunksOf rest := by
      have hL : List.take (k + d.chunk.length)
          (List.take (k + (d.chunk.length + (chunksOf rest).length)) f)
          = List.take (k + d.chunk.length) f := by
        rw [List.take_take]; congr 1; omega
      have hR : List.take (k + d.chunk.length) (List.take k f ++ (d.chunk ++ chunksOf rest))
          = List.take k f ++ d.chunk := by
        rw [List.take_append_eq_append_take, hkl, List.take_of_length_le (by omega)]
        simp
      have h1 : f.take (k + d.chunk.length) = f.take k ++ d.chunk := by
        rw [← hL, htk, hR]
      refine ⟨h1, ?_⟩
      rw [h1, List.append_assoc, ← htk]
      congr 1
      omega
    have hpoll := poll_noStall s d.chunk d.now1 d.now2 hdne ha.2.2.1 hclen hn1
    have hmid := poll_chunk_mid f b d.chunk k d.now2 s hv ha hdne hsplit.1 (by omega)
    obtain ⟨hpos, hbuf, hrx, hb, hN, hp0, hp1⟩ := ha
    have v1 : ValidFrame f (poll (arrive s d.chunk) 0 d.now2).inBufSize := by
      rw [hmid]; exact hv
    have n1 : NoStall (poll (arrive s d.chunk) 0 d.now2).timeout rest := by
      rw [hmid]; exact hns2
    have a1 : Assembling f b (k + d.chunk.length) (poll (arrive s d.chunk) 0 d.now2) := by
      rw [hmid]
      refine ⟨rfl, rfl, rfl, hb, hN, ?_, ?_⟩
      · intro h8
        have h : ¬ (k < 8 ∧ 8 ≤ k + d.chunk.length) := by omega
        simp only [h, if_false]
        exact hp0 (by omega)
      · intro h8
        by_cases hk8 : k < 8
        · simp [hk8, h8]
        · have h : ¬ (k < 8 ∧ 8 ≤ k + d.chunk.length) := by omega
          simp only [h, if_false]
          exact hp1 (by omega)
    obtain ⟨i1, i2, i3, i4, i5⟩ := ih _ _ v1 a1 hrne hsplit.2 (by omega) n1
    simp only [feed, hpoll]
    refine ⟨by rw [← Nat.add_assoc]; exact i1, ?_, ?_, ?_, ?_⟩
    · rw [i2, hmid]
    · rw [i3, hmid]; simp [dispatches_append, dispatches]
    · rw [i4, hmid]; simp [handlerCalls_append, handlerCalls]
    · rw [i5, hmid]

theorem rxAllocated_of_assembling {f b : List Nat} {k : Nat} {s : MsgService}
    (ha : Assembling f b k s) (hk : k ≤ f.length) (hf : f.length ≤ s.inBufSize) :
    RxAllocated s := by
  obtain ⟨_, hbuf, _, hb, hN, _, _⟩ := ha
  refine ⟨?_, hN⟩
  rw [hbuf]
  simp [List.length_take]
  omega

/-- Feeding a proper initial part of a frame to a freshly reset receiver, in
any chunking and without stall between the polls. -/
theorem feed_fresh_part (f : List Nat) (r : MsgService) (ds : List Delivery) (p : Nat)
    (hr : RxAllocated r) (hrx : r.port.rx = []) (hv : ValidFrame f r.inBufSize)
    (hne : NonEmptyChunks ds) (hch : chunksOf ds = f.take p) (hp : p < f.length)
    (hns : NoStallBetween ds) :
    Assembling f r.inBuf p (feed (resetReceiveState r) ds) ∧
      (feed (resetReceiveState r) ds).inBufSize = r.inBufSize ∧
      dispatches (feed (resetReceiveState r) ds).trace = dispatches r.trace ∧
      handlerCalls (feed (resetReceiveState r) ds).trace = handlerCalls r.trace ∧
      (feed (resetReceiveState r) ds).msgHandlers = r.msgHandlers := by
  have hlen : (chunksOf ds).length = p := by
    rw [hch, List.length_take]; omega
  obtain ⟨hf10, hf64, hflen⟩ := validFrame_bounds hv
  cases ds with
  | nil =>
    have h0 : p = 0 := by rw [← hlen]; simp [chunksOf]
    subst h0
    exact ⟨assembling_fresh f r hr hrx, rfl, rfl, rfl, rfl⟩
  | cons d rest =>
    have hd := (nonEmptyChunks_cons hne).1
    have hdl : d.chunk.length ≤ p := by
      rw [← hlen, chunksOf_cons]; simp
    have h0 : feed (resetReceiveState r) (d :: rest)
        = feed (resetReceiveState r) (({ d with now1 := 0 } : Delivery) :: rest) := by
      simp only [feed]
      rw [poll_fresh r d.chunk d.now1 d.now2 hd hrx (by rw [UINT_MOD_eq]; omega)]
    have hch2 : chunksOf (({ d with now1 := 0 } : Delivery) :: rest) = chunksOf (d :: rest) := by
      simp [chunksOf]
    have hpart := feed_part f r.inBuf (({ d with now1 := 0 } : Delivery) :: rest) 0
      (resetReceiveState r) hv (assembling_fresh f r hr hrx)
      (by
        intro e he
        rcases List.mem_cons.mp he with h | h
        · subst h; exact hd
        · exact hne e (List.mem_cons_of_mem _ h))
      (by rw [hch2, hlen, hch]; simp)
      (by rw [hch2, hlen]; omega)
      ⟨by simp [resetReceiveState], hns⟩
    rw [hch2, hlen, Nat.zero_add, ← h0] at hpart
    exact hpart

/-- After a stall, a frame fed to a receiver that holds a part of some packet
is dispatched as by a fresh receiver. -/
theorem feed_stalled_frame (f2 : List Nat) (s : MsgService) (d : Delivery)
    (rest : List Delivery) (hal : RxAllocated s) (hrx : s.port.rx = [])
    (hv2 : ValidFrame f2 s.inBufSize)
    (hne : NonEmptyChunks (d :: rest)) (hch : chunksOf (d :: rest) = f2)
    (hst : d.now1 > s.timeout) (hns : NoStallBetween (d :: rest)) :
    dispatches (feed s (d :: rest)).trace
        = dispatches s.trace ++ [f2 ++ s.inBuf.drop f2.length] ∧
      handlerCalls (feed s (d :: rest)).trace
        = handlerCalls s.trace ++ matching s.msgHandlers f2 ∧
      recvState (feed s (d :: rest)) = (0, 0, 0, 8, 8, 0) := by
  obtain ⟨_, hf64, _⟩ := validFrame_bounds hv2
  have hdl : d.chunk.length ≤ f2.length := by
    rw [← hch, chunksOf_cons]; simp
  rw [feed_after_stall s d rest hrx (nonEmptyChunks_cons hne).1
    (by rw [UINT_MOD_eq]; omega) hst]
  obtain ⟨o1, o2, o3, _⟩ := feed_fresh_outcome f2 s (d :: rest)
    hal hrx hv2 hne hch hns
  exact ⟨o1, o2, o3⟩

/-- C4: stall recovery.  A freshly reset receiver takes a proper initial part
of a valid frame `f1` (deliveries `ds1`, any chunking, no stall between them);
then the clock passes the stored deadline before the next byte is polled
(`d.now1` exceeds the deadline the last poll stored); then a complete valid
frame `f2` is delivered (`d :: rest`, any chunking, no stall between them).
Nothing is dispatched while `f1` is assembled, and in total exactly one
dispatch occurs, on a receive region that starts with `f2` (its header and
payload); the handlers invoked are those of the type of `f2`. -/
theorem stall_recovery (f1 f2 : List Nat) (r : MsgService) (ds1 : List Delivery) (p : Nat)
    (d : Delivery) (rest : List Delivery)
    (hr : RxAllocated r) (hrx : r.port.rx = [])
    (hv1 : ValidFrame f1 r.inBufSize) (hv2 : ValidFrame f2 r.inBufSize)
    (hne1 : NonEmptyChunks ds1) (hch1 : chunksOf ds1 = f1.take p) (hp : p < f1.length)
    (hns1 : NoStallBetween ds1)
    (hne2 : NonEmptyChunks (d :: rest)) (hch2 : chunksOf (d :: rest) = f2)
    (hst : d.now1 > (feed (resetReceiveState r) ds1).timeout)
    (hns2 : NoStallBetween (d :: rest)) :
    dispatches (feed (resetReceiveState r) ds1).trace = dispatches r.trace ∧
      ∃ buf, buf.take f2.length = f2 ∧
        dispatches (feed (resetReceiveState r) (ds1 ++ d :: rest)).trace
          = dispatches r.trace ++ [buf] ∧
        handlerCalls (feed (resetReceiveState r) (ds1 ++ d :: rest)).trace
          = handlerCalls r.trace ++ matching r.msgHandlers f2 ∧
        recvState (feed (resetReceiveState r) (ds1 ++ d :: rest)) = (0, 0, 0, 8, 8, 0) := by
  obtain ⟨a1, a2, a3, a4, a5⟩ := feed_fresh_part f1 r ds1 p hr hrx hv1 hne1 hch1 hp hns1
  obtain ⟨o1, o2, o3⟩ := feed_stalled_frame f2 (feed (resetReceiveState r) ds1) d rest
    (rxAllocated_of_assembling a1 (by omega) (by rw [a2]; exact hv1.2.2)) a1.2.2.1
    (by rw [a2]; exact hv2) hne2 hch2 hst hns2
  refine ⟨a3, f2 ++ (feed (resetReceiveState r) ds1).inBuf.drop f2.length, by simp, ?_, ?_, ?_⟩
  · rw [feed_append, o1, a3]
  · rw [feed_append, o2, a4, a5]
  · rw [feed_append, o3]

/-- The recovery of C4 on the example: ten bytes of the example frame, a
pause of 100 ms, then the second frame. -/
theorem stall_recovery_witness :
    dispatches (feed (resetReceiveState exampleService) partDeliveries).trace
        = dispatches exampleService.trace ∧
      ∃ buf, buf.take secondFrame.length = secondFrame ∧
        dispatches (feed (resetReceiveState exampleService)
            (partDeliveries ++ secondDelivery :: [])).trace
          = dispatches exampleService.trace ++ [buf] ∧
        handlerCalls (feed (resetReceiveState exampleService)
            (partDeliveries ++ secondDelivery :: [])).trace
          = handlerCalls exampleService.trace ++ matching exampleService.msgHandlers secondFrame ∧
        recvState (feed (resetReceiveState exampleService)
            (partDeliveries ++ secondDelivery :: [])) = (0, 0, 0, 8, 8, 0) :=
  stall_recovery exampleFrame secondFrame exampleService partDeliveries 10 secondDelivery []
    rxAllocated_exampleService (by decide) validFrame_exampleFrame
    (by unfold ValidFrame; decide) (by unfold NonEmptyChunks; decide) (by decide) (by decide)
    (by simp only [partDeliveries, NoStallBetween, NoStall])
    (by unfold NonEmptyChunks; decide) (by decide) (by decide)
    (by simp only [NoStallBetween, NoStall])

/-! ## A byte that is not the magic byte in front of a frame -/

/-- C3 as stated fails: the byte 99 followed by the example frame, all
available at once to a freshly reset receiver, is read in one poll, the header
is rejected, and nothing is dispatched. -/
theorem resync_counterexample :
    RxAllocated exampleService ∧ exampleService.port.rx = [] ∧
      ValidFrame exampleFrame exampleService.inBufSize ∧ (99 : Nat) ≠ MSG_PACKET_START_BYTE ∧
      NonEmptyChunks [garbageFrameDelivery] ∧ NoStallBetween [garbageFrameDelivery] ∧
      chunksOf [garbageFrameDelivery] = 99 :: exampleFrame ∧
      ¬ ∃ buf, buf.take exampleFrame.length = exampleFrame ∧
          dispatches (feed (resetReceiveState exampleService) [garbageFrameDelivery]).trace
            = dispatches exampleService.trace ++ [buf] := by
  refine ⟨rxAllocated_exampleService, by decide, validFrame_exampleFrame, by decide,
    by unfold NonEmptyChunks; decide, by simp only [NoStallBetween, NoStall], by decide, ?_⟩
  rintro ⟨buf, -, h⟩
  have h0 : dispatches (feed (resetReceiveState exampleService) [garbageFrameDelivery]).trace
      = [] := by decide
  rw [h0] at h
  simp at h

/-- C3 (amended): the receiver resynchronises by the stall timeout, not by
looking for the magic byte.  A byte `g` (of any value) polled alone by a
freshly reset receiver causes no dispatch; if the deadline stored by that poll
has expired when the first byte of a valid frame `f` is polled (`d1 :: rest`,
any chunking, no stall between them), exactly one dispatch follows, on a
receive region that starts with `f`.  If instead `g`, not the magic byte, and
`f` are all available at once and fit the receive region, the poll reads them
all, rejects the header and resets: nothing is dispatched. -/
theorem resync_after_stall (g : Nat) (f : List Nat) (r : MsgService) (d0 d1 dall : Delivery)
    (rest : List Delivery) (hr : RxAllocated r) (hrx : r.port.rx = [])
    (hv : ValidFrame f r.inBufSize) (hg : g % 256 ≠ MSG_PACKET_START_BYTE)
    (hd0 : d0.chunk = [g])
    (hne : NonEmptyChunks (d1 :: rest)) (hch : chunksOf (d1 :: rest) = f)
    (hst : d1.now1 > uadd d0.now2 MSG_MAX_READ_DELAY) (hns : NoStallBetween (d1 :: rest))
    (hall : dall.chunk = g :: f) (hfit : f.length + 1 ≤ r.inBufSize) :
    dispatches (feed (resetReceiveState r) [d0]).trace = dispatches r.trace ∧
      (∃ buf, buf.take f.length = f ∧
        dispatches (feed (resetReceiveState r) (d0 :: d1 :: rest)).trace
          = dispatches r.trace ++ [buf] ∧
        handlerCalls (feed (resetReceiveState r) (d0 :: d1 :: rest)).trace
          = handlerCalls r.trace ++ matching r.msgHandlers f ∧
        recvState (feed (resetReceiveState r) (d0 :: d1 :: rest)) = (0, 0, 0, 8, 8, 0)) ∧
      dispatches (feed (resetReceiveState r) [dall]).trace = dispatches r.trace ∧
      recvState (feed (resetReceiveState r) [dall]) = (0, 0, 0, 8, 8, 0) ∧
      (feed (resetReceiveState r) [dall]).port.rx = [] := by
  obtain ⟨hf10, hf64, hflen⟩ := validFrame_bounds hv
  have hN := hr.2
  -- the poll of the lone byte
  have h1 : feed (resetReceiveState r) [d0] =
      { resetReceiveState r with
        timeout := uadd d0.now2 MSG_MAX_READ_DELAY
        inBuf := [g] ++ r.inBuf.drop 1
        port := { r.port with rx := [] }
        trace := r.trace ++ [Event.read 1 1 0 0]
        inPos := 1 } := by
    simp only [feed, hd0]
    rw [poll_fresh r [g] d0.now1 d0.now2 (by simp) hrx (by rw [UINT_MOD_eq]; simp),
      poll_short (resetReceiveState r) [g] d0.now2 hr hrx rfl (by simp)
        (by simp [resetReceiveState]) (by simp [resetReceiveState]; omega)]
    simp [resetReceiveState]
  have hal1 : RxAllocated (feed (resetReceiveState r) [d0]) := by
    rw [h1]
    refine ⟨?_, hN⟩
    show ([g] ++ r.inBuf.drop 1).length = r.inBufSize
    simp only [List.length_append, List.length_drop, List.length_singleton, hr.1]
    omega
  obtain ⟨o1, o2, o3⟩ := feed_stalled_frame f (feed (resetReceiveState r) [d0]) d1 rest hal1
    (by rw [h1]) (by rw [h1]; exact hv) hne hch (by rw [h1]; exact hst) hns
  have hstep : feed (resetReceiveState r) (d0 :: d1 :: rest)
      = feed (feed (resetReceiveState r) [d0]) (d1 :: rest) := rfl
  have hd1 : dispatches (feed (resetReceiveState r) [d0]).trace = dispatches r.trace := by
    rw [h1]; simp [resetReceiveState, dispatches_append, dispatches]
  have hc1 : handlerCalls (feed (resetReceiveState r) [d0]).trace = handlerCalls r.trace := by
    rw [h1]; simp [resetReceiveState, handlerCalls_append, handlerCalls]
  have hm1 : (feed (resetReceiveState r) [d0]).msgHandlers = r.msgHandlers := by
    rw [h1]; rfl
  -- everything at once
  have h2 : feed (resetReceiveState r) [dall] =
      resetReceiveState
        { resetReceiveState r with
          timeout := uadd dall.now2 MSG_MAX_READ_DELAY
          inBuf := (g :: f) ++ r.inBuf.drop (g :: f).length
          port := { r.port with rx := [] }
          trace := r.trace ++ [Event.read (g :: f).length (g :: f).length 0 0] } := by
    simp only [feed, hall]
    rw [poll_fresh r (g :: f) dall.now1 dall.now2 (by simp) hrx
        (by rw [UINT_MOD_eq]; simp; omega),
      poll_bad_magic (resetReceiveState r) (g :: f) dall.now2 hr hrx rfl rfl
        (by simp; omega) (by simp [resetReceiveState]; omega)
        (by simpa [hdr_startByte, byteAt] using hg)]
    simp [resetReceiveState]
  refine ⟨hd1, ⟨f ++ (feed (resetReceiveState r) [d0]).inBuf.drop f.length, by simp, ?_, ?_, ?_⟩,
    ?_, ?_, ?_⟩
  · rw [hstep, o1, hd1]
  · rw [hstep, o2, hc1, hm1]
  · rw [hstep, o3]
  · rw [h2]; simp [resetReceiveState, dispatches_append, dispatches]
  · rw [h2]; rfl
  · rw [h2]; rfl

/-- The two cases of C3 on the example: the byte 99 alone, a pause of 100 ms
and the example frame; and the byte 99 with the example frame at once. -/
theorem resync_after_stall_witness :
    dispatches (feed (resetReceiveState exampleService) [garbageDelivery]).trace
        = dispatches exampleService.trace ∧
      (∃ buf, buf.take exampleFrame.length = exampleFrame ∧
        dispatches (feed (resetReceiveState exampleService)
            (garbageDelivery :: lateFrameDelivery :: [])).trace
          = dispatches exampleService.trace ++ [buf] ∧
        handlerCalls (feed (resetReceiveState exampleService)
            (garbageDelivery :: lateFrameDelivery :: [])).trace
          = handlerCalls exampleService.trace ++ matching exampleService.msgHandlers exampleFrame ∧
        recvState (feed (resetReceiveState exampleService)
            (garbageDelivery :: lateFrameDelivery :: [])) = (0, 0, 0, 8, 8, 0)) ∧
      dispatches (feed (resetReceiveState exampleService) [garbageFrameDelivery]).trace
        = dispatches exampleService.trace ∧
      recvState (feed (resetReceiveState exampleService) [garbageFrameDelivery])
        = (0, 0, 0, 8, 8, 0) ∧
      (feed (resetReceiveState exampleService) [garbageFrameDelivery]).port.rx = [] :=
  resync_after_stall 99 exampleFrame exampleService garbageDelivery lateFrameDelivery
    garbageFrameDelivery [] rxAllocated_exampleService (by decide) validFrame_exampleFrame
    (by decide) (by decide) (by unfold NonEmptyChunks; decide) (by decide) (by decide)
    (by simp only [NoStallBetween, NoStall]) (by decide) (by decide)

/-! ## The length check -/

theorem trace_pollStart (s : MsgService) (n1 n2 : Nat) :
    (pollStart s n1 n2).trace = s.trace ∧ (pollStart s n1 n2).inBufSize = s.inBufSize ∧
      (pollStart s n1 n2).port = s.port := by
  unfold pollStart
  split <;> exact ⟨rfl, rfl, rfl⟩

/-- C5: overflow clamp threshold.  Take a service with `inBufSize ≥ 8` and a
poll that completes the header (`inPos < 8 ≤ inPos + cnt` at the read, no
header seen before) with start byte `'#'`; `s1` is the service at the read,
`cnt` the count read and `buf` the receive region after the read.  If the
declared payload length equals `inBufSize - 8` the header is accepted: after
the poll `payloadSize` is that length and `packetSize` is the length plus 10,
and nothing was dispatched.  If the declared length is greater than
`inBufSize - 8` the frame is dropped: nothing is dispatched and the receive
state is the reinitialized one (`payloadSize = 0`, `packetSize = 0`,
`inPos = 0`, `rxPos = 8`, `txPos = 8`, deadline 0). -/
theorem overflow_clamp_threshold (s s1 : MsgService) (n1 n2 cnt : Nat) (buf : List Nat)
    (hN : s.inBufSize < UINT_MOD) (h8 : 8 ≤ s.inBufSize)
    (hav : 0 < s.port.rx.length) (hint : s.port.rx.length < INT_LIMIT)
    (hs1 : s1 = pollStart s n1 n2) (hcnt : cnt = clampCount s1 s.port.rx.length)
    (hbuf : buf = (readBytes s1 cnt).inBuf)
    (hpk : s1.packetSize = 0)
    (hdone : s1.inPos < sizeof_msgHdr ∧ sizeof_msgHdr ≤ s1.inPos + cnt)
    (hstart : hdr_startByte buf = MSG_PACKET_START_BYTE) :
    (hdr_len buf = s.inBufSize - 8 →
      (poll s n1 n2).payloadSize = s.inBufSize - 8 ∧
      (poll s n1 n2).packetSize = s.inBufSize - 8 + 10 ∧
      dispatches (poll s n1 n2).trace = dispatches s.trace) ∧
    (hdr_len buf > s.inBufSize - 8 →
      recvState (poll s n1 n2) = (0, 0, 0, 8, 8, 0) ∧
      dispatches (poll s n1 n2).trace = dispatches s.trace) := by
  obtain ⟨ht, hsz, hport⟩ := trace_pollStart s n1 n2
  rw [← hs1] at ht hsz hport
  simp only [sizeof_msgHdr] at hdone
  have hN1 : s1.inBufSize < UINT_MOD := by rw [hsz]; exact hN
  have hlt : s.port.rx.length < UINT_MOD := by
    rw [UINT_MOD_eq]; rw [INT_LIMIT_eq] at hint; omega
  have hsum : s.port.rx.length + s1.inPos < UINT_MOD := by
    rw [UINT_MOD_eq]; rw [INT_LIMIT_eq] at hint; omega
  have hcl := clampCount_eq s1 s.port.rx.length hN1 (by rw [hsz]; omega) hsum
    (by intro h; rw [hpk] at h; exact absurd h (Nat.lt_irrefl 0))
  rw [hpk, if_neg (Nat.lt_irrefl 0), ← hcnt] at hcl
  have hfit : s1.inPos + cnt ≤ s1.inBufSize := by rw [hcl]; omega
  have hu : uadd s1.inPos cnt = s1.inPos + cnt := uadd_eq (by omega)
  have hpoll : poll s n1 n2 = checkHeader (readBytes s1 cnt) cnt := by
    unfold poll
    rw [if_pos (by rw [Nat.mod_eq_of_lt hlt]; exact hav), hs1, hcnt, hs1]
  have hlen := hdr_len_le buf
  have hN8 : usub s1.inBufSize sizeof_msgHdr = s.inBufSize - 8 := by
    rw [hsz]; exact usub_eq h8 hN
  have hrd : (readBytes s1 cnt).inPos = s1.inPos ∧ (readBytes s1 cnt).inBufSize = s1.inBufSize ∧
      (readBytes s1 cnt).packetSize = s1.packetSize ∧
      dispatches (readBytes s1 cnt).trace = dispatches s.trace := by
    refine ⟨rfl, rfl, rfl, ?_⟩
    simp [readBytes, dispatches_append, dispatches, ht]
  obtain ⟨r1, r2, r3, r4⟩ := hrd
  rw [hpoll]
  unfold checkHeader
  rw [r1, r2, hu, ← hbuf, hN8, if_pos ⟨by simpa [sizeof_msgHdr] using hdone.1,
    by simpa [sizeof_msgHdr] using hdone.2⟩, if_neg (by simp [hstart])]
  constructor
  · intro hl
    rw [if_neg (by omega)]
    have hpk2 : uadd (uadd (hdr_len buf) sizeof_msgHdr) 2 = s.inBufSize - 8 + 10 := by
      have h1 : uadd (hdr_len buf) sizeof_msgHdr = hdr_len buf + 8 :=
        uadd_eq (by rw [UINT_MOD_eq, sizeof_msgHdr]; omega)
      rw [h1, uadd_eq (by rw [UINT_MOD_eq]; omega)]; omega
    unfold finishRead
    simp only [hpk2, r1, hu]
    rw [if_neg (by rw [hsz] at hfit; omega)]
    exact ⟨hl, rfl, r4⟩
  · intro hl
    rw [if_pos hl]
    exact ⟨rfl, r4⟩

/-- The two cases of C5 on the example service (`inBufSize = 32`): declared
lengths 24 and 25. -/
theorem overflow_clamp_threshold_witness :
    ((poll acceptService 1 1).payloadSize = acceptService.inBufSize - 8 ∧
      (poll acceptService 1 1).packetSize = acceptService.inBufSize - 8 + 10 ∧
      dispatches (poll acceptService 1 1).trace = dispatches acceptService.trace) ∧
    (recvState (poll rejectService 1 1) = (0, 0, 0, 8, 8, 0) ∧
      dispatches (poll rejectService 1 1).trace = dispatches rejectService.trace) :=
  ⟨(overflow_clamp_threshold acceptService (pollStart acceptService 1 1) 1 1
      (clampCount (pollStart acceptService 1 1) acceptService.port.rx.length)
      (readBytes (pollStart acceptService 1 1)
        (clampCount (pollStart acceptService 1 1) acceptService.port.rx.length)).inBuf
      (by decide) (by decide) (by decide) (by decide) rfl rfl rfl (by decide) (by decide)
      (by decide)).1 (by decide),
   (overflow_clamp_threshold rejectService (pollStart rejectService 1 1) 1 1
      (clampCount (pollStart rejectService 1 1) rejectService.port.rx.length)
      (readBytes (pollStart rejectService 1 1)
        (clampCount (pollStart rejectService 1 1) rejectService.port.rx.length)).inBuf
      (by decide) (by decide) (by decide) (by decide) rfl rfl rfl (by decide) (by decide)
      (by decide)).2 (by decide)⟩

/-! ## The read count -/

theorem sane_reset_dispatch (t : MsgService) (hN : t.inBufSize < UINT_MOD) :
    Sane (resetReceiveState (dispatchMsg t)) ∧
      (resetReceiveState (dispatchMsg t)).inBufSize = t.inBufSize ∧
      ∃ ev, (resetReceiveState (dispatchMsg t)).trace = t.trace ++ ev ∧ readCalls ev = [] := by
  obtain ⟨ev, h1, _, h3, _, _, h6, _⟩ := after_dispatch t
  refine ⟨⟨by rw [h6]; exact hN, Nat.zero_le _, Or.inl ⟨rfl, Nat.succ_pos 7⟩⟩, h6,
    Event.dispatch t.inBuf :: ev, h1, by simpa [readCalls] using h3⟩

theorem sane_finishRead (t : MsgService) (cnt : Nat) (hN : t.inBufSize < UINT_MOD)
    (hfit : t.inPos + cnt ≤ t.inBufSize)
    (hpk : (t.packetSize = 0 ∧ t.inPos + cnt < 8) ∨
      (0 < t.packetSize ∧ t.packetSize ≤ 65545 ∧ 8 ≤ t.inPos + cnt)) :
    Sane (finishRead t cnt) ∧ (finishRead t cnt).inBufSize = t.inBufSize ∧
      ∃ ev, (finishRead t cnt).trace = t.trace ++ ev ∧ readCalls ev = [] := by
  have hu : uadd t.inPos cnt = t.inPos + cnt := uadd_eq (by omega)
  unfold finishRead
  simp only [hu]
  split
  · exact sane_reset_dispatch _ hN
  · rename_i hnd
    simp only [not_and, ge_iff_le, not_le, gt_iff_lt] at hnd
    refine ⟨⟨hN, hfit, ?_⟩, rfl, [], by simp, rfl⟩
    rcases hpk with ⟨h0, h8⟩ | ⟨h0, h1, h8⟩
    · exact Or.inl ⟨h0, h8⟩
    · exact Or.inr ⟨h0, h1, h8, hnd h0⟩

theorem sane_pollStart (s : MsgService) (n1 n2 : Nat) (hs : Sane s) :
    Sane (pollStart s n1 n2) := by
  obtain ⟨h1, h2, h3⟩ := hs
  unfold pollStart
  split
  · exact ⟨h1, Nat.zero_le _, Or.inl ⟨rfl, Nat.succ_pos 7⟩⟩
  · exact ⟨h1, h2, h3⟩

/-- One poll keeps the invariant, and the `readBytes` call it makes respects
the bounds. -/
theorem poll_sane (s : MsgService) (n1 n2 : Nat) (hs : Sane s)
    (hint : s.port.rx.length < INT_LIMIT) :
    Sane (poll s n1 n2) ∧ (poll s n1 n2).inBufSize = s.inBufSize ∧
      ∃ ev, (poll s n1 n2).trace = s.trace ++ ev ∧
        ∀ e ∈ readCalls ev, GoodRead s.inBufSize e := by
  by_cases hav : s.port.rx.length = 0
  · have : poll s n1 n2 = s := by unfold poll; simp [hav]
    rw [this]
    exact ⟨hs, rfl, [], by simp, by simp [readCalls]⟩
  have hlt : s.port.rx.length < UINT_MOD := by
    rw [UINT_MOD_eq]; rw [INT_LIMIT_eq] at hint; omega
  obtain ⟨ht, hsz, hport⟩ := trace_pollStart s n1 n2
  have hs1 := sane_pollStart s n1 n2 hs
  generalize hS : pollStart s n1 n2 = s1 at ht hsz hport hs1
  obtain ⟨hN, hpos, hpk⟩ := hs1
  have hp64 : s1.inPos ≤ 65545 := by
    rcases hpk with ⟨_, h⟩ | ⟨_, h1, _, h2⟩ <;> omega
  have hsum : s.port.rx.length + s1.inPos < UINT_MOD := by
    rw [UINT_MOD_eq]; rw [INT_LIMIT_eq] at hint; omega
  have hcl := clampCount_eq s1 s.port.rx.length hN hpos hsum
    (by
      intro h
      rcases hpk with ⟨h0, _⟩ | ⟨_, h1, _, h2⟩
      · omega
      · exact ⟨by omega, by rw [UINT_MOD_eq]; omega⟩)
  generalize hC : clampCount s1 s.port.rx.length = cnt at hcl
  have hpoll : poll s n1 n2 = checkHeader (readBytes s1 cnt) cnt := by
    unfold poll
    rw [if_pos (by rw [Nat.mod_eq_of_lt hlt]; omega)]
    simp only [hS, hC]
  have hfit : s1.inPos + cnt ≤ s1.inBufSize := by
    rw [hcl]; split <;> omega
  have hgood : GoodRead s.inBufSize (s.port.rx.length, cnt, s1.inPos, s1.packetSize) := by
    rw [← hsz]
    refine ⟨?_, hpos, ?_, ?_⟩
    · show cnt ≤ s.port.rx.length
      rw [hcl]; split <;> omega
    · show cnt ≤ s1.inBufSize - s1.inPos
      omega
    · intro hne
      show s1.inPos ≤ s1.packetSize ∧ cnt ≤ s1.packetSize - s1.inPos
      have hne2 : s1.packetSize ≠ 0 := hne
      have hp : 0 < s1.packetSize := Nat.pos_of_ne_zero hne2
      rcases hpk with ⟨h0, _⟩ | ⟨_, h1, _, h2⟩
      · omega
      · rw [hcl, if_pos hp]; omega
  have hu : uadd s1.inPos cnt = s1.inPos + cnt := uadd_eq (by omega)
  have hrt : (readBytes s1 cnt).trace
      = s.trace ++ [Event.read s.port.rx.length cnt s1.inPos s1.packetSize] := by
    simp [readBytes, ht, hport]
  -- the outcome of the header check
  have hout : (Sane (poll s n1 n2) ∧ (poll s n1 n2).inBufSize = s1.inBufSize ∧
      ∃ ev, (poll s n1 n2).trace = (readBytes s1 cnt).trace ++ ev ∧ readCalls ev = []) := by
    rw [hpoll]
    have hr1 : (readBytes s1 cnt).inPos = s1.inPos := rfl
    have hr2 : (readBytes s1 cnt).inBufSize = s1.inBufSize := rfl
    have hr3 : (readBytes s1 cnt).packetSize = s1.packetSize := rfl
    unfold checkHeader
    simp only [sizeof_msgHdr, hr1, hu]
    split
    · rename_i hdone
      split
      · exact ⟨⟨hN, Nat.zero_le _, Or.inl ⟨rfl, Nat.succ_pos 7⟩⟩, rfl, [], by simp [resetReceiveState],
          rfl⟩
      · split
        · exact ⟨⟨hN, Nat.zero_le _, Or.inl ⟨rfl, Nat.succ_pos 7⟩⟩, rfl, [],
            by simp [resetReceiveState], rfl⟩
        · rename_i hlen
          have hl := hdr_len_le (readBytes s1 cnt).inBuf
          have hd2 : s1.inPos < 8 ∧ 8 ≤ s1.inPos + cnt := hdone
          have h8 : 8 ≤ s1.inBufSize := by omega
          have hlen2 : ¬ hdr_len (readBytes s1 cnt).inBuf > s1.inBufSize - 8 := by
            rw [← usub_eq h8 hN]; exact hlen
          have hpk2 : uadd (uadd (hdr_len (readBytes s1 cnt).inBuf) 8) 2
              = hdr_len (readBytes s1 cnt).inBuf + 10 := by
            have h1 : uadd (hdr_len (readBytes s1 cnt).inBuf) 8
                = hdr_len (readBytes s1 cnt).inBuf + 8 :=
              uadd_eq (by rw [UINT_MOD_eq]; omega)
            rw [h1, uadd_eq (by rw [UINT_MOD_eq]; omega)]
          rw [hpk2]
          refine sane_finishRead _ cnt hN hfit (Or.inr ⟨?_, ?_, ?_⟩)
          · show 0 < hdr_len (readBytes s1 cnt).inBuf + 10
            omega
          · show hdr_len (readBytes s1 cnt).inBuf + 10 ≤ 65545
            omega
          · show 8 ≤ s1.inPos + cnt
            exact hd2.2
    · rename_i hnd
      have hnd2 : ¬ (s1.inPos < 8 ∧ 8 ≤ s1.inPos + cnt) := hnd
      refine sane_finishRead _ cnt hN hfit ?_
      rcases hpk with ⟨h0, h8⟩ | ⟨h0, h1, h8, h2⟩
      · exact Or.inl ⟨h0, by show s1.inPos + cnt < 8; omega⟩
      · exact Or.inr ⟨h0, h1, by show 8 ≤ s1.inPos + cnt; omega⟩
  obtain ⟨o1, o2, ev, o3, o4⟩ := hout
  refine ⟨o1, by rw [o2, hsz], Event.read s.port.rx.length cnt s1.inPos s1.packetSize :: ev,
    by rw [o3, hrt]; simp, ?_⟩
  intro e he
  simp only [readCalls, o4, List.mem_singleton] at he
  subst he
  exact hgood

theorem step_sane (s : MsgService) (a : Action) (hs : Sane s)
    (hav : match a with
      | Action.poll _ _ => s.port.rx.length < INT_LIMIT
      | _ => True) :
    Sane (step s a) ∧ (step s a).inBufSize = s.inBufSize ∧
      ∃ ev, (step s a).trace = s.trace ++ ev ∧
        ∀ e ∈ readCalls ev, GoodRead s.inBufSize e := by
  cases a with
  | arrive bytes => exact ⟨hs, rfl, [], by simp [step, arrive], by simp [readCalls]⟩
  | poll n1 n2 => exact poll_sane s n1 n2 hs hav
  | call c =>
    obtain ⟨_, k2, _, _, k5, k6, _⟩ := keeps_runCall c s
    refine ⟨?_, k2, [], by simp [step, trace_runCall], by simp [readCalls]⟩
    unfold Sane at hs ⊢
    simp only [step, k2, k5, k6]
    exact hs
  | addHandler t h d ok =>
    cases ok
    · exact ⟨hs, rfl, [], by simp [step, addHandler], by simp [readCalls]⟩
    · exact ⟨hs, rfl, [], by simp [step, addHandler], by simp [readCalls]⟩
  | addResetHandler h ok =>
    cases ok
    · exact ⟨hs, rfl, [], by simp [step, addResetHandler], by simp [readCalls]⟩
    · exact ⟨hs, rfl, [], by simp [step, addResetHandler], by simp [readCalls]⟩

/-- Every run keeps the invariant and every `readBytes` call respects the
bounds. -/
theorem exec_sane (acts : List Action) :
    ∀ s : MsgService, Sane s → AvailInt s acts →
      (∀ e ∈ readCalls s.trace, GoodRead s.inBufSize e) →
      Sane (exec s acts) ∧ (exec s acts).inBufSize = s.inBufSize ∧
        ∀ e ∈ readCalls (exec s acts).trace, GoodRead s.inBufSize e := by
  induction acts with
  | nil => intro s hs _ hg; exact ⟨hs, rfl, hg⟩
  | cons a rest ih =>
    intro s hs hav hg
    obtain ⟨hav1, hav2⟩ := hav
    obtain ⟨s1, s2, ev, s3, s4⟩ := step_sane s a hs hav1
    obtain ⟨i1, i2, i3⟩ := ih (step s a) s1 hav2 (by
      intro e he
      rw [s3, readCalls_append] at he
      rw [s2]
      rcases List.mem_append.mp he with h | h
      · exact hg e h
      · exact s4 e h)
    exact ⟨i1, by rw [← s2]; exact i2, by rw [← s2]; exact i3⟩

theorem sane_construct (port : SerialWrapper) (connType inBufSize outBufSize entropy : Nat)
    (inMem outMem : List Nat) (mallocOk : Bool) :
    Sane (construct port connType inBufSize outBufSize entropy inMem outMem mallocOk) ∧
      (construct port connType inBufSize outBufSize entropy inMem outMem mallocOk).inBufSize
        = inBufSize % UINT_MOD ∧
      (construct port connType inBufSize outBufSize entropy inMem outMem mallocOk).trace = [] := by
  have h : inBufSize % UINT_MOD < UINT_MOD := Nat.mod_lt _ (by decide)
  cases mallocOk
  · exact ⟨⟨h, Nat.zero_le _, Or.inl ⟨rfl, Nat.succ_pos 7⟩⟩, rfl, rfl⟩
  · exact ⟨⟨h, Nat.zero_le _, Or.inl ⟨rfl, Nat.succ_pos 7⟩⟩, rfl, rfl⟩

/-- C6: read-count bounds.  In every run from construction (any transport
contents, clock values, user calls and registrations, `available()` returning
a non-negative `int` at every poll), every count `cnt` that `poll` passes to
`readBytes` is at most what `available()` just returned, at most
`inBufSize - inPos` with `inPos ≤ inBufSize` (every byte is stored below
`inBufSize`), and, when `packetSize` was nonzero at the read, at most
`packetSize - inPos` with `inPos ≤ packetSize`: the subtractions do not wrap. -/
theorem read_count_bounds (port : SerialWrapper)
    (connType inBufSize outBufSize entropy : Nat) (inMem outMem : List Nat) (mallocOk : Bool)
    (acts : List Action)
    (hav : AvailInt
      (construct port connType inBufSize outBufSize entropy inMem outMem mallocOk) acts) :
    ∀ e ∈ readCalls
        (exec (construct port connType inBufSize outBufSize entropy inMem outMem mallocOk)
          acts).trace,
      GoodRead (inBufSize % UINT_MOD) e := by
  obtain ⟨c1, c2, c3⟩ :=
    sane_construct port connType inBufSize outBufSize entropy inMem outMem mallocOk
  have h := (exec_sane acts _ c1 hav (by rw [c3]; simp [readCalls])).2.2
  rw [c2] at h
  exact h

theorem availInt_exampleRun : AvailInt exampleService exampleRun := by
  simp only [exampleRun, AvailInt, and_true, true_and]
  decide

/-- The bounds of C6 on the three `readBytes` calls of the example run; the
second is limited to the five bytes the packet still lacks. -/
theorem read_count_bounds_witness :
    AvailInt (construct ⟨[], []⟩ 7 32 32 305419896 [] [] true) exampleRun ∧
      readCalls (exec (construct ⟨[], []⟩ 7 32 32 305419896 [] [] true) exampleRun).trace
        = [(8, 8, 0, 0), (7, 5, 8, 13), (2, 2, 0, 0)] ∧
      GoodRead (32 % UINT_MOD) (8, 8, 0, 0) ∧ GoodRead (32 % UINT_MOD) (7, 5, 8, 13) ∧
      GoodRead (32 % UINT_MOD) (2, 2, 0, 0) :=
  ⟨availInt_exampleRun, by decide,
    read_count_bounds ⟨[], []⟩ 7 32 32 305419896 [] [] true exampleRun availInt_exampleRun
      (8, 8, 0, 0) (by decide),
    read_count_bounds ⟨[], []⟩ 7 32 32 305419896 [] [] true exampleRun availInt_exampleRun
      (7, 5, 8, 13) (by decide),
    read_count_bounds ⟨[], []⟩ 7 32 32 305419896 [] [] true exampleRun availInt_exampleRun
      (2, 2, 0, 0) (by decide)⟩

/-! ## Reading into the next frame -/

/-- C7 fails on the code: with the 13-byte example frame followed by three
bytes of a next frame all available at once, a poll of a fresh receiver passes
the count 16 to `readBytes`, takes all 16 bytes and leaves nothing in the
transport: the count is limited to the packet only once the header is known. -/
theorem over_read_next_frame :
    burstService.port.rx = exampleFrame ++ [35, 5, 9] ∧ exampleFrame.length = 8 + 3 + 2 ∧
      ValidFrame exampleFrame burstService.inBufSize ∧
      readCalls (poll burstService 100 100).trace = [(16, 16, 0, 0)] ∧
      (poll burstService 100 100).port.rx = [] ∧
      dispatches (poll burstService 100 100).trace
        = [exampleFrame ++ [35, 5, 9] ++ List.replicate 16 0] := by
  refine ⟨by decide, by decide, by unfold ValidFrame; decide, by decide, by decide, by decide⟩

/-! ## Dispatch order -/

theorem registerAll_eq (regs : List msgHandlerNode) (s : MsgService) :
    registerAll s regs = { s with msgHandlers := regs.reverse ++ s.msgHandlers } := by
  induction regs generalizing s with
  | nil => simp [registerAll]
  | cons n rest ih => simp [registerAll, ih, addHandler]

/-- C8: multi-handler fan-out.  After the successful registrations `regs` (in
that order) `dispatchMsg` invokes exactly the registrations whose type equals
the type in the header of the packet, most recently registered first and then
the earlier ones in their order, each with its own `userData`.  In particular
two handlers `h1` then `h2` registered for the type of the packet are both
invoked, once each, `h2` before `h1`. -/
theorem multi_handler_fan_out (s : MsgService) (regs : List msgHandlerNode)
    (h1 h2 : msgHandler) (d1 d2 : Nat) :
    handlerCalls (dispatchMsg (registerAll s regs)).trace
        = handlerCalls s.trace ++ matching (regs.reverse ++ s.msgHandlers) s.inBuf ∧
      handlerCalls (dispatchMsg (registerAll s
          [⟨hdr_msgType s.inBuf, h1, d1⟩, ⟨hdr_msgType s.inBuf, h2, d2⟩])).trace
        = handlerCalls s.trace ++
            (⟨hdr_msgType s.inBuf, h2, d2⟩ :: ⟨hdr_msgType s.inBuf, h1, d1⟩ ::
              matching s.msgHandlers s.inBuf) := by
  have key : ∀ l : List msgHandlerNode,
      handlerCalls (dispatchMsg (registerAll s l)).trace
        = handlerCalls s.trace ++ matching (l.reverse ++ s.msgHandlers) s.inBuf := by
    intro l
    obtain ⟨ev, e1, _, _, e4⟩ := trace_dispatchMsg (registerAll s l)
    rw [e1, registerAll_eq] at *
    simp only [handlerCalls_append, handlerCalls, e4, matching]
  refine ⟨key regs, ?_⟩
  rw [key]
  simp [matching]

/-! ## The handshake -/

theorem length_setInt (buf : List Nat) (i : Int) (v : Nat) :
    (setInt buf i v).length = buf.length := by
  unfold setInt; split <;> simp

theorem outBuf_length_runCall (c : ApiCall) (s : MsgService) :
    (runCall c s).outBuf.length = s.outBuf.length := by
  cases c <;> simp [runCall, txInt8, txUint8, txChar, txBool, txInt16, txUint16, txInt32,
    txUint32, txSkip, txByte, rxInt8, rxUint8, rxChar, rxBool, rxInt16, rxUint16, rxInt32,
    rxUint32, rxSkip, rxByte, send2, send, length_setInt, length_writeBytes]

theorem outBuf_length_runCalls (cs : List ApiCall) (s : MsgService) :
    (runCalls cs s).outBuf.length = s.outBuf.length := by
  induction cs generalizing s with
  | nil => rfl
  | cons c cs ih => simp [runCalls, ih, outBuf_length_runCall]

theorem outBuf_length_resetNodes (l : List Callback) (s : MsgService) :
    (resetNodes l s).outBuf.length = s.outBuf.length := by
  induction l generalizing s with
  | nil => rfl
  | cons cb l ih => simp [resetNodes, ih, outBuf_length_runCalls]

theorem connectIn_keeps (s : MsgService) :
    (connectIn s).outBuf.length = s.outBuf.length ∧ (connectIn s).outBufSize = s.outBufSize ∧
      (connectIn s).connId = s.connId ∧ (connectIn s).connType = s.connType ∧
      (connectIn s).inBufSize = s.inBufSize := by
  unfold connectIn
  by_cases h : rd32 s.inBuf (getRxBuf s) = s.remoteConnId
  · simp [h]
  · obtain ⟨_, k2, k3, _, _, _, _, _, _, _, k11, k12⟩ := keeps_resetNodes s.resetHandlers
      { s with remoteConnType := rd16 s.inBuf (getRxBuf s + 6),
               remoteConnId := rd32 s.inBuf (getRxBuf s) }
    simp only [h, ne_eq, not_false_eq_true, if_true]
    exact ⟨by rw [outBuf_length_resetNodes], k3, k11, k12, k2⟩

/-- The frame the second part of `connect` hands to the transport. -/
theorem connectOut_frame (s : MsgService) (hal : TxAllocated s) (h18 : 18 ≤ s.outBufSize) :
    ∃ fr, (connectOut s).port.tx = s.port.tx ++ [fr] ∧ fr.length = 18 ∧
      hdr_startByte fr = MSG_PACKET_START_BYTE ∧ hdr_msgType fr = 1 ∧ hdr_msgId fr = 0 ∧
      hdr_len fr = 8 ∧ (s.txPos = 8 → payloadOf fr 8 = connectResponse s) := by
  have hlen : (writeBytes s.outBuf (getTxBuf s) (connectResponse s)).length = s.outBuf.length :=
    length_writeBytes _ _ _
  obtain ⟨g1, g2, g3, g4, g5, g6⟩ :=
    sendRegion_frame (writeBytes s.outBuf (getTxBuf s) (connectResponse s)) 1 0 8 (by decide)
      (by rw [hlen, hal.1]; omega)
  have hl := hal.1
  refine ⟨(sendRegion (writeBytes s.outBuf (getTxBuf s) (connectResponse s)) 1 0 8).take 18,
    ?_, g1, g2, by rw [g3]; rfl, by rw [g4]; rfl, g5, ?_⟩
  · unfold connectOut
    have h := send_eq { s with outBuf := writeBytes s.outBuf (getTxBuf s) (connectResponse s) }
      1 0 8 (by decide)
    simp only [sizeof_msgConnect]
    rw [h]
  · intro hp
    rw [g6]
    have hr : (connectResponse s).length = 8 := by simp [connectResponse, le32, le16]
    rw [getTxBuf, hp, writeBytes_eq _ _ _ (by rw [hr, hal.1]; omega)]
    simp only [payloadOf, sizeof_msgHdr, hr]
    rw [List.append_assoc, List.drop_append_of_le_length (by simp; omega)]
    have h8 : (List.take 8 s.outBuf).length = 8 := by simp; omega
    rw [List.drop_of_length_le (by omega), List.nil_append,
      List.take_append_of_le_length (by omega), ← hr, List.take_length]

/-- C10 (amended): handshake response.  For every service state with a
transmit region of at least 18 bytes in which `connect` runs, the frame it
hands to the transport has message type 1, message id 0 and payload length 8,
whatever the request holds and wherever the transmit cursor is.  When the
transmit cursor is at 8 at the time the response is built (after the reset
callbacks ran), the payload is the responder's own `connId` (4 bytes,
little-endian), then the max payload size `inBufSize - 8 - 4` as `uint16_t`
(2 bytes, little-endian), then the responder's own `connType` (2 bytes,
little-endian). -/
theorem handshake_response (s : MsgService) (hal : TxAllocated s) (h18 : 18 ≤ s.outBufSize) :
    ∃ fr, (connect s).port.tx = (connectIn s).port.tx ++ [fr] ∧ fr.length = 18 ∧
      hdr_startByte fr = MSG_PACKET_START_BYTE ∧ hdr_msgType fr = 1 ∧ hdr_msgId fr = 0 ∧
      hdr_len fr = 8 ∧
      ((connectIn s).txPos = 8 →
        payloadOf fr 8 = le32 s.connId ++ le16 (maxPayloadSize s) ++ le16 s.connType) ∧
      (12 ≤ s.inBufSize → s.inBufSize < UINT_MOD →
        maxPayloadSize s = (s.inBufSize - 8 - 4) % 65536) := by
  obtain ⟨k1, k2, k3, k4, k5⟩ := connectIn_keeps s
  obtain ⟨fr, f1, f2, f3, f4, f5, f6, f7⟩ := connectOut_frame (connectIn s)
    ⟨by rw [k1, k2]; exact hal.1, by rw [k2]; exact hal.2⟩ (by rw [k2]; exact h18)
  refine ⟨fr, f1, f2, f3, f4, f5, f6, ?_, ?_⟩
  · intro hp
    rw [f7 hp]
    simp only [connectResponse, maxPayloadSize, k3, k4, k5]
  · intro h12 hN
    unfold maxPayloadSize
    rw [usub_eq (by simp [sizeof_msgHdr]; omega) hN,
      usub_eq (by simp [sizeof_msgHdr]; omega) (by omega)]
    rfl

theorem txAllocated_handshakeService : TxAllocated handshakeService := by
  unfold TxAllocated; decide

/-- The statement of C10 on the handshake service. -/
theorem handshake_response_witness :
    ∃ fr, (connect handshakeService).port.tx = (connectIn handshakeService).port.tx ++ [fr] ∧
      fr.length = 18 ∧
      hdr_startByte fr = MSG_PACKET_START_BYTE ∧ hdr_msgType fr = 1 ∧ hdr_msgId fr = 0 ∧
      hdr_len fr = 8 ∧
      ((connectIn handshakeService).txPos = 8 →
        payloadOf fr 8 = le32 handshakeService.connId ++ le16 (maxPayloadSize handshakeService)
          ++ le16 handshakeService.connType) ∧
      (12 ≤ handshakeService.inBufSize → handshakeService.inBufSize < UINT_MOD →
        maxPayloadSize handshakeService = (handshakeService.inBufSize - 8 - 4) % 65536) :=
  handshake_response handshakeService txAllocated_handshakeService (by decide)

/-- C10 as stated fails: a handshake request arrives in two parts and between
the two polls user code writes four bytes with `txUint32` without sending, so
the transmit cursor is at 12 when `connect` runs.  `connect` stores its
response at `outBuf[12 .. 20)` and `send` transmits `outBuf[0 .. 18)`: the
payload of the response starts with the four stale bytes, not with the
responder's `connId`, max payload size and `connType`. -/
theorem handshake_response_counterexample :
    TxAllocated exampleService ∧ 18 ≤ exampleService.outBufSize ∧
      dispatches (exec exampleService cursorRun).trace
        = [handshakeRequest ⟨77, 0, 3, 0, 0⟩ ++ List.replicate 14 0] ∧
      handlerCalls (exec exampleService cursorRun).trace = [connectNode] ∧
      (exec exampleService cursorRun).port.tx
        = [[35, 1, 0, 0, 8, 0, 0, 0, 221, 204, 187, 170, 120, 86, 52, 18, 0, 0]] ∧
      le32 exampleService.connId ++ le16 (exampleService.inBufSize - 8 - 4)
          ++ le16 exampleService.connType = [120, 86, 52, 18, 20, 0, 7, 0] ∧
      payloadOf [35, 1, 0, 0, 8, 0, 0, 0, 221, 204, 187, 170, 120, 86, 52, 18, 0, 0] 8
        ≠ le32 exampleService.connId ++ le16 (exampleService.inBufSize - 8 - 4)
          ++ le16 exampleService.connType := by
  refine ⟨by unfold TxAllocated; decide, by decide, by decide, by decide, by decide, by decide,
    by decide⟩

/-! ## The layout of a sent frame -/

theorem sendRegion_length (buf : List Nat) (t i : Int) (L : Nat) :
    (sendRegion buf t i L).length = buf.length := by
  simp [sendRegion]

/-- The bytes of the frame `send` hands to the transport, one by one. -/
theorem sendRegion_bytes (buf : List Nat) (t i : Int) (L : Nat) (hL : L ≤ 65535)
    (hfit : L + 10 ≤ buf.length) :
    byteAt ((sendRegion buf t i L).take (L + 10)) 4 = L % 256 ∧
    byteAt ((sendRegion buf t i L).take (L + 10)) 5 = L / 256 ∧
    byteAt ((sendRegion buf t i L).take (L + 10)) (8 + L) = 0 ∧
    byteAt ((sendRegion buf t i L).take (L + 10)) (8 + L + 1) = 0 ∧
    byteAt ((sendRegion buf t i L).take (L + 10)) 3 = byteAt buf 3 ∧
    byteAt ((sendRegion buf t i L).take (L + 10)) 6 = byteAt buf 6 ∧
    byteAt ((sendRegion buf t i L).take (L + 10)) 7 = byteAt buf 7 := by
  refine ⟨?_, ?_, ?_, ?_, ?_, ?_, ?_⟩
  · simp only [sendRegion]
    rw [byteAt_take _ _ _ (by omega), byteAt_set_ne _ _ 4 _ (by omega),
      byteAt_set_ne _ _ 4 _ (by omega), byteAt_set_ne _ _ 4 _ (by omega),
      byteAt_set_eq _ _ _ (by simp; omega)]
    omega
  · simp only [sendRegion]
    rw [byteAt_take _ _ _ (by omega), byteAt_set_ne _ _ 5 _ (by omega),
      byteAt_set_ne _ _ 5 _ (by omega), byteAt_set_eq _ _ _ (by simp; omega)]
    omega
  · simp only [sendRegion]
    rw [byteAt_take _ _ _ (by omega), byteAt_set_ne _ _ (8 + L) _ (by omega),
      byteAt_set_eq _ _ _ (by simp; omega)]
  · simp only [sendRegion]
    rw [byteAt_take _ _ _ (by omega)]
    have e : 8 + L + 1 = 9 + L := by omega
    rw [e, byteAt_set_eq _ _ _ (by simp; omega)]
  · simp only [sendRegion]
    rw [byteAt_take _ _ _ (by omega), byteAt_set_ne _ _ 3 _ (by omega),
      byteAt_set_ne _ _ 3 _ (by omega), byteAt_set_ne _ _ 3 _ (by omega),
      byteAt_set_ne _ _ 3 _ (by omega), byteAt_set_ne _ _ 3 _ (by omega),
      byteAt_set_ne _ _ 3 _ (by omega), byteAt_set_ne _ _ 3 _ (by omega)]
  · simp only [sendRegion]
    rw [byteAt_take _ _ _ (by omega), byteAt_set_ne _ _ 6 _ (by omega),
      byteAt_set_ne _ _ 6 _ (by omega), byteAt_set_ne _ _ 6 _ (by omega),
      byteAt_set_ne _ _ 6 _ (by omega), byteAt_set_ne _ _ 6 _ (by omega),
      byteAt_set_ne _ _ 6 _ (by omega), byteAt_set_ne _ _ 6 _ (by omega)]
  · simp only [sendRegion]
    rw [byteAt_take _ _ _ (by omega), byteAt_set_ne _ _ 7 _ (by omega),
      byteAt_set_ne _ _ 7 _ (by omega), byteAt_set_ne _ _ 7 _ (by omega),
      byteAt_set_ne _ _ 7 _ (by omega), byteAt_set_ne _ _ 7 _ (by omega),
      byteAt_set_ne _ _ 7 _ (by omega), byteAt_set_ne _ _ 7 _ (by omega)]

/-- The payload bytes of the transmit region are not touched by `send`. -/
theorem sendRegion_payload (buf : List Nat) (t i : Int) (L : Nat) :
    payloadOf (sendRegion buf t i L) L = payloadOf buf L := by
  simp only [payloadOf, sizeof_msgHdr]
  apply List.ext_getElem?
  intro j
  by_cases hj : j < L
  · simp only [List.getElem?_take, hj, if_true, List.getElem?_drop, sendRegion]
    rw [List.getElem?_set_ne (by omega), List.getElem?_set_ne (by omega),
      List.getElem?_set_ne (by omega), List.getElem?_set_ne (by omega),
      List.getElem?_set_ne (by omega), List.getElem?_set_ne (by omega),
      List.getElem?_set_ne (by omega)]
  · simp [List.getElem?_take, hj]

/-- C11: send frame layout.  For every type and id in 0..255 and every length
`L ≤ 65535` with `L + 10 ≤ outBufSize`, `send(type,id,L)` appends exactly one
buffer to what the transport was handed: the first `8 + L + 2` bytes of the
transmit region, with byte 0 `'#'`, byte 1 the type, byte 2 the id, bytes 4 and
5 the length in little-endian order, bytes `8 .. 8+L` the payload bytes the
region held before the call (which the call leaves in place) and the two
trailer bytes zero; afterwards `txPos = 8`, and the call returns 0. -/
theorem send_frame_layout (a : MsgService) (t i L : Nat)
    (ht : t < 256) (hi : i < 256) (hL : L ≤ 65535)
    (ha : TxAllocated a) (hfit : L + 10 ≤ a.outBufSize) :
    ∃ fr, (send a (t : Int) (i : Int) (L : Int)).2.port.tx = a.port.tx ++ [fr] ∧
      fr = (send a (t : Int) (i : Int) (L : Int)).2.outBuf.take (8 + L + 2) ∧
      fr.length = 8 + L + 2 ∧
      byteAt fr 0 = 35 ∧ byteAt fr 1 = t ∧ byteAt fr 2 = i ∧
      byteAt fr 4 = L % 256 ∧ byteAt fr 5 = L / 256 ∧ hdr_len fr = L ∧
      payloadOf fr L = payloadOf a.outBuf L ∧
      payloadOf (send a (t : Int) (i : Int) (L : Int)).2.outBuf L = payloadOf a.outBuf L ∧
      byteAt fr (8 + L) = 0 ∧ byteAt fr (8 + L + 1) = 0 ∧
      (send a (t : Int) (i : Int) (L : Int)).2.txPos = 8 ∧
      (send a (t : Int) (i : Int) (L : Int)).1 = 0 := by
  have hlen : L + 10 ≤ a.outBuf.length := by rw [ha.1]; exact hfit
  obtain ⟨g1, g2, g3, g4, g5, g6⟩ := sendRegion_frame a.outBuf t i L hL hlen
  obtain ⟨b4, b5, b8, b9, _, _, _⟩ := sendRegion_bytes a.outBuf t i L hL hlen
  have e : 8 + L + 2 = L + 10 := by omega
  rw [send_eq a t i L hL, e]
  refine ⟨(sendRegion a.outBuf t i L).take (L + 10), rfl, rfl, g1, g2, ?_, ?_, b4, b5, g5, g6,
    sendRegion_payload _ _ _ _, b8, b9, rfl, rfl⟩
  · have h := g3
    rw [hdr_msgType, toU8_ofNat, Nat.mod_eq_of_lt ht] at h
    exact h
  · have h := g4
    rw [hdr_msgId, toU8_ofNat, Nat.mod_eq_of_lt hi] at h
    exact h

/-- The layout of C11 on the example: `send(5,9,3)` of the example sender. -/
theorem send_frame_layout_witness :
    ∃ fr, (send exampleSender (5 : Nat) (9 : Nat) (3 : Nat)).2.port.tx
        = exampleSender.port.tx ++ [fr] ∧
      fr = (send exampleSender (5 : Nat) (9 : Nat) (3 : Nat)).2.outBuf.take (8 + 3 + 2) ∧
      fr.length = 8 + 3 + 2 ∧
      byteAt fr 0 = 35 ∧ byteAt fr 1 = 5 ∧ byteAt fr 2 = 9 ∧
      byteAt fr 4 = 3 % 256 ∧ byteAt fr 5 = 3 / 256 ∧ hdr_len fr = 3 ∧
      payloadOf fr 3 = payloadOf exampleSender.outBuf 3 ∧
      payloadOf (send exampleSender (5 : Nat) (9 : Nat) (3 : Nat)).2.outBuf 3
        = payloadOf exampleSender.outBuf 3 ∧
      byteAt fr (8 + 3) = 0 ∧ byteAt fr (8 + 3 + 1) = 0 ∧
      (send exampleSender (5 : Nat) (9 : Nat) (3 : Nat)).2.txPos = 8 ∧
      (send exampleSender (5 : Nat) (9 : Nat) (3 : Nat)).1 = 0 :=
  send_frame_layout exampleSender 5 9 3 (by decide) (by decide) (by decide)
    txAllocated_exampleSender (by decide)

/-! ## The reserved bytes of a sent frame -/

theorem txAllocated_staleService : TxAllocated staleService := by
  unfold TxAllocated; decide

/-- C12 (counterexample): the transmit region of the stale service holds 255
at offsets 3, 6 and 7; `send(5,9,0)` hands the transport a frame with 255 in
the three reserved bytes. -/
theorem send_reserved_bytes_counterexample :
    TxAllocated staleService ∧ 0 + 10 ≤ staleService.outBufSize ∧
      (send staleService 5 9 0).2.port.tx = [[35, 5, 9, 255, 0, 0, 255, 255, 0, 0]] ∧
      ¬ ∃ fr, (send staleService 5 9 0).2.port.tx = staleService.port.tx ++ [fr] ∧
          byteAt fr 3 = 0 ∧ byteAt fr 6 = 0 ∧ byteAt fr 7 = 0 := by
  refine ⟨txAllocated_staleService, by decide, by decide, ?_⟩
  rintro ⟨fr, h, h3, -, -⟩
  have e : (send staleService 5 9 0).2.port.tx
      = staleService.port.tx ++ [[35, 5, 9, 255, 0, 0, 255, 255, 0, 0]] := by decide
  rw [e] at h
  simp only [List.append_cancel_left_eq, List.cons.injEq, and_true] at h
  rw [← h] at h3
  exact absurd h3 (by decide)

/-- C12 (amended): `send` does not store to the reserved bytes of the header.
For every type and id and every length `L ≤ 65535` with `L + 10 ≤ outBufSize`,
bytes 3, 6 and 7 of the transmitted frame, and of the transmit region after the
call, are the bytes the transmit region held at these offsets before the call;
they are zero exactly when the region held zero there. -/
theorem send_reserved_bytes (a : MsgService) (t i : Int) (L : Nat) (hL : L ≤ 65535)
    (ha : TxAllocated a) (hfit : L + 10 ≤ a.outBufSize) :
    ∃ fr, (send a t i (L : Int)).2.port.tx = a.port.tx ++ [fr] ∧
      byteAt fr 3 = byteAt a.outBuf 3 ∧ byteAt fr 6 = byteAt a.outBuf 6 ∧
      byteAt fr 7 = byteAt a.outBuf 7 ∧
      byteAt (send a t i (L : Int)).2.outBuf 3 = byteAt a.outBuf 3 ∧
      byteAt (send a t i (L : Int)).2.outBuf 6 = byteAt a.outBuf 6 ∧
      byteAt (send a t i (L : Int)).2.outBuf 7 = byteAt a.outBuf 7 ∧
      ((byteAt fr 3 = 0 ∧ byteAt fr 6 = 0 ∧ byteAt fr 7 = 0) ↔
        (byteAt a.outBuf 3 = 0 ∧ byteAt a.outBuf 6 = 0 ∧ byteAt a.outBuf 7 = 0)) := by
  have hlen : L + 10 ≤ a.outBuf.length := by rw [ha.1]; exact hfit
  obtain ⟨_, _, _, _, r3, r6, r7⟩ := sendRegion_bytes a.outBuf t i L hL hlen
  have t3 := r3
  have t6 := r6
  have t7 := r7
  rw [byteAt_take _ _ _ (by omega)] at t3 t6 t7
  rw [send_eq a t i L hL]
  exact ⟨(sendRegion a.outBuf t i L).take (L + 10), rfl, r3, r6, r7, t3, t6, t7,
    by rw [r3, r6, r7]⟩

/-- The statement of C12 (amended) on two examples: the example sender, whose
region was allocated in cleared memory, and the stale service. -/
theorem send_reserved_bytes_witness :
    (∃ fr, (send exampleSender 5 9 (3 : Nat)).2.port.tx = exampleSender.port.tx ++ [fr] ∧
      byteAt fr 3 = byteAt exampleSender.outBuf 3 ∧ byteAt fr 6 = byteAt exampleSender.outBuf 6 ∧
      byteAt fr 7 = byteAt exampleSender.outBuf 7 ∧
      byteAt (send exampleSender 5 9 (3 : Nat)).2.outBuf 3 = byteAt exampleSender.outBuf 3 ∧
      byteAt (send exampleSender 5 9 (3 : Nat)).2.outBuf 6 = byteAt exampleSender.outBuf 6 ∧
      byteAt (send exampleSender 5 9 (3 : Nat)).2.outBuf 7 = byteAt exampleSender.outBuf 7 ∧
      ((byteAt fr 3 = 0 ∧ byteAt fr 6 = 0 ∧ byteAt fr 7 = 0) ↔
        (byteAt exampleSender.outBuf 3 = 0 ∧ byteAt exampleSender.outBuf 6 = 0 ∧
          byteAt exampleSender.outBuf 7 = 0))) ∧
    byteAt staleService.outBuf 3 = 255 :=
  ⟨send_reserved_bytes exampleSender 5 9 3 (by decide) txAllocated_exampleSender (by decide),
    by decide⟩

/-! ## Typed writes -/

theorem byteOf_zero (v : Int) : byteOf v 0 = toU8 v := by
  simp only [byteOf, toU8, Int.shiftRight_eq_div_pow]
  norm_num

theorem byteOf_one (v : Int) : byteOf v 1 = toU8 (v / 256) := by
  simp only [byteOf, toU8, Int.shiftRight_eq_div_pow]
  norm_num

theorem byteOf_two (v : Int) : byteOf v 2 = toU8 (v / 65536) := by
  simp only [byteOf, toU8, Int.shiftRight_eq_div_pow]
  norm_num

theorem byteOf_three (v : Int) : byteOf v 3 = toU8 (v / 16777216) := by
  simp only [byteOf, toU8, Int.shiftRight_eq_div_pow]
  norm_num

theorem byteOf_nat (v : Nat) :
    byteOf (v : Int) 0 = v % 256 ∧ byteOf (v : Int) 1 = v / 256 % 256 ∧
      byteOf (v : Int) 2 = v / 65536 % 256 ∧ byteOf (v : Int) 3 = v / 16777216 % 256 := by
  rw [byteOf_zero, byteOf_one, byteOf_two, byteOf_three]
  unfold toU8
  refine ⟨by omega, by omega, by omega, by omega⟩

theorem byteOf_lt (v : Int) (k : Nat) : byteOf v k < 256 := by
  unfold byteOf; omega

theorem writeBytes_append (a b : List Nat) :
    ∀ (buf : List Nat) (pos : Nat),
      writeBytes buf pos (a ++ b) = writeBytes (writeBytes buf pos a) (pos + a.length) b := by
  induction a with
  | nil => intro buf pos; simp [writeBytes]
  | cons x xs ih =>
      intro buf pos
      show writeBytes (buf.set pos x) (pos + 1) (xs ++ b)
        = writeBytes (writeBytes (buf.set pos x) (pos + 1) xs) (pos + (xs.length + 1)) b
      rw [ih, show pos + 1 + xs.length = pos + (xs.length + 1) by omega]

theorem txByte_eq (s : MsgService) (b : Nat) (h : s.txPos + 1 < UINT_MOD) :
    txByte s b = { s with outBuf := writeBytes s.outBuf s.txPos [b], txPos := s.txPos + 1 } := by
  simp only [txByte, writeBytes, uadd_eq h]

/-- The effect of one typed write that does not wrap the cursor: the encoding
of the value is stored at the cursor and the cursor advances by the width. -/
theorem txValue_eq (s : MsgService) (v : Value) (h : s.txPos + v.width < UINT_MOD) :
    txValue s v =
      { s with outBuf := writeBytes s.outBuf s.txPos v.bytes, txPos := s.txPos + v.width } := by
  have hM := UINT_MOD_eq
  cases v with
  | int8 v =>
      simp only [Value.width] at h
      simp only [txValue, txInt8, Value.bytes, Value.width, txByte_eq s _ h, toU8]
  | uint8 v =>
      simp only [Value.width] at h
      simp only [txValue, txUint8, Value.bytes, Value.width, txByte_eq s _ h]
  | char v =>
      simp only [Value.width] at h
      simp only [txValue, txChar, Value.bytes, Value.width, txByte_eq s _ h]
  | bool v =>
      simp only [Value.width] at h
      simp only [txValue, txBool, Value.bytes, Value.width, txByte_eq s _ h]
  | int16 v =>
      simp only [Value.width] at h
      have e1 : uadd s.txPos 1 = s.txPos + 1 := uadd_eq (by omega)
      have e2 : uadd (s.txPos + 1) 1 = s.txPos + 1 + 1 := uadd_eq (by omega)
      simp only [txValue, txInt16, txByte, e1, e2, Value.bytes, Value.width, byteOf_zero,
        byteOf_one, writeBytes]
  | uint16 v =>
      simp only [Value.width] at h
      have e1 : uadd s.txPos 1 = s.txPos + 1 := uadd_eq (by omega)
      have e2 : uadd (s.txPos + 1) 1 = s.txPos + 1 + 1 := uadd_eq (by omega)
      simp only [txValue, txUint16, txByte, e1, e2, Value.bytes, Value.width, (byteOf_nat v).1,
        (byteOf_nat v).2.1, writeBytes]
  | int32 v =>
      simp only [Value.width] at h
      have e1 : uadd s.txPos 1 = s.txPos + 1 := uadd_eq (by omega)
      have e2 : uadd (s.txPos + 1) 1 = s.txPos + 1 + 1 := uadd_eq (by omega)
      have e3 : uadd (s.txPos + 1 + 1) 1 = s.txPos + 1 + 1 + 1 := uadd_eq (by omega)
      have e4 : uadd (s.txPos + 1 + 1 + 1) 1 = s.txPos + 1 + 1 + 1 + 1 := uadd_eq (by omega)
      simp only [txValue, txInt32, txByte, e1, e2, e3, e4, Value.bytes, Value.width, byteOf_zero,
        byteOf_one, byteOf_two, byteOf_three, writeBytes]
  | uint32 v =>
      simp only [Value.width] at h
      have e1 : uadd s.txPos 1 = s.txPos + 1 := uadd_eq (by omega)
      have e2 : uadd (s.txPos + 1) 1 = s.txPos + 1 + 1 := uadd_eq (by omega)
      have e3 : uadd (s.txPos + 1 + 1) 1 = s.txPos + 1 + 1 + 1 := uadd_eq (by omega)
      have e4 : uadd (s.txPos + 1 + 1 + 1) 1 = s.txPos + 1 + 1 + 1 + 1 := uadd_eq (by omega)
      simp only [txValue, txUint32, txByte, e1, e2, e3, e4, Value.bytes, Value.width,
        (byteOf_nat v).1, (byteOf_nat v).2.1, (byteOf_nat v).2.2.1, (byteOf_nat v).2.2.2,
        writeBytes]

theorem length_bytes (v : Value) : v.bytes.length = v.width := by
  cases v <;> rfl

theorem encode_cons (v : Value) (vs : List Value) : encode (v :: vs) = v.bytes ++ encode vs := by
  simp [encode]

/-- The effect of a sequence of typed writes that does not wrap the cursor. -/
theorem txValues_eq (vs : List Value) :
    ∀ s : MsgService, s.txPos + (encode vs).length < UINT_MOD →
      txValues s vs =
        { s with
          outBuf := writeBytes s.outBuf s.txPos (encode vs)
          txPos := s.txPos + (encode vs).length } := by
  induction vs with
  | nil => intro s _; simp [txValues, encode, writeBytes]
  | cons v rest ih =>
      intro s h
      rw [encode_cons, List.length_append, length_bytes] at h
      rw [txValues, txValue_eq s v (by omega), ih _ (by first | omega | (simp only; omega)), encode_cons,
        writeBytes_append, length_bytes, List.length_append, length_bytes]
      simp only [Nat.add_assoc]

/-! ## The send that infers the length -/

/-- The `int` that `send(msgType,msgId)` passes on as length: `txPos - 8`
computed in `unsigned int` and converted to `int`. -/
theorem inferred_length (p : Nat) (h8 : 8 ≤ p) (hp : p < INT_LIMIT + 8) :
    toI32 (usub p sizeof_msgHdr) = (p : Int) - 8 := by
  have hI := INT_LIMIT_eq
  simp only [toI32, usub, sizeof_msgHdr, UINT_MOD_eq]
  split <;> omega

/-- The effect of `send` depends on the length modulo `2^32` only. -/
theorem send_len_wrap (s : MsgService) (t i : Int) (p : Nat) :
    send s t i (toI32 (usub p sizeof_msgHdr)) = send s t i ((p : Int) - 8) := by
  have k1 : toU16 (toI32 (usub p sizeof_msgHdr)) = toU16 ((p : Int) - 8) := by
    simp only [toU16, toI32, usub, sizeof_msgHdr, UINT_MOD_eq]
    split <;> omega
  have k2 : toU32 ((sizeof_msgHdr : Int) + toI32 (usub p sizeof_msgHdr))
      = toU32 ((sizeof_msgHdr : Int) + ((p : Int) - 8)) := by
    simp only [toU32, toI32, usub, sizeof_msgHdr, UINT_MOD_eq]
    split <;> omega
  simp only [send, k1, k2]

theorem payloadOf_written (buf bs : List Nat) (h : 8 + bs.length ≤ buf.length) :
    payloadOf (writeBytes buf 8 bs) bs.length = bs := by
  rw [writeBytes_eq bs buf 8 h]
  simp only [payloadOf, sizeof_msgHdr]
  have h8 : (buf.take 8).length = 8 := by simp; omega
  rw [List.append_assoc, List.drop_append_of_le_length (by omega)]
  have hd : (buf.take 8).drop 8 = [] := by
    apply List.drop_eq_nil_of_le; omega
  rw [hd, List.nil_append, List.take_append_of_le_length (by omega), List.take_length]

/-- C13 (amended): the send that infers the length.  In every service state
(so in every state with `txPos ≥ 8`) `send(type,id)` is
`send(type,id,txPos - 8)`: the same value returned and the same service
afterwards, transport, transmit region and cursor included.  A reset of the
receive state and every send leave `txPos = 8`; when typed writes follow that
store `n` bytes in all, with `n ≤ 65535` (the range of the 16-bit length
field) and `n + 10 ≤ outBufSize`, the frame `send(type,id)` then hands to the
transport has `n` in its length field and exactly the written bytes as
payload. -/
theorem inferred_length_send (s a : MsgService) (t i : Int) (vs : List Value) (n : Nat)
    (ha : TxAllocated a) (hcur : a.txPos = 8)
    (hn : (encode vs).length = n) (hL : n ≤ 65535) (hfit : n + 10 ≤ a.outBufSize) :
    send2 s t i = send s t i ((s.txPos : Int) - 8) ∧
      (resetReceiveState s).txPos = 8 ∧ (∀ len : Int, (send s t i len).2.txPos = 8) ∧
      ∃ fr, (send2 (txValues a vs) t i).2.port.tx = a.port.tx ++ [fr] ∧
        fr.length = 8 + n + 2 ∧ hdr_len fr = n ∧ payloadOf fr n = encode vs ∧
        (send2 (txValues a vs) t i).2.txPos = 8 ∧ (send2 (txValues a vs) t i).1 = 0 := by
  have hM := UINT_MOD_eq
  have hlen := ha.1
  have hlt := ha.2
  refine ⟨send_len_wrap s t i s.txPos, rfl, fun _ => rfl, ?_⟩
  have hw : txValues a vs =
      { a with outBuf := writeBytes a.outBuf 8 (encode vs), txPos := 8 + n } := by
    rw [txValues_eq vs a (by rw [hcur, hn]; omega), hcur, hn]
  have hcast : (((8 + n : Nat) : Int) - 8) = (n : Int) := by omega
  have hs : send2 (txValues a vs) t i = send (txValues a vs) t i (n : Int) := by
    rw [send2, send_len_wrap, hw]
    simp only [hcast]
  rw [hs, send_eq _ t i n hL, hw]
  have hfit2 : n + 10 ≤ (writeBytes a.outBuf 8 (encode vs)).length := by
    rw [length_writeBytes]; omega
  obtain ⟨g1, _, _, _, g5, g6⟩ :=
    sendRegion_frame (writeBytes a.outBuf 8 (encode vs)) t i n hL hfit2
  refine ⟨_, rfl, by rw [g1]; omega, g5, ?_, rfl, rfl⟩
  rw [g6]
  have h := payloadOf_written a.outBuf (encode vs) (by rw [hn]; omega)
  rw [hn] at h
  exact h

theorem txAllocated_exampleService : TxAllocated exampleService := by
  unfold TxAllocated; decide

/-- The statement of C13 (amended) on the example sender (three bytes written, cursor at
11) and on the example service with the example values written to it. -/
theorem inferred_length_send_witness :
    send2 exampleSender 5 9 = send exampleSender 5 9 ((exampleSender.txPos : Int) - 8) ∧
      (resetReceiveState exampleSender).txPos = 8 ∧
      (∀ len : Int, (send exampleSender 5 9 len).2.txPos = 8) ∧
      ∃ fr, (send2 (txValues exampleService exampleValues) 5 9).2.port.tx
          = exampleService.port.tx ++ [fr] ∧
        fr.length = 8 + 4 + 2 ∧ hdr_len fr = 4 ∧ payloadOf fr 4 = encode exampleValues ∧
        (send2 (txValues exampleService exampleValues) 5 9).2.txPos = 8 ∧
        (send2 (txValues exampleService exampleValues) 5 9).1 = 0 :=
  inferred_length_send exampleSender exampleService 5 9 exampleValues 4
    txAllocated_exampleService rfl rfl (by decide) (by decide)

/-! ## The typed writers -/

/-- A typed write within the transmit region: the encoding of the value
replaces the bytes at the cursor, the cursor advances by the width, nothing
else changes. -/
theorem txValue_region (s : MsgService) (v : Value) (ha : TxAllocated s)
    (h : s.txPos + v.width ≤ s.outBufSize) :
    txValue s v =
      { s with
        outBuf := s.outBuf.take s.txPos ++ v.bytes ++ s.outBuf.drop (s.txPos + v.width)
        txPos := s.txPos + v.width } := by
  have h1 := ha.1
  have h2 := ha.2
  rw [txValue_eq s v (by omega), writeBytes_eq _ _ _ (by rw [length_bytes]; omega), length_bytes]

/-- C14: the typed writers.  With the transmit cursor `p = txPos` and the
bytes written within the transmit region: `txInt8`, `txUint8` and `txChar`
store the byte `v mod 256` at `outBuf[p]` and leave `txPos = p + 1`; `txBool`
stores 1 for a nonzero `v` and 0 for zero and leaves `txPos = p + 1`;
`txInt16` and `txUint16` store the bytes `(v >> 8k) & 0xff`, `k = 0, 1`, at
`outBuf[p + k]` and leave `txPos = p + 2`; `txInt32` and `txUint32` store the
bytes `(v >> 8k) & 0xff`, `k = 0 .. 3`, at `outBuf[p + k]` and leave
`txPos = p + 4`; `txSkip(n)` leaves `txPos = p + n`.  The other bytes of the
transmit region and the other fields of the service are as before. -/
theorem typed_writers (s : MsgService) (v : Int) (u : Nat) (n : Int) (ha : TxAllocated s) :
    (s.txPos + 1 ≤ s.outBufSize →
      txInt8 s v =
        { s with
          outBuf := s.outBuf.take s.txPos ++ [(v % 256).toNat] ++ s.outBuf.drop (s.txPos + 1)
          txPos := s.txPos + 1 } ∧
      txUint8 s u =
        { s with
          outBuf := s.outBuf.take s.txPos ++ [u % 256] ++ s.outBuf.drop (s.txPos + 1)
          txPos := s.txPos + 1 } ∧
      txChar s u =
        { s with
          outBuf := s.outBuf.take s.txPos ++ [u % 256] ++ s.outBuf.drop (s.txPos + 1)
          txPos := s.txPos + 1 } ∧
      txBool s v =
        { s with
          outBuf := s.outBuf.take s.txPos ++ [if v ≠ 0 then 1 else 0]
            ++ s.outBuf.drop (s.txPos + 1)
          txPos := s.txPos + 1 }) ∧
    (s.txPos + 2 ≤ s.outBufSize →
      txInt16 s v =
        { s with
          outBuf := s.outBuf.take s.txPos ++ [byteOf v 0, byteOf v 1]
            ++ s.outBuf.drop (s.txPos + 2)
          txPos := s.txPos + 2 } ∧
      txUint16 s u =
        { s with
          outBuf := s.outBuf.take s.txPos ++ [byteOf u 0, byteOf u 1]
            ++ s.outBuf.drop (s.txPos + 2)
          txPos := s.txPos + 2 }) ∧
    (s.txPos + 4 ≤ s.outBufSize →
      txInt32 s v =
        { s with
          outBuf := s.outBuf.take s.txPos ++ [byteOf v 0, byteOf v 1, byteOf v 2, byteOf v 3]
            ++ s.outBuf.drop (s.txPos + 4)
          txPos := s.txPos + 4 } ∧
      txUint32 s u =
        { s with
          outBuf := s.outBuf.take s.txPos ++ [byteOf u 0, byteOf u 1, byteOf u 2, byteOf u 3]
            ++ s.outBuf.drop (s.txPos + 4)
          txPos := s.txPos + 4 }) ∧
    (0 ≤ (s.txPos : Int) + n → (s.txPos : Int) + n < UINT_MOD →
      txSkip s n = { s with txPos := ((s.txPos : Int) + n).toNat }) := by
  refine ⟨fun h => ⟨?_, ?_, ?_, ?_⟩, fun h => ⟨?_, ?_⟩, fun h => ⟨?_, ?_⟩, fun h0 h1 => ?_⟩
  · exact txValue_region s (Value.int8 v) ha h
  · exact txValue_region s (Value.uint8 u) ha h
  · exact txValue_region s (Value.char u) ha h
  · exact txValue_region s (Value.bool v) ha h
  · exact txValue_region s (Value.int16 v) ha h
  · exact txValue_region s (Value.uint16 u) ha h
  · exact txValue_region s (Value.int32 v) ha h
  · exact txValue_region s (Value.uint32 u) ha h
  · have hM := UINT_MOD_eq
    have e : toU32 ((s.txPos : Int) + n) = ((s.txPos : Int) + n).toNat := by
      unfold toU32; omega
    simp only [txSkip, e]

/-- The statement of C14 on the example service (cursor at 8, region of 32
bytes) with the values `-2` and `513` and a skip of 3. -/
theorem typed_writers_witness :
    (txInt8 exampleService (-2) =
        { exampleService with
          outBuf := exampleService.outBuf.take exampleService.txPos ++ [((-2 : Int) % 256).toNat]
            ++ exampleService.outBuf.drop (exampleService.txPos + 1)
          txPos := exampleService.txPos + 1 } ∧
      txUint8 exampleService 513 =
        { exampleService with
          outBuf := exampleService.outBuf.take exampleService.txPos ++ [513 % 256]
            ++ exampleService.outBuf.drop (exampleService.txPos + 1)
          txPos := exampleService.txPos + 1 } ∧
      txChar exampleService 513 =
        { exampleService with
          outBuf := exampleService.outBuf.take exampleService.txPos ++ [513 % 256]
            ++ exampleService.outBuf.drop (exampleService.txPos + 1)
          txPos := exampleService.txPos + 1 } ∧
      txBool exampleService (-2) =
        { exampleService with
          outBuf := exampleService.outBuf.take exampleService.txPos
            ++ [if (-2 : Int) ≠ 0 then 1 else 0]
            ++ exampleService.outBuf.drop (exampleService.txPos + 1)
          txPos := exampleService.txPos + 1 }) ∧
    (txInt16 exampleService (-2) =
        { exampleService with
          outBuf := exampleService.outBuf.take exampleService.txPos
            ++ [byteOf (-2) 0, byteOf (-2) 1]
            ++ exampleService.outBuf.drop (exampleService.txPos + 2)
          txPos := exampleService.txPos + 2 } ∧
      txUint16 exampleService 513 =
        { exampleService with
          outBuf := exampleService.outBuf.take exampleService.txPos
            ++ [byteOf (513 : Nat) 0, byteOf (513 : Nat) 1]
            ++ exampleService.outBuf.drop (exampleService.txPos + 2)
          txPos := exampleService.txPos + 2 }) ∧
    (txInt32 exampleService (-2) =
        { exampleService with
          outBuf := exampleService.outBuf.take exampleService.txPos
            ++ [byteOf (-2) 0, byteOf (-2) 1, byteOf (-2) 2, byteOf (-2) 3]
            ++ exampleService.outBuf.drop (exampleService.txPos + 4)
          txPos := exampleService.txPos + 4 } ∧
      txUint32 exampleService 513 =
        { exampleService with
          outBuf := exampleService.outBuf.take exampleService.txPos
            ++ [byteOf (513 : Nat) 0, byteOf (513 : Nat) 1, byteOf (513 : Nat) 2,
              byteOf (513 : Nat) 3]
            ++ exampleService.outBuf.drop (exampleService.txPos + 4)
          txPos := exampleService.txPos + 4 }) ∧
    txSkip exampleService 3
      = { exampleService with txPos := ((exampleService.txPos : Int) + 3).toNat } ∧
    [byteOf (-2) 0, byteOf (-2) 1, byteOf (-2) 2, byteOf (-2) 3] = [254, 255, 255, 255] ∧
    [byteOf (513 : Nat) 0, byteOf (513 : Nat) 1] = [1, 2] :=
  ⟨(typed_writers exampleService (-2) 513 3 txAllocated_exampleService).1 (by decide),
    (typed_writers exampleService (-2) 513 3 txAllocated_exampleService).2.1 (by decide),
    (typed_writers exampleService (-2) 513 3 txAllocated_exampleService).2.2.1 (by decide),
    (typed_writers exampleService (-2) 513 3 txAllocated_exampleService).2.2.2 (by decide)
      (by decide),
    by decide, by decide⟩

/-! ## Reading back what the typed writers wrote -/

theorem or_shl8 (x b : Nat) (hx : x < 256) : x ||| (b <<< 8) = x + 256 * b := by
  have h : x < 2 ^ 8 := by omega
  rw [Nat.shiftLeft_eq, Nat.lor_comm, Nat.mul_comm, ← Nat.mul_add_lt_is_or h b]
  omega

theorem or_shl16 (x b : Nat) (hx : x < 65536) : x ||| (b <<< 16) = x + 65536 * b := by
  have h : x < 2 ^ 16 := by omega
  rw [Nat.shiftLeft_eq, Nat.lor_comm, Nat.mul_comm, ← Nat.mul_add_lt_is_or h b]
  omega

theorem or_shl24 (x b : Nat) (hx : x < 16777216) : x ||| (b <<< 24) = x + 16777216 * b := by
  have h : x < 2 ^ 24 := by omega
  rw [Nat.shiftLeft_eq, Nat.lor_comm, Nat.mul_comm, ← Nat.mul_add_lt_is_or h b]
  omega

/-- The bytes of a region that holds the list `bs` at offset `p`. -/
theorem byteAt_of_placed (buf bs : List Nat) (p k : Nat)
    (h : (buf.drop p).take bs.length = bs) (hk : k < bs.length) :
    byteAt buf (p + k) = bs.getD k 0 % 256 := by
  have e : bs[k]? = buf[p + k]? := by
    conv_lhs => rw [← h]
    rw [List.getElem?_take, if_pos hk, List.getElem?_drop]
  simp only [byteAt, List.getD_eq_getElem?_getD, e]

/-- The 8-bit readers return the byte at the cursor. -/
theorem rx_combine1 (r : MsgService) (h : r.rxPos + 1 < UINT_MOD) :
    rxInt8 r = (toI8 (byteAt r.inBuf r.rxPos), { r with rxPos := r.rxPos + 1 }) ∧
    rxUint8 r = (byteAt r.inBuf r.rxPos, { r with rxPos := r.rxPos + 1 }) ∧
    rxChar r = (byteAt r.inBuf r.rxPos, { r with rxPos := r.rxPos + 1 }) ∧
    rxBool r = ((if byteAt r.inBuf r.rxPos ≠ 0 then 1 else 0), { r with rxPos := r.rxPos + 1 }) := by
  have e1 : uadd r.rxPos 1 = r.rxPos + 1 := uadd_eq (by omega)
  refine ⟨?_, ?_, ?_, ?_⟩
  · simp only [rxInt8, rxByte, e1]
  · simp only [rxUint8, rxByte, e1]
  · simp only [rxChar, rxByte, e1]
  · simp only [rxBool, rxByte, e1]

/-- The 16-bit readers combine the two bytes at the cursor in little-endian
order. -/
theorem rx_combine2 (r : MsgService) (h : r.rxPos + 2 < UINT_MOD) :
    rxInt16 r = (toI16 (rd16 r.inBuf r.rxPos), { r with rxPos := r.rxPos + 2 }) ∧
    rxUint16 r = (rd16 r.inBuf r.rxPos, { r with rxPos := r.rxPos + 2 }) := by
  have e1 : uadd r.rxPos 1 = r.rxPos + 1 := uadd_eq (by omega)
  have e2 : uadd (r.rxPos + 1) 1 = r.rxPos + 2 := uadd_eq (by omega)
  have b0 := byteAt_lt r.inBuf r.rxPos
  have b1 := byteAt_lt r.inBuf (r.rxPos + 1)
  have o1 := or_shl8 (byteAt r.inBuf r.rxPos) (byteAt r.inBuf (r.rxPos + 1)) b0
  have m16 : rd16 r.inBuf r.rxPos % 65536 = rd16 r.inBuf r.rxPos := by
    unfold rd16; omega
  refine ⟨?_, ?_⟩
  · simp only [rxInt16, rxByte, e1, e2, o1, rd16]
  · rw [← m16]
    simp only [rxUint16, rxByte, e1, e2, o1, rd16]

/-- The 32-bit readers combine the four bytes at the cursor in little-endian
order. -/
theorem rx_combine4 (r : MsgService) (h : r.rxPos + 4 < UINT_MOD) :
    rxInt32 r = (toI32 (rd32 r.inBuf r.rxPos), { r with rxPos := r.rxPos + 4 }) ∧
    rxUint32 r = (rd32 r.inBuf r.rxPos, { r with rxPos := r.rxPos + 4 }) := by
  have e1 : uadd r.rxPos 1 = r.rxPos + 1 := uadd_eq (by omega)
  have e2 : uadd (r.rxPos + 1) 1 = r.rxPos + 2 := uadd_eq (by omega)
  have e3 : uadd (r.rxPos + 2) 1 = r.rxPos + 3 := uadd_eq (by omega)
  have e4 : uadd (r.rxPos + 3) 1 = r.rxPos + 4 := uadd_eq (by omega)
  have b0 := byteAt_lt r.inBuf r.rxPos
  have b1 := byteAt_lt r.inBuf (r.rxPos + 1)
  have b2 := byteAt_lt r.inBuf (r.rxPos + 2)
  have b3 := byteAt_lt r.inBuf (r.rxPos + 3)
  have o1 := or_shl8 (byteAt r.inBuf r.rxPos) (byteAt r.inBuf (r.rxPos + 1)) b0
  have o2 := or_shl16 (byteAt r.inBuf r.rxPos + 256 * byteAt r.inBuf (r.rxPos + 1))
    (byteAt r.inBuf (r.rxPos + 2)) (by omega)
  have o3 := or_shl24 (byteAt r.inBuf r.rxPos + 256 * byteAt r.inBuf (r.rxPos + 1)
    + 65536 * byteAt r.inBuf (r.rxPos + 2)) (byteAt r.inBuf (r.rxPos + 3)) (by omega)
  have m32 : rd32 r.inBuf r.rxPos % 4294967296 = rd32 r.inBuf r.rxPos := by
    unfold rd32; omega
  refine ⟨?_, ?_⟩
  · simp only [rxInt32, rxByte, e1, e2, e3, e4, o1, o2, o3, rd32]
  · rw [← m32]
    simp only [rxUint32, rxByte, e1, e2, e3, e4, o1, o2, o3, rd32]

/-- Reading a value back: when the receive region holds the encoding of a
value of its type at the cursor, the typed reader of that type returns the
value (1 or 0 for a boolean) and advances the cursor by the width. -/
theorem rxValue_spec (r : MsgService) (v : Value) (hv : v.InRange)
    (h : r.rxPos + v.width < UINT_MOD)
    (hp : (r.inBuf.drop r.rxPos).take v.width = v.bytes) :
    rxValue r v = (v.decoded, { r with rxPos := r.rxPos + v.width }) := by
  cases v with
  | int8 v =>
      simp only [Value.InRange] at hv
      have k0 := byteAt_of_placed r.inBuf [(v % 256).toNat] r.rxPos 0 hp (by simp)
      simp only [Nat.add_zero, List.getD_cons_zero] at k0
      simp only [rxValue, (rx_combine1 r h).1, Value.decoded, Value.width, k0]
      have e : toI8 ((v % 256).toNat % 256) = v := by
        unfold toI8; split <;> omega
      rw [e]
  | uint8 v =>
      simp only [Value.InRange] at hv
      have k0 := byteAt_of_placed r.inBuf [v % 256] r.rxPos 0 hp (by simp)
      simp only [Nat.add_zero, List.getD_cons_zero] at k0
      simp only [rxValue, (rx_combine1 r h).2.1, Value.decoded, Value.width, k0]
      have e : v % 256 % 256 = v := by omega
      rw [e]
  | char v =>
      simp only [Value.InRange] at hv
      have k0 := byteAt_of_placed r.inBuf [v % 256] r.rxPos 0 hp (by simp)
      simp only [Nat.add_zero, List.getD_cons_zero] at k0
      simp only [rxValue, (rx_combine1 r h).2.2.1, Value.decoded, Value.width, k0]
      have e : v % 256 % 256 = v := by omega
      rw [e]
  | bool v =>
      have k0 := byteAt_of_placed r.inBuf [if v ≠ 0 then 1 else 0] r.rxPos 0 hp (by simp)
      simp only [Nat.add_zero, List.getD_cons_zero] at k0
      simp only [rxValue, (rx_combine1 r h).2.2.2, Value.decoded, Value.width, k0]
      by_cases hz : v = 0 <;> simp [hz]
  | int16 v =>
      simp only [Value.InRange] at hv
      have k0 := byteAt_of_placed r.inBuf [byteOf v 0, byteOf v 1] r.rxPos 0 hp (by simp)
      have k1 := byteAt_of_placed r.inBuf [byteOf v 0, byteOf v 1] r.rxPos 1 hp (by simp)
      simp only [Nat.add_zero, List.getD_cons_zero, List.getD_cons_succ, byteOf_zero,
        byteOf_one] at k0 k1
      simp only [rxValue, (rx_combine2 r h).1, Value.decoded, Value.width, rd16, k0, k1]
      have e : toI16 (toU8 v % 256 + 256 * (toU8 (v / 256) % 256)) = v := by
        unfold toI16 toU8; split <;> omega
      rw [e]
  | uint16 v =>
      simp only [Value.InRange] at hv
      have k0 := byteAt_of_placed r.inBuf [byteOf v 0, byteOf v 1] r.rxPos 0 hp (by simp)
      have k1 := byteAt_of_placed r.inBuf [byteOf v 0, byteOf v 1] r.rxPos 1 hp (by simp)
      simp only [Nat.add_zero, List.getD_cons_zero, List.getD_cons_succ, (byteOf_nat v).1,
        (byteOf_nat v).2.1] at k0 k1
      simp only [rxValue, (rx_combine2 r h).2, Value.decoded, Value.width, rd16, k0, k1]
      have e : v % 256 % 256 + 256 * (v / 256 % 256 % 256) = v := by omega
      rw [e]
  | int32 v =>
      simp only [Value.InRange] at hv
      have hp4 : (r.inBuf.drop r.rxPos).take
          [byteOf v 0, byteOf v 1, byteOf v 2, byteOf v 3].length
          = [byteOf v 0, byteOf v 1, byteOf v 2, byteOf v 3] := hp
      have k0 := byteAt_of_placed r.inBuf _ r.rxPos 0 hp4 (by simp)
      have k1 := byteAt_of_placed r.inBuf _ r.rxPos 1 hp4 (by simp)
      have k2 := byteAt_of_placed r.inBuf _ r.rxPos 2 hp4 (by simp)
      have k3 := byteAt_of_placed r.inBuf _ r.rxPos 3 hp4 (by simp)
      simp only [Nat.add_zero, List.getD_cons_zero, List.getD_cons_succ, byteOf_zero,
        byteOf_one, byteOf_two, byteOf_three] at k0 k1 k2 k3
      simp only [rxValue, (rx_combine4 r h).1, Value.decoded, Value.width, rd32, k0, k1, k2, k3]
      have e : toI32 (toU8 v % 256 + 256 * (toU8 (v / 256) % 256)
          + 65536 * (toU8 (v / 65536) % 256) + 16777216 * (toU8 (v / 16777216) % 256)) = v := by
        unfold toI32 toU8; split <;> omega
      rw [e]
  | uint32 v =>
      simp only [Value.InRange] at hv
      have hp4 : (r.inBuf.drop r.rxPos).take
          [byteOf v 0, byteOf v 1, byteOf v 2, byteOf v 3].length
          = [byteOf v 0, byteOf v 1, byteOf v 2, byteOf v 3] := hp
      have k0 := byteAt_of_placed r.inBuf _ r.rxPos 0 hp4 (by simp)
      have k1 := byteAt_of_placed r.inBuf _ r.rxPos 1 hp4 (by simp)
      have k2 := byteAt_of_placed r.inBuf _ r.rxPos 2 hp4 (by simp)
      have k3 := byteAt_of_placed r.inBuf _ r.rxPos 3 hp4 (by simp)
      simp only [Nat.add_zero, List.getD_cons_zero, List.getD_cons_succ, (byteOf_nat v).1,
        (byteOf_nat v).2.1, (byteOf_nat v).2.2.1, (byteOf_nat v).2.2.2] at k0 k1 k2 k3
      simp only [rxValue, (rx_combine4 r h).2, Value.decoded, Value.width, rd32, k0, k1, k2, k3]
      have e : v % 256 % 256 + 256 * (v / 256 % 256 % 256) + 65536 * (v / 65536 % 256 % 256)
          + 16777216 * (v / 16777216 % 256 % 256) = v := by omega
      rw [e]

theorem length_encode (vs : List Value) : (encode vs).length = (vs.map Value.width).sum := by
  induction vs with
  | nil => rfl
  | cons v rest ih =>
      rw [encode_cons, List.length_append, length_bytes, ih, List.map_cons, List.sum_cons]

/-- Reading a sequence of values back. -/
theorem rxValues_spec (vs : List Value) :
    ∀ r : MsgService, (∀ v ∈ vs, v.InRange) → r.rxPos + (encode vs).length < UINT_MOD →
      (r.inBuf.drop r.rxPos).take (encode vs).length = encode vs →
      rxValues r vs
        = (vs.map Value.decoded, { r with rxPos := r.rxPos + (encode vs).length }) := by
  induction vs with
  | nil => intro r _ _ _; simp [rxValues, encode]
  | cons v rest ih =>
      intro r hv h hp
      rw [encode_cons, List.length_append, length_bytes] at h hp
      have hp2 : (r.inBuf.drop r.rxPos).take v.width
          ++ ((r.inBuf.drop r.rxPos).drop v.width).take (encode rest).length
          = v.bytes ++ encode rest := by
        rw [← List.take_add]; exact hp
      have hl : ((r.inBuf.drop r.rxPos).take v.width).length = v.bytes.length := by
        have hlen := congrArg List.length hp
        rw [List.length_take, List.length_append, length_bytes] at hlen
        rw [List.length_take, length_bytes]
        omega
      obtain ⟨p1, p2⟩ := List.append_inj hp2 hl
      rw [List.drop_drop] at p2
      have e1 := rxValue_spec r v (hv v (List.mem_cons_self _ _)) (by omega) p1
      have e2 := ih { r with rxPos := r.rxPos + v.width }
        (fun w hw => hv w (List.mem_cons_of_mem _ hw)) (by simp only; omega)
        (by simp only; exact p2)
      simp only [rxValues, e1, e2, List.map_cons, encode_cons, List.length_append, length_bytes,
        Nat.add_assoc]

/-- The bytes a sequence of typed writes within the transmit region leaves at
the place where the cursor was. -/
theorem txValues_written (s : MsgService) (vs : List Value) (ha : TxAllocated s)
    (hfit : s.txPos + (encode vs).length ≤ s.outBufSize) :
    ((txValues s vs).outBuf.drop s.txPos).take (encode vs).length = encode vs ∧
      (txValues s vs).txPos = s.txPos + (encode vs).length := by
  have h1 := ha.1
  have h2 := ha.2
  rw [txValues_eq vs s (by omega)]
  refine ⟨?_, rfl⟩
  simp only
  rw [writeBytes_eq _ _ _ (by omega), List.append_assoc]
  have ht : (s.outBuf.take s.txPos).length = s.txPos := by
    rw [List.length_take]; omega
  rw [List.drop_append_of_le_length (by omega)]
  have hd : (s.outBuf.take s.txPos).drop s.txPos = [] := by
    apply List.drop_eq_nil_of_le; omega
  rw [hd, List.nil_append, List.take_append_of_le_length (by omega), List.take_length]

/-- C15: typed write and read round trip.  For values `vs` of the types Int8,
UInt8, Char, Bool, Int16, UInt16, Int32 and UInt32, each in the range of its
type (negative values and bytes with the top bit set included): when the `n`
bytes the typed writers store for `vs` (within the transmit region) are placed
in the receive region at the receive cursor, the typed readers of the same
types, called in the same order, return exactly the values written (1 for a
boolean written as nonzero, 0 for one written as zero), `rxPos` advances by
`n`, the amount `txPos` advanced by, and nothing else of the receiver changes.
A single value is the sequence of length one. -/
theorem typed_round_trip (s r : MsgService) (vs : List Value) (n : Nat)
    (hv : ∀ v ∈ vs, v.InRange) (hn : (vs.map Value.width).sum = n)
    (ha : TxAllocated s) (hfit : s.txPos + n ≤ s.outBufSize) (hrx : r.rxPos + n < UINT_MOD)
    (hplaced : (r.inBuf.drop r.rxPos).take n = ((txValues s vs).outBuf.drop s.txPos).take n) :
    (rxValues r vs).1 = vs.map Value.decoded ∧
      (rxValues r vs).2 = { r with rxPos := r.rxPos + n } ∧
      (txValues s vs).txPos = s.txPos + n := by
  have hlen : (encode vs).length = n := by rw [length_encode, hn]
  obtain ⟨w1, w2⟩ := txValues_written s vs ha (by rw [hlen]; exact hfit)
  rw [hlen] at w1 w2
  rw [w1] at hplaced
  have h := rxValues_spec vs r hv (by rw [hlen]; exact hrx) (by rw [hlen]; exact hplaced)
  rw [h, hlen]
  exact ⟨rfl, rfl, w2⟩

theorem inRange_roundTripValues : ∀ v ∈ roundTripValues, v.InRange := by
  intro v hv
  simp only [roundTripValues, List.mem_cons, List.mem_singleton, List.not_mem_nil,
    or_false] at hv
  rcases hv with rfl | rfl | rfl | rfl | rfl | rfl | rfl | rfl <;> simp [Value.InRange]

/-- The round trip of C15 on one value of each type. -/
theorem typed_round_trip_witness :
    (rxValues roundTripReceiver roundTripValues).1 = roundTripValues.map Value.decoded ∧
      (rxValues roundTripReceiver roundTripValues).2
        = { roundTripReceiver with rxPos := roundTripReceiver.rxPos + 16 } ∧
      (txValues exampleService roundTripValues).txPos = exampleService.txPos + 16 :=
  typed_round_trip exampleService roundTripReceiver roundTripValues 16 inRange_roundTripValues
    rfl txAllocated_exampleService (by decide) (by decide) (by decide)

/-! ## Registration -/

theorem step_failedRegistration (s : MsgService) (a : Action) (h : failedRegistration a = true) :
    step s a = s := by
  cases a with
  | arrive bytes => simp [failedRegistration] at h
  | poll n1 n2 => simp [failedRegistration] at h
  | call c => simp [failedRegistration] at h
  | addHandler t hd d ok =>
      simp only [failedRegistration, Bool.not_eq_true'] at h
      simp [step, addHandler, h]
  | addResetHandler hd ok =>
      simp only [failedRegistration, Bool.not_eq_true'] at h
      simp [step, addResetHandler, h]

/-- C16: registration result and atomicity.  When the node is allocated,
`addHandler` and `addResetHandler` return 0 and the new registration is the
head of its list, in front of the earlier registrations in their order; when
the allocation fails they return -1 and the service is unchanged in every
field, so a dispatch and a handshake after the failed call are those before
it, and a run of the program is the run with the failed registrations left
out. -/
theorem registration_atomicity (s : MsgService) (t : Int) (h : msgHandler) (d : Nat)
    (cb : Callback) (acts : List Action) :
    addHandler s t h d true = (0, { s with msgHandlers := ⟨t, h, d⟩ :: s.msgHandlers }) ∧
      addResetHandler s cb true = (0, { s with resetHandlers := cb :: s.resetHandlers }) ∧
      addHandler s t h d false = (-1, s) ∧ addResetHandler s cb false = (-1, s) ∧
      dispatchMsg (addHandler s t h d false).2 = dispatchMsg s ∧
      connect (addResetHandler s cb false).2 = connect s ∧
      exec s (acts.filter (fun a => !failedRegistration a)) = exec s acts := by
  refine ⟨rfl, rfl, rfl, rfl, rfl, rfl, ?_⟩
  induction acts generalizing s with
  | nil => rfl
  | cons a rest ih =>
      by_cases hf : failedRegistration a = true
      · rw [List.filter_cons_of_neg (by simp [hf]), exec, step_failedRegistration s a hf]
        exact ih s
      · rw [List.filter_cons_of_pos (by simp [hf]), exec, exec]
        exact ih (step s a)

/-! ## Completion of a packet -/

/-- The end-of-packet check when the packet is complete. -/
theorem finishRead_complete (t : MsgService) (cnt : Nat) (hP : 0 < t.packetSize)
    (hr : t.packetSize ≤ uadd t.inPos cnt) :
    finishRead t cnt = resetReceiveState (dispatchMsg { t with inPos := uadd t.inPos cnt }) := by
  unfold finishRead
  simp only
  rw [if_pos ⟨hP, hr⟩]

/-- C17: completion always reinitializes.  Take a poll that finds bytes; `s1`
is the service at the read, `cnt` the count read, `s2` the service after the
read and `P` the packet size at the end-of-packet check (the header, if this
read completes it, passes the checks).  If `P` is known (nonzero) and `inPos`
reaches it, the packet is dispatched exactly once, the handlers invoked are
the registered ones whose type is the header's, none, one or several, and
after the poll the receive state is the reinitialized one (`payloadSize = 0`,
`packetSize = 0`, `inPos = 0`, `rxPos = 8`, `txPos = 8`, deadline 0) whatever
the handlers did to the cursors. -/
theorem completion_reinitializes (s s1 s2 : MsgService) (n1 n2 cnt P : Nat)
    (hav : 0 < s.port.rx.length % UINT_MOD)
    (hs1 : s1 = pollStart s n1 n2) (hcnt : cnt = clampCount s1 s.port.rx.length)
    (hs2 : s2 = readBytes s1 cnt)
    (hsize : sizeAtCheck s2 cnt = some P) (hknown : 0 < P) (hreach : P ≤ uadd s2.inPos cnt) :
    dispatches (poll s n1 n2).trace = dispatches s.trace ++ [s2.inBuf] ∧
      handlerCalls (poll s n1 n2).trace
        = handlerCalls s.trace ++ matching s.msgHandlers s2.inBuf ∧
      recvState (poll s n1 n2) = (0, 0, 0, 8, 8, 0) := by
  obtain ⟨ht, _, _⟩ := trace_pollStart s n1 n2
  rw [← hs1] at ht
  have hmh : s1.msgHandlers = s.msgHandlers := by
    rw [hs1]; unfold pollStart; split <;> rfl
  have hpoll : poll s n1 n2 = checkHeader s2 cnt := by
    unfold poll
    rw [if_pos hav, hs2, hcnt, hs1]
  have htr : s2.trace = s.trace ++ [Event.read s1.port.rx.length cnt s1.inPos s1.packetSize] := by
    rw [hs2]; simp [readBytes, ht]
  have hm2 : s2.msgHandlers = s.msgHandlers := by rw [hs2]; exact hmh
  -- the poll ends in a dispatch of the region read, followed by the reset
  have hend : ∃ t : MsgService, poll s n1 n2 = resetReceiveState (dispatchMsg t) ∧
      t.trace = s2.trace ∧ t.inBuf = s2.inBuf ∧ t.msgHandlers = s2.msgHandlers := by
    rw [hpoll]
    unfold sizeAtCheck at hsize
    unfold checkHeader
    by_cases hh : s2.inPos < sizeof_msgHdr ∧ uadd s2.inPos cnt ≥ sizeof_msgHdr
    · rw [if_pos hh] at hsize ⊢
      by_cases hb : hdr_startByte s2.inBuf ≠ MSG_PACKET_START_BYTE
      · rw [if_pos hb] at hsize; exact absurd hsize (by simp)
      · rw [if_neg hb] at hsize ⊢
        by_cases hl : hdr_len s2.inBuf > usub s2.inBufSize sizeof_msgHdr
        · rw [if_pos hl] at hsize; exact absurd hsize (by simp)
        · rw [if_neg hl] at hsize ⊢
          have hP : uadd (uadd (hdr_len s2.inBuf) sizeof_msgHdr) 2 = P := by
            simpa using hsize
          rw [finishRead_complete _ cnt (by simp only; rw [hP]; exact hknown)
            (by simp only; rw [hP]; exact hreach)]
          exact ⟨_, rfl, rfl, rfl, rfl⟩
    · rw [if_neg hh] at hsize ⊢
      have hP : s2.packetSize = P := by simpa using hsize
      rw [finishRead_complete _ cnt (by rw [hP]; exact hknown) (by rw [hP]; exact hreach)]
      exact ⟨_, rfl, rfl, rfl, rfl⟩
  obtain ⟨t, e, t1, t2, t3⟩ := hend
  obtain ⟨ev, a1, a2, _, a4, _⟩ := after_dispatch t
  rw [e]
  refine ⟨?_, ?_, rfl⟩
  · rw [a1, t1, t2, htr]
    simp [dispatches_append, dispatches, a2]
  · rw [t2, t3, hm2] at a4
    rw [a1, t1, t2, htr]
    simp [handlerCalls_append, handlerCalls, a4, matching]

/-- The statement of C17 on the cursor service: the example frame completes in
one poll, the two handlers for type 5 run and leave the cursors at 110 and 63,
and the poll ends with the reinitialized receive state. -/
theorem completion_reinitializes_witness :
    (dispatches (poll cursorService 100 100).trace
        = dispatches cursorService.trace
          ++ [(readBytes (pollStart cursorService 100 100) 13).inBuf] ∧
      handlerCalls (poll cursorService 100 100).trace
        = handlerCalls cursorService.trace
          ++ matching cursorService.msgHandlers
              (readBytes (pollStart cursorService 100 100) 13).inBuf ∧
      recvState (poll cursorService 100 100) = (0, 0, 0, 8, 8, 0)) ∧
    (matching cursorService.msgHandlers
        (readBytes (pollStart cursorService 100 100) 13).inBuf).length = 2 ∧
    (dispatchMsg (readBytes (pollStart cursorService 100 100) 13)).rxPos = 110 ∧
    (dispatchMsg (readBytes (pollStart cursorService 100 100) 13)).txPos = 63 :=
  ⟨completion_reinitializes cursorService (pollStart cursorService 100 100)
      (readBytes (pollStart cursorService 100 100) 13) 100 100 13 13 (by decide) rfl (by decide)
      rfl (by decide) (by decide) (by decide),
    by decide, by decide, by decide⟩

/-! ## The invariant of the receive state -/

/-- The shape of a poll that finds bytes, from a state that satisfies the
invariant between polls: the count read and the state it is read in. -/
theorem poll_step (s : MsgService) (n1 n2 : Nat) (hs : Sane s)
    (hint : s.port.rx.length < INT_LIMIT) (hne : s.port.rx.length ≠ 0) :
    ∃ s1 cnt, s1 = pollStart s n1 n2 ∧ Sane s1 ∧
      poll s n1 n2 = checkHeader (readBytes s1 cnt) cnt ∧
      cnt = (if 0 < s1.packetSize then
          min (min s.port.rx.length (s1.inBufSize - s1.inPos)) (s1.packetSize - s1.inPos)
        else min s.port.rx.length (s1.inBufSize - s1.inPos)) ∧
      s1.inPos + cnt ≤ s1.inBufSize ∧ uadd s1.inPos cnt = s1.inPos + cnt := by
  have hlt : s.port.rx.length < UINT_MOD := by
    rw [UINT_MOD_eq]; rw [INT_LIMIT_eq] at hint; omega
  have hs1 := sane_pollStart s n1 n2 hs
  obtain ⟨hN, hpos, hpk⟩ := hs1
  have hp64 : (pollStart s n1 n2).inPos ≤ 65545 := by
    rcases hpk with ⟨_, h⟩ | ⟨_, h1, _, h2⟩ <;> omega
  have hsum : s.port.rx.length + (pollStart s n1 n2).inPos < UINT_MOD := by
    rw [UINT_MOD_eq]; rw [INT_LIMIT_eq] at hint; omega
  have hcl := clampCount_eq (pollStart s n1 n2) s.port.rx.length hN hpos hsum
    (by
      intro h
      rcases hpk with ⟨h0, _⟩ | ⟨_, h1, _, h2⟩
      · omega
      · exact ⟨by omega, by rw [UINT_MOD_eq]; omega⟩)
  have hfit : (pollStart s n1 n2).inPos + clampCount (pollStart s n1 n2) s.port.rx.length
      ≤ (pollStart s n1 n2).inBufSize := by
    rw [hcl]; split <;> omega
  refine ⟨pollStart s n1 n2, clampCount (pollStart s n1 n2) s.port.rx.length, rfl,
    ⟨hN, hpos, hpk⟩, ?_, hcl, hfit, uadd_eq (by omega)⟩
  unfold poll
  rw [if_pos (by rw [Nat.mod_eq_of_lt hlt]; omega)]

/-- One poll keeps the relation between `packetSize` and `payloadSize`. -/
theorem poll_size (s : MsgService) (n1 n2 : Nat) (hs : Sane s)
    (hint : s.port.rx.length < INT_LIMIT)
    (hp : s.packetSize = 0 ∨
      (s.packetSize = s.payloadSize + sizeof_msgHdr + 2 ∧
        s.payloadSize + sizeof_msgHdr ≤ s.inBufSize)) :
    (poll s n1 n2).packetSize = 0 ∨
      ((poll s n1 n2).packetSize = (poll s n1 n2).payloadSize + sizeof_msgHdr + 2 ∧
        (poll s n1 n2).payloadSize + sizeof_msgHdr ≤ (poll s n1 n2).inBufSize) := by
  by_cases hav : s.port.rx.length = 0
  · have : poll s n1 n2 = s := by unfold poll; simp [hav]
    rw [this]; exact hp
  obtain ⟨s1, cnt, e1, ⟨hN, hpos, hpk⟩, hpoll, hcnt, hfit, hu⟩ := poll_step s n1 n2 hs hint hav
  have hp1 : s1.packetSize = 0 ∨
      (s1.packetSize = s1.payloadSize + sizeof_msgHdr + 2 ∧
        s1.payloadSize + sizeof_msgHdr ≤ s1.inBufSize) := by
    rw [e1]; unfold pollStart
    split
    · exact Or.inl rfl
    · exact hp
  have hr1 : (readBytes s1 cnt).inPos = s1.inPos := rfl
  rw [hpoll]
  unfold checkHeader
  simp only [hr1, hu]
  split
  · rename_i hdone
    split
    · exact Or.inl rfl
    · split
      · exact Or.inl rfl
      · rename_i hlen
        unfold finishRead
        simp only
        split
        · exact Or.inl rfl
        · have hl := hdr_len_le (readBytes s1 cnt).inBuf
          have hd2 : s1.inPos < 8 ∧ 8 ≤ s1.inPos + cnt := hdone
          have h8 : 8 ≤ s1.inBufSize := by omega
          have hlen2 : ¬ hdr_len (readBytes s1 cnt).inBuf > s1.inBufSize - 8 := by
            rw [← usub_eq h8 hN]; exact hlen
          have hpk2 : uadd (uadd (hdr_len (readBytes s1 cnt).inBuf) sizeof_msgHdr) 2
              = hdr_len (readBytes s1 cnt).inBuf + sizeof_msgHdr + 2 := by
            have h1 : uadd (hdr_len (readBytes s1 cnt).inBuf) sizeof_msgHdr
                = hdr_len (readBytes s1 cnt).inBuf + sizeof_msgHdr :=
              uadd_eq (by rw [UINT_MOD_eq, sizeof_msgHdr]; omega)
            rw [h1, uadd_eq (by rw [UINT_MOD_eq, sizeof_msgHdr]; omega)]
          refine Or.inr ⟨hpk2, ?_⟩
          show hdr_len (readBytes s1 cnt).inBuf + sizeof_msgHdr ≤ s1.inBufSize
          rw [sizeof_msgHdr]; omega
  · unfold finishRead
    simp only
    split
    · exact Or.inl rfl
    · exact hp1

/-- One action keeps the relation between `packetSize` and `payloadSize`. -/
theorem step_size (s : MsgService) (a : Action) (hs : Sane s)
    (hav : match a with
      | Action.poll _ _ => s.port.rx.length < INT_LIMIT
      | _ => True)
    (hp : s.packetSize = 0 ∨
      (s.packetSize = s.payloadSize + sizeof_msgHdr + 2 ∧
        s.payloadSize + sizeof_msgHdr ≤ s.inBufSize)) :
    (step s a).packetSize = 0 ∨
      ((step s a).packetSize = (step s a).payloadSize + sizeof_msgHdr + 2 ∧
        (step s a).payloadSize + sizeof_msgHdr ≤ (step s a).inBufSize) := by
  cases a with
  | arrive bytes => exact hp
  | poll n1 n2 => exact poll_size s n1 n2 hs hav hp
  | call c =>
    obtain ⟨_, k2, _, _, _, k6, k7, _⟩ := keeps_runCall c s
    simp only [step, k2, k6, k7]
    exact hp
  | addHandler t h d ok => cases ok <;> exact hp
  | addResetHandler h ok => cases ok <;> exact hp

/-- Every run keeps the relation between `packetSize` and `payloadSize`. -/
theorem exec_size (acts : List Action) :
    ∀ s : MsgService, Sane s → AvailInt s acts →
      (s.packetSize = 0 ∨
        (s.packetSize = s.payloadSize + sizeof_msgHdr + 2 ∧
          s.payloadSize + sizeof_msgHdr ≤ s.inBufSize)) →
      Sane (exec s acts) ∧
      ((exec s acts).packetSize = 0 ∨
        ((exec s acts).packetSize = (exec s acts).payloadSize + sizeof_msgHdr + 2 ∧
          (exec s acts).payloadSize + sizeof_msgHdr ≤ (exec s acts).inBufSize)) := by
  induction acts with
  | nil => intro s hs _ hp; exact ⟨hs, hp⟩
  | cons a rest ih =>
    intro s hs hav hp
    obtain ⟨hav1, hav2⟩ := hav
    exact ih (step s a) (step_sane s a hs hav1).1 hav2 (step_size s a hs hav1 hp)

/-- C18: the invariant of the receive state.  In every state reached from
construction by a run of polls, arrivals of bytes, calls of `send` and of the
typed accessors and registrations (`available()` returning a non-negative
`int` at every poll), observed between the actions of the run and so whenever
`poll` has returned: `packetSize` is 0 or equals `payloadSize + 8 + 2` with
`payloadSize + 8 ≤ inBufSize`; `inPos ≤ packetSize` when `packetSize` is
nonzero; and `inPos ≤ inBufSize`. -/
theorem receive_state_invariant (port : SerialWrapper)
    (connType inBufSize outBufSize entropy : Nat) (inMem outMem : List Nat) (mallocOk : Bool)
    (acts : List Action)
    (hav : AvailInt
      (construct port connType inBufSize outBufSize entropy inMem outMem mallocOk) acts) :
    RecvInvariant
      (exec (construct port connType inBufSize outBufSize entropy inMem outMem mallocOk)
        acts) := by
  obtain ⟨c1, _, _⟩ :=
    sane_construct port connType inBufSize outBufSize entropy inMem outMem mallocOk
  have h0 : (construct port connType inBufSize outBufSize entropy inMem outMem
      mallocOk).packetSize = 0 := by
    cases mallocOk <;> rfl
  obtain ⟨⟨_, s2, s3⟩, hp⟩ := exec_size acts _ c1 hav (Or.inl h0)
  refine ⟨hp, ?_, s2⟩
  intro hne
  rcases s3 with ⟨h, _⟩ | ⟨_, _, _, h⟩
  · exact absurd h hne
  · omega

theorem availInt_headerRun :
    AvailInt (construct ⟨[], []⟩ 7 32 32 305419896 [] [] true) headerRun := by
  simp only [headerRun, AvailInt, and_true, true_and]
  decide

/-- The invariant of C18 after the header run, where the packet size is known
(13, for three payload bytes) and eight bytes are held. -/
theorem receive_state_invariant_witness :
    RecvInvariant (exec (construct ⟨[], []⟩ 7 32 32 305419896 [] [] true) headerRun) ∧
      (exec (construct ⟨[], []⟩ 7 32 32 305419896 [] [] true) headerRun).packetSize = 13 ∧
      (exec (construct ⟨[], []⟩ 7 32 32 305419896 [] [] true) headerRun).payloadSize = 3 ∧
      (exec (construct ⟨[], []⟩ 7 32 32 305419896 [] [] true) headerRun).inPos = 8 :=
  ⟨receive_state_invariant ⟨[], []⟩ 7 32 32 305419896 [] [] true headerRun availInt_headerRun,
    by decide, by decide, by decide⟩

/-! ## The built-in handler and user handlers for type 0 -/

/-- A poll without stall in a state whose packet does not fit the region: it
reads what the region still has room for and does not dispatch. -/
theorem stuck_poll (s : MsgService) (n1 n2 : Nat) (hu : Undeliverable s)
    (hne : s.port.rx ≠ []) (hns : ¬ n1 > s.timeout) (hint : s.port.rx.length < INT_LIMIT) :
    poll s n1 n2 =
      { s with
        timeout := uadd n2 MSG_MAX_READ_DELAY
        inBuf := writeBytes s.inBuf s.inPos
          (s.port.rx.take (min s.port.rx.length (s.inBufSize - s.inPos)))
        port := { s.port with
          rx := s.port.rx.drop (min s.port.rx.length (s.inBufSize - s.inPos)) }
        trace := s.trace ++ [Event.read s.port.rx.length
          (min s.port.rx.length (s.inBufSize - s.inPos)) s.inPos s.packetSize]
        inPos := s.inPos + min s.port.rx.length (s.inBufSize - s.inPos) } := by
  obtain ⟨hN, hP, hP2, h8, hpos⟩ := hu
  have hM := UINT_MOD_eq
  have hI := INT_LIMIT_eq
  have hlen : 0 < s.port.rx.length := List.length_pos.mpr hne
  have hS : pollStart s n1 n2 = { s with timeout := uadd n2 MSG_MAX_READ_DELAY } := by
    unfold pollStart; rw [if_neg hns]
  have hcl := clampCount_eq { s with timeout := uadd n2 MSG_MAX_READ_DELAY } s.port.rx.length
    hN hpos (by show s.port.rx.length + s.inPos < UINT_MOD; omega)
    (fun _ => ⟨by show s.inPos ≤ s.packetSize; omega, by show s.packetSize < UINT_MOD; omega⟩)
  simp only at hcl
  rw [if_pos (by omega)] at hcl
  have hmin : min (min s.port.rx.length (s.inBufSize - s.inPos)) (s.packetSize - s.inPos)
      = min s.port.rx.length (s.inBufSize - s.inPos) := by omega
  rw [hmin] at hcl
  have hle : min s.port.rx.length (s.inBufSize - s.inPos) ≤ s.inBufSize - s.inPos :=
    Nat.min_le_right _ _
  have hu2 : uadd s.inPos (min s.port.rx.length (s.inBufSize - s.inPos))
      = s.inPos + min s.port.rx.length (s.inBufSize - s.inPos) := uadd_eq (by omega)
  unfold poll
  rw [if_pos (by rw [Nat.mod_eq_of_lt (by omega)]; exact hlen), hS]
  simp only [hcl]
  unfold checkHeader readBytes
  simp only [sizeof_msgHdr, hu2]
  rw [if_neg (by omega)]
  unfold finishRead
  simp only [hu2]
  rw [if_neg (by omega)]

/-- Deliveries without stall in a state whose packet does not fit the region:
nothing is dispatched, the packet size stays, and `inPos` grows up to
`inBufSize` and no further; what is not read stays in the transport. -/
theorem stuck_feed (ds : List Delivery) :
    ∀ s : MsgService, Undeliverable s → NonEmptyChunks ds → NoStall s.timeout ds →
      s.port.rx.length + (chunksOf ds).length < INT_LIMIT →
      (s.port.rx = [] ∨ s.inPos = s.inBufSize) →
      Undeliverable (feed s ds) ∧ (feed s ds).packetSize = s.packetSize ∧
        (feed s ds).payloadSize = s.payloadSize ∧ (feed s ds).inBufSize = s.inBufSize ∧
        dispatches (feed s ds).trace = dispatches s.trace ∧
        handlerCalls (feed s ds).trace = handlerCalls s.trace ∧
        (feed s ds).inPos
          = min (s.inPos + s.port.rx.length + (chunksOf ds).length) s.inBufSize ∧
        (feed s ds).inPos + (feed s ds).port.rx.length
          = s.inPos + s.port.rx.length + (chunksOf ds).length := by
  induction ds with
  | nil =>
      intro s hu _ _ _ hsat
      have hpos := hu.2.2.2.2
      refine ⟨hu, rfl, rfl, rfl, rfl, rfl, ?_, ?_⟩
      · simp only [feed, chunksOf, List.map_nil, List.flatten_nil, List.length_nil,
          Nat.add_zero]
        rcases hsat with h | h
        · rw [h, List.length_nil]; omega
        · omega
      · simp [feed, chunksOf]
  | cons d rest ih =>
      intro s hu hne hns hint _
      obtain ⟨hne1, hne2⟩ := nonEmptyChunks_cons hne
      obtain ⟨hns1, hns2⟩ := hns
      rw [chunksOf_cons, List.length_append] at hint ⊢
      have hua : Undeliverable (arrive s d.chunk) := hu
      have hrx : (arrive s d.chunk).port.rx ≠ [] := by
        simp [arrive, hne1]
      have hal : (arrive s d.chunk).port.rx.length = s.port.rx.length + d.chunk.length := by
        simp [arrive]
      have hp := stuck_poll (arrive s d.chunk) d.now1 d.now2 hua hrx hns1 (by rw [hal]; omega)
      obtain ⟨hN, hP, hP2, h8, hpos⟩ := hu
      rw [hal] at hp
      have hfp : (arrive s d.chunk).inPos = s.inPos := rfl
      have hfs : (arrive s d.chunk).inBufSize = s.inBufSize := rfl
      rw [hfp, hfs] at hp
      rw [feed]
      generalize poll (arrive s d.chunk) d.now1 d.now2 = p at hp
      have q1 : p.inPos
          = s.inPos + min (s.port.rx.length + d.chunk.length) (s.inBufSize - s.inPos) := by
        rw [hp]
      have q2 : p.port.rx.length = s.port.rx.length + d.chunk.length
          - min (s.port.rx.length + d.chunk.length) (s.inBufSize - s.inPos) := by
        rw [hp]; simp [arrive]
      have q3 : p.packetSize = s.packetSize := by subst hp; rfl
      have q4 : p.payloadSize = s.payloadSize := by subst hp; rfl
      have q5 : p.inBufSize = s.inBufSize := by subst hp; rfl
      have q6 : p.timeout = uadd d.now2 MSG_MAX_READ_DELAY := by rw [hp]
      have q7 : dispatches p.trace = dispatches s.trace := by
        rw [hp]; simp [arrive, dispatches_append, dispatches]
      have q8 : handlerCalls p.trace = handlerCalls s.trace := by
        rw [hp]; simp [arrive, handlerCalls_append, handlerCalls]
      have hup : Undeliverable p :=
        ⟨by rw [q5]; exact hN, by rw [q5, q3]; exact hP, by rw [q3]; exact hP2,
          by rw [q1]; omega, by rw [q1, q5]; omega⟩
      have hsat2 : p.port.rx = [] ∨ p.inPos = p.inBufSize := by
        by_cases hc : s.port.rx.length + d.chunk.length ≤ s.inBufSize - s.inPos
        · left
          apply List.length_eq_zero.mp
          rw [q2]; omega
        · right
          rw [q1, q5]; omega
      obtain ⟨i1, i2, i3, i4, i5, i6, i7, i8⟩ :=
        ih p hup hne2 (by rw [q6]; exact hns2) (by rw [q2]; omega) hsat2
      refine ⟨i1, by rw [i2, q3], by rw [i3, q4], by rw [i4, q5], by rw [i5, q7],
        by rw [i6, q8], ?_, ?_⟩
      · rw [i7, q1, q2, q5]; omega
      · rw [i8, q1, q2]; omega

/-- The poll that completes a header with start byte `'#'` whose declared
length passes the check although the packet is larger than the receive
region. -/
theorem accept_header (s s1 : MsgService) (n1 n2 cnt L : Nat)
    (hN : s.inBufSize < UINT_MOD) (hav : 0 < s.port.rx.length)
    (hint : s.port.rx.length < INT_LIMIT)
    (hs1 : s1 = pollStart s n1 n2) (hcnt : cnt = clampCount s1 s.port.rx.length)
    (hpk : s1.packetSize = 0)
    (hdone : s1.inPos < 8 ∧ 8 ≤ s1.inPos + cnt)
    (hstart : hdr_startByte (readBytes s1 cnt).inBuf = MSG_PACKET_START_BYTE)
    (hlen : hdr_len (readBytes s1 cnt).inBuf = L)
    (hlo : s.inBufSize < L + 10) (hhi : L + 8 ≤ s.inBufSize) :
    poll s n1 n2
        = { readBytes s1 cnt with
            payloadSize := L, packetSize := L + 10, inPos := s1.inPos + cnt } ∧
      cnt = min s.port.rx.length (s.inBufSize - s1.inPos) := by
  obtain ⟨ht, hsz, hport⟩ := trace_pollStart s n1 n2
  rw [← hs1] at ht hsz hport
  have hM := UINT_MOD_eq
  have hI := INT_LIMIT_eq
  have hN1 : s1.inBufSize < UINT_MOD := by rw [hsz]; exact hN
  have hcl := clampCount_eq s1 s.port.rx.length hN1 (by rw [hsz]; omega) (by omega)
    (by intro h; rw [hpk] at h; exact absurd h (Nat.lt_irrefl 0))
  rw [hpk, if_neg (Nat.lt_irrefl 0), ← hcnt, hsz] at hcl
  have hfit : s1.inPos + cnt ≤ s.inBufSize := by rw [hcl]; omega
  have hu : uadd s1.inPos cnt = s1.inPos + cnt := uadd_eq (by omega)
  have hpoll : poll s n1 n2 = checkHeader (readBytes s1 cnt) cnt := by
    unfold poll
    rw [if_pos (by rw [Nat.mod_eq_of_lt (by omega)]; exact hav), hs1, hcnt, hs1]
  have hN8 : usub s1.inBufSize sizeof_msgHdr = s.inBufSize - 8 := by
    rw [hsz]; exact usub_eq (show 8 ≤ s.inBufSize by omega) hN
  have hr1 : (readBytes s1 cnt).inPos = s1.inPos := rfl
  have hr2 : (readBytes s1 cnt).inBufSize = s1.inBufSize := rfl
  have hL : L ≤ 65535 := by rw [← hlen]; exact hdr_len_le _
  have hpk2 : uadd (uadd L sizeof_msgHdr) 2 = L + 10 := by
    have h1 : uadd L sizeof_msgHdr = L + 8 := uadd_eq (show L + 8 < UINT_MOD by omega)
    rw [h1, uadd_eq (show L + 8 + 2 < UINT_MOD by omega)]
  refine ⟨?_, hcl⟩
  rw [hpoll]
  unfold checkHeader
  rw [hr1, hr2, hu, hN8, hlen, hpk2, if_pos ⟨by simpa [sizeof_msgHdr] using hdone.1,
    by simpa [sizeof_msgHdr] using hdone.2⟩, if_neg (by simp [hstart])]
  rw [if_neg (by omega)]
  unfold finishRead
  simp only [hr1, hu]
  rw [if_neg (by omega)]
  rfl

theorem timeout_pollStart (s : MsgService) (n1 n2 : Nat) :
    (pollStart s n1 n2).timeout = uadd n2 MSG_MAX_READ_DELAY := by
  unfold pollStart
  split <;> rfl

/-- A poll that finds the deadline expired starts from the reset state. -/
theorem feed_stalled (q : MsgService) (d : Delivery) (hd : d.chunk ≠ [])
    (hint : q.port.rx.length + d.chunk.length < INT_LIMIT) (hst : d.now1 > q.timeout) :
    feed q [d] = feed (resetReceiveState q) [d] := by
  have hM := UINT_MOD_eq
  have hI := INT_LIMIT_eq
  have hl : 0 < d.chunk.length := List.length_pos.mpr hd
  have h1 : 0 < (arrive q d.chunk).port.rx.length % UINT_MOD := by
    have e : (arrive q d.chunk).port.rx.length = q.port.rx.length + d.chunk.length := by
      simp [arrive]
    rw [e, Nat.mod_eq_of_lt (by omega)]; omega
  have h2 : 0 < (arrive (resetReceiveState q) d.chunk).port.rx.length % UINT_MOD := h1
  have e1 : (if d.now1 > (arrive q d.chunk).timeout then resetReceiveState (arrive q d.chunk)
      else arrive q d.chunk) = resetReceiveState (arrive q d.chunk) := if_pos hst
  have e2 : (if d.now1 > (arrive (resetReceiveState q) d.chunk).timeout then
        resetReceiveState (arrive (resetReceiveState q) d.chunk)
      else arrive (resetReceiveState q) d.chunk) = resetReceiveState (arrive q d.chunk) := by
    split <;> rfl
  simp only [feed]
  rw [poll_stall _ _ _ h1, e1, poll_stall _ _ _ h2, e2]

/-- C20: lengths that are accepted and cannot be delivered.  Take a service
with `inBufSize ≥ 10` and a poll that completes a header with start byte `'#'`
whose declared length `L` satisfies `inBufSize - 10 < L ≤ inBufSize - 8`
(`s1` is the service at the read, `cnt` the count read, `buf` the receive
region after the read).  The header passes validation: after the poll
`payloadSize = L` and `packetSize = L + 10 > inBufSize`, and nothing is
dispatched.  For every sequence `ds` of deliveries after it during which no
stall deadline expires, nothing is dispatched, `packetSize` stays, and `inPos`
is the number of bytes that came, limited to `inBufSize`, below `packetSize`.
Once `inPos = inBufSize`, a further poll without stall reads 0 bytes, leaves
what it found in the transport and dispatches nothing; a poll that finds the
deadline expired starts over from the reset state. -/
theorem undeliverable_lengths (s s1 : MsgService) (n1 n2 cnt L : Nat) (buf : List Nat)
    (ds : List Delivery) (d : Delivery)
    (hN : s.inBufSize < UINT_MOD) (h10 : 10 ≤ s.inBufSize)
    (hav : 0 < s.port.rx.length)
    (hint : s.port.rx.length + (chunksOf ds).length + d.chunk.length < INT_LIMIT)
    (hs1 : s1 = pollStart s n1 n2) (hcnt : cnt = clampCount s1 s.port.rx.length)
    (hbuf : buf = (readBytes s1 cnt).inBuf)
    (hpk : s1.packetSize = 0)
    (hdone : s1.inPos < sizeof_msgHdr ∧ sizeof_msgHdr ≤ s1.inPos + cnt)
    (hstart : hdr_startByte buf = MSG_PACKET_START_BYTE) (hlen : hdr_len buf = L)
    (hlo : s.inBufSize - 10 < L) (hhi : L ≤ s.inBufSize - 8)
    (hne : NonEmptyChunks ds) (hns : NoStall (uadd n2 MSG_MAX_READ_DELAY) ds)
    (hd : d.chunk ≠ []) :
    ((poll s n1 n2).payloadSize = L ∧ (poll s n1 n2).packetSize = L + 10 ∧
      s.inBufSize < (poll s n1 n2).packetSize ∧
      dispatches (poll s n1 n2).trace = dispatches s.trace) ∧
    (dispatches (feed (poll s n1 n2) ds).trace = dispatches s.trace ∧
      (feed (poll s n1 n2) ds).packetSize = L + 10 ∧
      (feed (poll s n1 n2) ds).inPos
        = min (s1.inPos + s.port.rx.length + (chunksOf ds).length) s.inBufSize ∧
      (feed (poll s n1 n2) ds).inPos < (feed (poll s n1 n2) ds).packetSize) ∧
    ((feed (poll s n1 n2) ds).inPos = s.inBufSize →
      ¬ d.now1 > (feed (poll s n1 n2) ds).timeout →
        readCalls (feed (poll s n1 n2) (ds ++ [d])).trace
          = readCalls (feed (poll s n1 n2) ds).trace
            ++ [((feed (poll s n1 n2) ds).port.rx.length + d.chunk.length, 0, s.inBufSize,
                L + 10)] ∧
        (feed (poll s n1 n2) (ds ++ [d])).port.rx
          = (feed (poll s n1 n2) ds).port.rx ++ d.chunk ∧
        (feed (poll s n1 n2) (ds ++ [d])).inPos = s.inBufSize ∧
        dispatches (feed (poll s n1 n2) (ds ++ [d])).trace = dispatches s.trace) ∧
    (d.now1 > (feed (poll s n1 n2) ds).timeout →
      feed (poll s n1 n2) (ds ++ [d])
        = feed (resetReceiveState (feed (poll s n1 n2) ds)) [d]) := by
  have hM := UINT_MOD_eq
  have hI := INT_LIMIT_eq
  obtain ⟨ht, hsz, hport⟩ := trace_pollStart s n1 n2
  have hto := timeout_pollStart s n1 n2
  rw [← hs1] at ht hsz hport hto
  simp only [sizeof_msgHdr] at hdone
  have hL : L ≤ 65535 := by rw [← hlen]; exact hdr_len_le _
  obtain ⟨hp, hc⟩ := accept_header s s1 n1 n2 cnt L hN hav (by omega) hs1 hcnt hpk hdone
    (by rw [← hbuf]; exact hstart) (by rw [← hbuf]; exact hlen) (by omega) (by omega)
  generalize poll s n1 n2 = p at hp ⊢
  have p1 : p.payloadSize = L := by subst hp; rfl
  have p2 : p.packetSize = L + 10 := by subst hp; rfl
  have p3 : p.inBufSize = s.inBufSize := by subst hp; exact hsz
  have p4 : p.inPos = s1.inPos + cnt := by subst hp; rfl
  have p5 : p.timeout = uadd n2 MSG_MAX_READ_DELAY := by subst hp; exact hto
  have p6 : p.port.rx.length = s.port.rx.length - cnt := by
    subst hp; simp [readBytes, hport]
  have p7 : dispatches p.trace = dispatches s.trace := by
    subst hp; simp [readBytes, ht, dispatches_append, dispatches]
  have hup : Undeliverable p :=
    ⟨by rw [p3]; exact hN, by rw [p3, p2]; omega, by rw [p2]; omega, by rw [p4]; omega,
      by rw [p4, p3, hc]; omega⟩
  have hsat : p.port.rx = [] ∨ p.inPos = p.inBufSize := by
    by_cases hall : s.port.rx.length ≤ s.inBufSize - s1.inPos
    · left
      apply List.length_eq_zero.mp
      rw [p6, hc]; omega
    · right
      rw [p4, p3, hc]; omega
  obtain ⟨f1, f2, _, f4, f5, _, f7, f8⟩ :=
    stuck_feed ds p hup hne (by rw [p5]; exact hns) (by rw [p6]; omega) hsat
  generalize hq : feed p ds = q at f1 f2 f4 f5 f7 f8 ⊢
  have hsum : p.inPos + p.port.rx.length = s1.inPos + s.port.rx.length := by
    rw [p4, p6, hc]; omega
  refine ⟨⟨p1, p2, by rw [p2]; omega, p7⟩, ⟨by rw [f5, p7], by rw [f2, p2], ?_, ?_⟩, ?_, ?_⟩
  · rw [f7, p3]
    have e : p.inPos + p.port.rx.length + (chunksOf ds).length
        = s1.inPos + s.port.rx.length + (chunksOf ds).length := by omega
    rw [e]
  · obtain ⟨_, g2, _, _, g5⟩ := f1
    omega
  · intro hfull hnost
    rw [feed_append, hq]
    have hqa : Undeliverable (arrive q d.chunk) := f1
    have hrx : (arrive q d.chunk).port.rx ≠ [] := by simp [arrive, hd]
    have hal : (arrive q d.chunk).port.rx.length = q.port.rx.length + d.chunk.length := by
      simp [arrive]
    have hqr : q.port.rx.length + d.chunk.length < INT_LIMIT := by
      obtain ⟨_, _, _, g4, _⟩ := f1
      omega
    have hpoll := stuck_poll (arrive q d.chunk) d.now1 d.now2 hqa hrx hnost
      (by rw [hal]; exact hqr)
    have hz : min (arrive q d.chunk).port.rx.length
        ((arrive q d.chunk).inBufSize - (arrive q d.chunk).inPos) = 0 := by
      have a1 : (arrive q d.chunk).inBufSize = q.inBufSize := rfl
      have a2 : (arrive q d.chunk).inPos = q.inPos := rfl
      rw [a1, a2, f4, p3, hfull]; omega
    rw [hz] at hpoll
    simp only [feed]
    rw [hpoll]
    refine ⟨?_, ?_, ?_, ?_⟩
    · simp only [readCalls_append, readCalls, hal]
      have a2 : (arrive q d.chunk).inPos = q.inPos := rfl
      have a3 : (arrive q d.chunk).packetSize = q.packetSize := rfl
      have a4 : (arrive q d.chunk).trace = q.trace := rfl
      rw [a2, a3, a4, hfull, f2, p2]
    · simp [arrive]
    · show (arrive q d.chunk).inPos + 0 = s.inBufSize
      exact hfull
    · show dispatches ((arrive q d.chunk).trace ++ _) = dispatches s.trace
      rw [dispatches_append]
      have a4 : (arrive q d.chunk).trace = q.trace := rfl
      rw [a4, f5, p7]
      simp [dispatches]
  · intro hst
    rw [feed_append, hq]
    apply feed_stalled q d hd _ hst
    obtain ⟨_, _, _, g4, _⟩ := f1
    omega

/-- The statement of C20 on the accept service (`inBufSize = 32`, declared
length 24): the packet size is 34, thirty further bytes take `inPos` to 32 and
leave six bytes in the transport, one more poll within the deadline reads 0
bytes, and a poll after the deadline starts over from the reset state. -/
theorem undeliverable_lengths_witness :
    ((poll acceptService 1 1).payloadSize = 24 ∧ (poll acceptService 1 1).packetSize = 24 + 10 ∧
      acceptService.inBufSize < (poll acceptService 1 1).packetSize ∧
      dispatches (poll acceptService 1 1).trace = dispatches acceptService.trace) ∧
    (dispatches (feed (poll acceptService 1 1) stuckDeliveries).trace
        = dispatches acceptService.trace ∧
      (feed (poll acceptService 1 1) stuckDeliveries).packetSize = 24 + 10 ∧
      (feed (poll acceptService 1 1) stuckDeliveries).inPos
        = min ((pollStart acceptService 1 1).inPos + acceptService.port.rx.length
            + (chunksOf stuckDeliveries).length) acceptService.inBufSize ∧
      (feed (poll acceptService 1 1) stuckDeliveries).inPos
        < (feed (poll acceptService 1 1) stuckDeliveries).packetSize) ∧
    (readCalls (feed (poll acceptService 1 1) (stuckDeliveries ++ [nextByteDelivery])).trace
        = readCalls (feed (poll acceptService 1 1) stuckDeliveries).trace
          ++ [((feed (poll acceptService 1 1) stuckDeliveries).port.rx.length
                + nextByteDelivery.chunk.length, 0, acceptService.inBufSize, 24 + 10)] ∧
      (feed (poll acceptService 1 1) (stuckDeliveries ++ [nextByteDelivery])).port.rx
        = (feed (poll acceptService 1 1) stuckDeliveries).port.rx ++ nextByteDelivery.chunk ∧
      (feed (poll acceptService 1 1) (stuckDeliveries ++ [nextByteDelivery])).inPos
        = acceptService.inBufSize ∧
      dispatches (feed (poll acceptService 1 1) (stuckDeliveries ++ [nextByteDelivery])).trace
        = dispatches acceptService.trace) ∧
    feed (poll acceptService 1 1) (stuckDeliveries ++ [lateByteDelivery])
      = feed (resetReceiveState (feed (poll acceptService 1 1) stuckDeliveries))
          [lateByteDelivery] ∧
    (feed (poll acceptService 1 1) stuckDeliveries).port.rx = [2, 2, 2, 2, 2, 2] :=
  ⟨(undeliverable_lengths acceptService (pollStart acceptService 1 1) 1 1 8 24
      (readBytes (pollStart acceptService 1 1) 8).inBuf stuckDeliveries nextByteDelivery
      (by decide) (by decide) (by decide) (by decide) rfl (by decide) rfl (by decide)
      (by decide) (by decide) (by decide) (by decide) (by decide)
      (by unfold NonEmptyChunks; decide)
      (by simp only [stuckDeliveries, NoStall]; decide) (by decide)).1,
    (undeliverable_lengths acceptService (pollStart acceptService 1 1) 1 1 8 24
      (readBytes (pollStart acceptService 1 1) 8).inBuf stuckDeliveries nextByteDelivery
      (by decide) (by decide) (by decide) (by decide) rfl (by decide) rfl (by decide)
      (by decide) (by decide) (by decide) (by decide) (by decide)
      (by unfold NonEmptyChunks; decide)
      (by simp only [stuckDeliveries, NoStall]; decide) (by decide)).2.1,
    (undeliverable_lengths acceptService (pollStart acceptService 1 1) 1 1 8 24
      (readBytes (pollStart acceptService 1 1) 8).inBuf stuckDeliveries nextByteDelivery
      (by decide) (by decide) (by decide) (by decide) rfl (by decide) rfl (by decide)
      (by decide) (by decide) (by decide) (by decide) (by decide)
      (by unfold NonEmptyChunks; decide)
      (by simp only [stuckDeliveries, NoStall]; decide) (by decide)).2.2.1
      (by decide) (by decide),
    (undeliverable_lengths acceptService (pollStart acceptService 1 1) 1 1 8 24
      (readBytes (pollStart acceptService 1 1) 8).inBuf stuckDeliveries lateByteDelivery
      (by decide) (by decide) (by decide) (by decide) rfl (by decide) rfl (by decide)
      (by decide) (by decide) (by decide) (by decide) (by decide)
      (by unfold NonEmptyChunks; decide)
      (by simp only [stuckDeliveries, NoStall]; decide) (by decide)).2.2.2 (by decide),
    by decide⟩

/-! ## The advertised maximum payload size -/

theorem maxPayloadSize_eq (s : MsgService) (h12 : 12 ≤ s.inBufSize)
    (h65 : s.inBufSize ≤ 65547) : maxPayloadSize s = s.inBufSize - 12 := by
  have hM := UINT_MOD_eq
  have e1 : usub s.inBufSize sizeof_msgHdr = s.inBufSize - 8 :=
    usub_eq (show 8 ≤ s.inBufSize by omega) (by omega)
  have e2 : usub (s.inBufSize - 8) 4 = s.inBufSize - 8 - 4 :=
    usub_eq (show 4 ≤ s.inBufSize - 8 by omega) (by omega)
  unfold maxPayloadSize
  rw [e1, e2]
  omega

theorem rd16_le16 (v : Nat) (h : v ≤ 65535) : rd16 (le16 v) 0 = v := by
  simp only [rd16, le16, byteAt, List.getD_cons_zero, List.getD_cons_succ, Nat.zero_add]
  omega

/-- C21: the advertised maximum is receivable.  For a service with
`12 ≤ inBufSize ≤ 65547`, the maximum payload size `connect` stores in its
response is `inBufSize - 12`, which the 16-bit field holds without truncation
(with the transmit cursor at 8 when the response is built, these are bytes 4
and 5 of the payload of the frame sent).  A well-formed frame whose declared
payload length is at most that maximum passes the header check with
`packetSize = length + 10 ≤ inBufSize - 2`, and, polled from a freshly reset
receive state in any split into non-empty chunks without stall, is dispatched
exactly once, complete in the receive region. -/
theorem advertised_maximum_receivable (s : MsgService) (f : List Nat) (ds : List Delivery)
    (n1 n2 : Nat)
    (h12 : 12 ≤ s.inBufSize) (h65 : s.inBufSize ≤ 65547)
    (hal : TxAllocated s) (h18 : 18 ≤ s.outBufSize)
    (hr : RxAllocated s) (hrx : s.port.rx = [])
    (hstart : hdr_startByte f = MSG_PACKET_START_BYTE)
    (hflen : f.length = sizeof_msgHdr + hdr_len f + 2)
    (hM : hdr_len f ≤ maxPayloadSize s)
    (hne : NonEmptyChunks ds) (hch : chunksOf ds = f) (hns : NoStallBetween ds) :
    (maxPayloadSize s = s.inBufSize - 12 ∧ rd16 (le16 (maxPayloadSize s)) 0 = s.inBufSize - 12) ∧
    (∃ fr, (connect s).port.tx = (connectIn s).port.tx ++ [fr] ∧
      ((connectIn s).txPos = 8 →
        payloadOf fr 8 = le32 s.connId ++ le16 (s.inBufSize - 12) ++ le16 s.connType)) ∧
    ((feed (resetReceiveState s) [⟨f.take 8, n1, n2⟩]).payloadSize = hdr_len f ∧
      (feed (resetReceiveState s) [⟨f.take 8, n1, n2⟩]).packetSize = hdr_len f + 10 ∧
      dispatches (feed (resetReceiveState s) [⟨f.take 8, n1, n2⟩]).trace = dispatches s.trace ∧
      hdr_len f + 10 ≤ s.inBufSize - 2) ∧
    (∃ buf, buf.take f.length = f ∧
      dispatches (feed (resetReceiveState s) ds).trace = dispatches s.trace ++ [buf] ∧
      handlerCalls (feed (resetReceiveState s) ds).trace
        = handlerCalls s.trace ++ matching s.msgHandlers f ∧
      recvState (feed (resetReceiveState s) ds) = (0, 0, 0, 8, 8, 0)) := by
  have hmax := maxPayloadSize_eq s h12 h65
  rw [hmax] at hM
  simp only [sizeof_msgHdr] at hflen
  have hv : ValidFrame f s.inBufSize := ⟨hstart, by rw [sizeof_msgHdr]; exact hflen, by omega⟩
  refine ⟨⟨hmax, by rw [hmax]; exact rd16_le16 _ (by omega)⟩, ?_, ?_, ?_⟩
  · obtain ⟨k1, k2, k3, k4, k5⟩ := connectIn_keeps s
    obtain ⟨fr, f1, _, _, _, _, _, f7⟩ := connectOut_frame (connectIn s)
      ⟨by rw [k1, k2]; exact hal.1, by rw [k2]; exact hal.2⟩ (by rw [k2]; exact h18)
    refine ⟨fr, f1, ?_⟩
    intro hp
    have hmax2 : maxPayloadSize (connectIn s) = s.inBufSize - 12 := by
      rw [maxPayloadSize_eq _ (by rw [k5]; exact h12) (by rw [k5]; exact h65), k5]
    rw [f7 hp]
    simp only [connectResponse, hmax2, k3, k4]
  · have hne8 : NonEmptyChunks [(⟨f.take 8, n1, n2⟩ : Delivery)] := by
      intro d hd
      simp only [List.mem_singleton] at hd
      subst hd
      intro h0
      have := congrArg List.length h0
      simp only [List.length_take, List.length_nil] at this
      omega
    obtain ⟨a1, _, a3, _, _⟩ := feed_fresh_part f s [⟨f.take 8, n1, n2⟩] 8 hr hrx hv hne8
      (by simp [chunksOf]) (by omega) trivial
    obtain ⟨_, _, _, _, _, _, a7⟩ := a1
    obtain ⟨b1, b2⟩ := a7 (Nat.le_refl 8)
    exact ⟨b2, by rw [b1]; omega, a3, by omega⟩
  · obtain ⟨o1, o2, o3, _⟩ := feed_fresh_outcome f s ds hr hrx hv hne hch hns
    exact ⟨f ++ s.inBuf.drop f.length, by simp, o1, o2, o3⟩

/-- The statement of C21 on the example service (`inBufSize = 32`, advertised
maximum 20) and a frame with 20 payload bytes delivered in two chunks. -/
theorem advertised_maximum_receivable_witness :
    ((maxPayloadSize exampleService = exampleService.inBufSize - 12 ∧
      rd16 (le16 (maxPayloadSize exampleService)) 0 = exampleService.inBufSize - 12) ∧
    (∃ fr, (connect exampleService).port.tx = (connectIn exampleService).port.tx ++ [fr] ∧
      ((connectIn exampleService).txPos = 8 →
        payloadOf fr 8 = le32 exampleService.connId ++ le16 (exampleService.inBufSize - 12)
          ++ le16 exampleService.connType)) ∧
    ((feed (resetReceiveState exampleService) [⟨maxFrame.take 8, 10, 10⟩]).payloadSize
        = hdr_len maxFrame ∧
      (feed (resetReceiveState exampleService) [⟨maxFrame.take 8, 10, 10⟩]).packetSize
        = hdr_len maxFrame + 10 ∧
      dispatches (feed (resetReceiveState exampleService) [⟨maxFrame.take 8, 10, 10⟩]).trace
        = dispatches exampleService.trace ∧
      hdr_len maxFrame + 10 ≤ exampleService.inBufSize - 2) ∧
    (∃ buf, buf.take maxFrame.length = maxFrame ∧
      dispatches (feed (resetReceiveState exampleService) maxFrameDeliveries).trace
        = dispatches exampleService.trace ++ [buf] ∧
      handlerCalls (feed (resetReceiveState exampleService) maxFrameDeliveries).trace
        = handlerCalls exampleService.trace ++ matching exampleService.msgHandlers maxFrame ∧
      recvState (feed (resetReceiveState exampleService) maxFrameDeliveries)
        = (0, 0, 0, 8, 8, 0))) ∧
    hdr_len maxFrame = 20 ∧ maxPayloadSize exampleService = 20 :=
  ⟨advertised_maximum_receivable exampleService maxFrame maxFrameDeliveries 10 10 (by decide)
      (by decide) txAllocated_exampleService (by decide) rxAllocated_exampleService (by decide)
      (by decide) (by decide) (by decide) (by unfold NonEmptyChunks; decide) (by decide)
      (by simp only [maxFrameDeliveries, NoStallBetween, NoStall]; decide),
    by decide, by decide⟩

/-! ## Handler types outside the range of the type byte -/

theorem matching_type_range (l : List msgHandlerNode) (buf : List Nat) (m : msgHandlerNode)
    (h : m ∈ matching l buf) : 0 ≤ m.msgType ∧ m.msgType < 256 := by
  simp only [matching, List.mem_filter, decide_eq_true_eq] at h
  have hb := byteAt_lt buf 1
  rw [h.2]
  unfold hdr_msgType
  omega

theorem handlerCalls_finishRead (u : MsgService) (cnt : Nat) :
    ∀ m ∈ handlerCalls (finishRead u cnt).trace,
      m ∈ handlerCalls u.trace ∨ (0 ≤ m.msgType ∧ m.msgType < 256) := by
  intro m hm
  unfold finishRead at hm
  simp only at hm
  split at hm
  · obtain ⟨ev, e1, _, _, e4, _⟩ := after_dispatch { u with inPos := uadd u.inPos cnt }
    rw [e1, handlerCalls_append] at hm
    simp only [handlerCalls, List.mem_append] at hm
    rcases hm with h | h
    · exact Or.inl h
    · rw [e4] at h
      exact Or.inr (matching_type_range _ _ m h)
  · exact Or.inl hm

/-- The handler nodes a poll invokes have a type in `0 .. 255`. -/
theorem handlerCalls_poll (s : MsgService) (n1 n2 : Nat) :
    ∀ m ∈ handlerCalls (poll s n1 n2).trace,
      m ∈ handlerCalls s.trace ∨ (0 ≤ m.msgType ∧ m.msgType < 256) := by
  intro m hm
  unfold poll at hm
  split at hm
  · obtain ⟨ht, _, _⟩ := trace_pollStart s n1 n2
    simp only at hm
    generalize clampCount (pollStart s n1 n2) s.port.rx.length = cnt at hm
    have hrd : handlerCalls (readBytes (pollStart s n1 n2) cnt).trace = handlerCalls s.trace := by
      simp [readBytes, ht, handlerCalls_append, handlerCalls]
    generalize readBytes (pollStart s n1 n2) cnt = t at hm hrd
    unfold checkHeader at hm
    split at hm
    · split at hm
      · left; rw [← hrd]; exact hm
      · split at hm
        · left; rw [← hrd]; exact hm
        · rcases handlerCalls_finishRead _ cnt m hm with h | h
          · left; rw [← hrd]; exact h
          · exact Or.inr h
    · rcases handlerCalls_finishRead _ cnt m hm with h | h
      · left; rw [← hrd]; exact h
      · exact Or.inr h
  · exact Or.inl hm

/-- In every run the handler nodes invoked have a type in `0 .. 255`. -/
theorem handlerCalls_exec (acts : List Action) :
    ∀ s : MsgService, (∀ m ∈ handlerCalls s.trace, 0 ≤ m.msgType ∧ m.msgType < 256) →
      ∀ m ∈ handlerCalls (exec s acts).trace, 0 ≤ m.msgType ∧ m.msgType < 256 := by
  induction acts with
  | nil => intro s hs; exact hs
  | cons a rest ih =>
      intro s hs
      apply ih (step s a)
      intro m hm
      cases a with
      | arrive bytes => exact hs m hm
      | poll n1 n2 =>
          rcases handlerCalls_poll s n1 n2 m hm with h | h
          · exact hs m h
          · exact h
      | call c =>
          simp only [step, trace_runCall] at hm
          exact hs m hm
      | addHandler t h d ok =>
          cases ok <;> exact hs m hm
      | addResetHandler h ok =>
          cases ok <;> exact hs m hm

/-- C22: handler types outside the range of the type byte.  `addHandler`
stores the message type as the `int` it is given; `dispatchMsg` invokes the
registered nodes whose type equals the header's type byte, a value in
`0 .. 255`.  So a node registered with a type that is negative or at least 256
is not among the nodes invoked, whatever the packet, and a registered node
with a type `t` in `0 .. 255` is among them exactly when the type byte of the
packet is `t`.  In every run from construction, every handler node invoked has
a type in `0 .. 255`. -/
theorem out_of_range_types_dead (s : MsgService) (n : msgHandlerNode) (t : Int)
    (h : msgHandler) (d : Nat) (port : SerialWrapper)
    (connType inBufSize outBufSize entropy : Nat) (inMem outMem : List Nat) (mallocOk : Bool)
    (acts : List Action) :
    (addHandler s t h d true).2.msgHandlers = ⟨t, h, d⟩ :: s.msgHandlers ∧
      handlerCalls (dispatchMsg s).trace
        = handlerCalls s.trace ++ matching s.msgHandlers s.inBuf ∧
      ((n.msgType < 0 ∨ 256 ≤ n.msgType) → n ∉ matching s.msgHandlers s.inBuf) ∧
      (0 ≤ n.msgType → n.msgType < 256 → n ∈ s.msgHandlers →
        (n ∈ matching s.msgHandlers s.inBuf ↔ (hdr_msgType s.inBuf : Int) = n.msgType)) ∧
      (∀ m ∈ handlerCalls
          (exec (construct port connType inBufSize outBufSize entropy inMem outMem mallocOk)
            acts).trace,
        0 ≤ m.msgType ∧ m.msgType < 256) := by
  refine ⟨rfl, ?_, ?_, ?_, ?_⟩
  · obtain ⟨ev, e1, _, _, e4⟩ := trace_dispatchMsg s
    rw [e1, handlerCalls_append]
    simp only [handlerCalls, e4, matching]
  · intro hout hin
    have := matching_type_range _ _ n hin
    omega
  · intro _ _ hmem
    simp only [matching, List.mem_filter, decide_eq_true_eq, hmem, true_and]
    exact eq_comm
  · apply handlerCalls_exec
    intro m hm
    have e : (construct port connType inBufSize outBufSize entropy inMem outMem mallocOk).trace
        = [] := (sane_construct port connType inBufSize outBufSize entropy inMem outMem
          mallocOk).2.2
    rw [e] at hm
    simp [handlerCalls] at hm

/-- The statement of C22 on the example service with handlers registered for
the types 261, -251 and 5 and a packet of type 5: the node for type 5 is the
only one invoked. -/
theorem out_of_range_types_dead_witness :
    (addHandler wideTypeService 261 (msgHandler.user ⟨41, []⟩) 0 true).2.msgHandlers
        = ⟨261, msgHandler.user ⟨41, []⟩, 0⟩ :: wideTypeService.msgHandlers ∧
      handlerCalls (dispatchMsg wideTypeService).trace
        = handlerCalls wideTypeService.trace
          ++ matching wideTypeService.msgHandlers wideTypeService.inBuf ∧
      (⟨261, msgHandler.user ⟨41, []⟩, 0⟩ : msgHandlerNode)
        ∉ matching wideTypeService.msgHandlers wideTypeService.inBuf ∧
      (⟨-251, msgHandler.user ⟨42, []⟩, 0⟩ : msgHandlerNode)
        ∉ matching wideTypeService.msgHandlers wideTypeService.inBuf ∧
      (((⟨5, msgHandler.user ⟨43, []⟩, 0⟩ : msgHandlerNode)
          ∈ matching wideTypeService.msgHandlers wideTypeService.inBuf) ↔
        (hdr_msgType wideTypeService.inBuf : Int) = 5) ∧
      ((0 : Int) ≤ 5 ∧ (5 : Int) < 256) ∧
      handlerCalls (exec (construct ⟨[], []⟩ 7 32 32 305419896 [] [] true) wideTypeRun).trace
        = [⟨5, msgHandler.user ⟨43, []⟩, 0⟩] :=
  ⟨(out_of_range_types_dead wideTypeService ⟨261, msgHandler.user ⟨41, []⟩, 0⟩ 261
      (msgHandler.user ⟨41, []⟩) 0 ⟨[], []⟩ 7 32 32 305419896 [] [] true wideTypeRun).1,
    (out_of_range_types_dead wideTypeService ⟨261, msgHandler.user ⟨41, []⟩, 0⟩ 261
      (msgHandler.user ⟨41, []⟩) 0 ⟨[], []⟩ 7 32 32 305419896 [] [] true wideTypeRun).2.1,
    (out_of_range_types_dead wideTypeService ⟨261, msgHandler.user ⟨41, []⟩, 0⟩ 261
      (msgHandler.user ⟨41, []⟩) 0 ⟨[], []⟩ 7 32 32 305419896 [] [] true wideTypeRun).2.2.1
      (Or.inr (by decide)),
    (out_of_range_types_dead wideTypeService ⟨-251, msgHandler.user ⟨42, []⟩, 0⟩ 261
      (msgHandler.user ⟨41, []⟩) 0 ⟨[], []⟩ 7 32 32 305419896 [] [] true wideTypeRun).2.2.1
      (Or.inl (by decide)),
    (out_of_range_types_dead wideTypeService ⟨5, msgHandler.user ⟨43, []⟩, 0⟩ 261
      (msgHandler.user ⟨41, []⟩) 0 ⟨[], []⟩ 7 32 32 305419896 [] [] true wideTypeRun).2.2.2.1
      (by decide) (by decide) (by decide),
    (out_of_range_types_dead wideTypeService ⟨5, msgHandler.user ⟨43, []⟩, 0⟩ 261
      (msgHandler.user ⟨41, []⟩) 0 ⟨[], []⟩ 7 32 32 305419896 [] [] true wideTypeRun).2.2.2.2
      ⟨5, msgHandler.user ⟨43, []⟩, 0⟩ (by decide),
    by decide⟩

/-! ## The inferred length outside the range of the length field -/

/-- The frame `send` hands to the transport for a non-negative length that
fits the transmit region: its length field holds the length modulo `2^16`. -/
theorem send_wide (a : MsgService) (t i : Int) (L : Nat) (hL : L < 2147483638)
    (hfit : L + 10 ≤ a.outBuf.length) :
    ∃ fr, (send a t i (L : Int)).2.port.tx = a.port.tx ++ [fr] ∧ fr.length = L + 10 ∧
      hdr_len fr = L % 65536 := by
  have hsz : toI32 (toU32 ((sizeof_msgHdr : Int) + (L : Int))) = ((8 + L : Nat) : Int) := by
    have h1 : toU32 ((sizeof_msgHdr : Int) + (L : Int)) = 8 + L := by
      unfold toU32 sizeof_msgHdr; omega
    rw [h1]
    unfold toI32
    have h2 : (8 + L) % 4294967296 = 8 + L := Nat.mod_eq_of_lt (by omega)
    rw [h2, if_pos (by omega)]
  have hs0 : ¬ (((8 + L : Nat) : Int) < 0) := by omega
  have hs1 : ¬ (((8 + L : Nat) : Int) + 1 < 0) := by omega
  have e1 : (((8 + L : Nat) : Int)).toNat = 8 + L := by omega
  have e2 : (((8 + L : Nat) : Int) + 1).toNat = 9 + L := by omega
  have e3 : (((8 + L : Nat) : Int) + 2).toNat = L + 10 := by omega
  unfold send
  simp only [hsz, toU16_ofNat, le16, writeBytes, setInt, hs0, hs1, if_false, e1, e2, e3]
  refine ⟨_, rfl, ?_, ?_⟩
  · simp only [List.length_take, List.length_set]
    omega
  · simp only [hdr_len, rd16]
    rw [byteAt_take _ _ _ (by omega), byteAt_take _ _ _ (by omega),
      byteAt_set_ne _ _ 4 _ (by omega), byteAt_set_ne _ _ 4 _ (by omega),
      byteAt_set_ne _ _ 4 _ (by omega), byteAt_set_eq _ _ _ (by simp; omega),
      byteAt_set_ne _ _ (4 + 1) _ (by omega), byteAt_set_ne _ _ (4 + 1) _ (by omega),
      byteAt_set_eq _ _ _ (by simp; omega)]
    omega

theorem length_encode_wideValues : (encode wideValues).length = 65536 := by
  rw [length_encode, wideValues, List.map_replicate, List.sum_replicate]
  rfl

/-- C13 (counterexample): in the big sender (`txPos = 8`, transmit region of
65546 bytes) typed writes store 65536 bytes, all within the region;
`send(1,2)` then hands the transport a frame of 65546 bytes whose length field
is 0, not 65536. -/
theorem inferred_length_send_counterexample :
    TxAllocated bigSender ∧ bigSender.txPos = 8 ∧ (encode wideValues).length = 65536 ∧
      65536 + 10 ≤ bigSender.outBufSize ∧
      (∃ fr, (send2 (txValues bigSender wideValues) 1 2).2.port.tx = bigSender.port.tx ++ [fr] ∧
        fr.length = 65536 + 10 ∧ hdr_len fr = 0) ∧
      ¬ ∃ fr, (send2 (txValues bigSender wideValues) 1 2).2.port.tx
            = bigSender.port.tx ++ [fr] ∧
          hdr_len fr = 65536 ∧ payloadOf fr 65536 = encode wideValues := by
  have hM := UINT_MOD_eq
  have hlen := length_encode_wideValues
  have hpos : bigSender.txPos = 8 := rfl
  have hbl : bigSender.outBuf.length = 65546 := by
    simp only [bigSender, List.length_replicate]
  have hw : txValues bigSender wideValues =
      { bigSender with
        outBuf := writeBytes bigSender.outBuf 8 (encode wideValues), txPos := 8 + 65536 } := by
    rw [txValues_eq wideValues bigSender (by rw [hpos, hlen]; omega), hpos, hlen]
  have hcast : (((8 + 65536 : Nat) : Int) - 8) = ((65536 : Nat) : Int) := by omega
  have hs : send2 (txValues bigSender wideValues) 1 2
      = send (txValues bigSender wideValues) 1 2 ((65536 : Nat) : Int) := by
    rw [send2, send_len_wrap, hw]
    simp only [hcast]
  obtain ⟨fr, f1, f2, f3⟩ := send_wide (txValues bigSender wideValues) 1 2 65536 (by omega)
    (by rw [hw]; simp only; rw [length_writeBytes, hbl])
  have hport : (txValues bigSender wideValues).port.tx = bigSender.port.tx := by rw [hw]
  rw [← hs, hport] at f1
  refine ⟨txAllocated_bigSender, hpos, hlen, by decide, ⟨fr, f1, f2, f3⟩, ?_⟩
  rintro ⟨g, _, g2, _⟩
  have := hdr_len_le g
  omega

end MsgSvc
